import Mathlib

/-!
Repository manager (`script.js`): registry, credential store and navigation state

A shallow embedding of the state-changing functions of `src/script.js`
(`loadFromStorage`, `saveToStorage`, `addRepository`, `selectRepository`,
`removeRepository`, `clearAllRepos`, `exportRepos`, `importRepos`, `loadContents`
and the parts of the rendering functions that can throw), of `renderBreadcrumb`, and
of the functions that write to the remote repository (`createFile`, `createFolder`,
`saveFile`, `confirmRename`, `uploadFiles`), together with the properties of the
specification that concern them.

Conventions of the embedding

* JavaScript values that come out of `JSON.parse` are modelled by `JValue`.
  Numbers are represented by integers: the code only ever tests a number for
  being zero (truthiness) or compares it with a string (always unequal).
  Objects are association lists in property order; every object produced by
  `JSON.parse` or by an object literal of the source has pairwise distinct keys.
* `undefined` is `none` in an `Option JValue`.
* `JSON.parse`, `JSON.stringify` and the choice of comparisons made by
  `Array.prototype.sort` are built-ins of the platform, not code of the
  repository; they are the fields of `Platform`.
* The clock (`Date.now()`, `new Date().toISOString()`), the answers to
  `confirm(...)`, the form fields and the HTTP responses are explicit inputs.
* The global variables of the script are the fields of `State`.  Notifications
  (`showAlert`) and errors that escape a function are appended to two logs of
  the state so that they can be talked about.
* The DOM elements the script looks up by id are assumed to exist, and
  `localStorage.setItem` is assumed not to exceed its quota.
* The content of a file is a JavaScript string, a list of UTF-16 code units; the
  built-in functions applied to it (`encodeURIComponent`, `unescape`, `btoa`, `atob`,
  `escape`, `decodeURIComponent`) are defined after their specifications.
-/

namespace RepoManager

/-! ## JSON values -/

/-- A value as produced by `JSON.parse`. -/
inductive JValue where
  | null : JValue
  | bool (b : Bool) : JValue
  | num (n : Int) : JValue
  | str (s : String) : JValue
  | arr (items : List JValue) : JValue
  | obj (fields : List (String × JValue)) : JValue

namespace JValue

mutual
/-- Structural equality test on JSON values. -/
def beq : JValue → JValue → Bool
  | .null, .null => true
  | .bool a, .bool b => a == b
  | .num a, .num b => a == b
  | .str a, .str b => a == b
  | .arr a, .arr b => beqList a b
  | .obj a, .obj b => beqFields a b
  | _, _ => false
/-- Structural equality test on lists of JSON values. -/
def beqList : List JValue → List JValue → Bool
  | [], [] => true
  | x :: xs, y :: ys => beq x y && beqList xs ys
  | _, _ => false
/-- Structural equality test on property lists. -/
def beqFields : List (String × JValue) → List (String × JValue) → Bool
  | [], [] => true
  | (k, x) :: xs, (l, y) :: ys => k == l && beq x y && beqFields xs ys
  | _, _ => false
end

mutual
theorem beq_iff : ∀ a b : JValue, beq a b = true ↔ a = b
  | .null, b => by cases b <;> simp [beq]
  | .bool x, b => by cases b <;> simp [beq]
  | .num x, b => by cases b <;> simp [beq]
  | .str x, b => by cases b <;> simp [beq]
  | .arr xs, b => by
      cases b with
      | arr ys => simp [beq, beqList_iff xs ys]
      | _ => simp [beq]
  | .obj xs, b => by
      cases b with
      | obj ys => simp [beq, beqFields_iff xs ys]
      | _ => simp [beq]
theorem beqList_iff : ∀ a b : List JValue, beqList a b = true ↔ a = b
  | [], [] => by simp [beqList]
  | [], _ :: _ => by simp [beqList]
  | _ :: _, [] => by simp [beqList]
  | x :: xs, y :: ys => by simp [beqList, beq_iff x y, beqList_iff xs ys]
theorem beqFields_iff :
    ∀ a b : List (String × JValue), beqFields a b = true ↔ a = b
  | [], [] => by simp [beqFields]
  | [], _ :: _ => by simp [beqFields]
  | _ :: _, [] => by simp [beqFields]
  | (k, x) :: xs, (l, y) :: ys => by
      simp [beqFields, beq_iff x y, beqFields_iff xs ys, and_assoc]
end

instance : DecidableEq JValue := fun a b => decidable_of_iff _ (beq_iff a b)

/-- The JavaScript test `Array.isArray(v)`. -/
def isArray : JValue → Bool
  | .arr _ => true
  | _ => false

/-- ToBoolean on a JSON value. -/
def truthy : JValue → Bool
  | .null => false
  | .bool b => b
  | .num n => n != 0
  | .str s => s != ""
  | .arr _ => true
  | .obj _ => true

/-- Own property `key` of an object, `none` being `undefined`.  For the property names
the script reads from registry entries and directory entries (`id`, `token`, `owner`,
`repo`, `addedAt`, `type`, `name`) strings, numbers, booleans and arrays have no such
property, so the read yields `undefined` there as well. -/
def field (v : JValue) (key : String) : Option JValue :=
  match v with
  | .obj fields => (fields.find? (fun p => p.1 == key)).map (fun p => p.2)
  | _ => none

/-- Assignment `o.key = value` on property lists: an existing property keeps its
place, a new property goes last. -/
def setField : List (String × JValue) → String → JValue → List (String × JValue)
  | [], key, value => [(key, value)]
  | (k, x) :: rest, key, value =>
      if k == key then (k, value) :: rest else (k, x) :: setField rest key value

/-- Assignment `v.key = value`; on a primitive the assignment has no effect. -/
def set (v : JValue) (key : String) (value : JValue) : JValue :=
  match v with
  | .obj fields => .obj (setField fields key value)
  | other => other

end JValue

/-- ToBoolean on a possibly `undefined` value. -/
def truthyOpt : Option JValue → Bool
  | none => false
  | some v => v.truthy

/-- The comparison `x === s` of a possibly `undefined` JSON value with a string. -/
def strictEqStr : Option JValue → String → Bool
  | some (.str t), s => t == s
  | _, _ => false

/-- What a function of the script can throw. -/
inductive Thrown where
  | typeError : Thrown
  | syntaxError : Thrown
  | error (message : String) : Thrown
  deriving DecidableEq, Repr

deriving instance DecidableEq for Except

/-! ## Coercions that can throw -/

mutual
/-- ToString (and ToNumber) of a JSON value throws a `TypeError` exactly when an object with
an own property `toString` is reached: that property is not callable and
`Object.prototype.valueOf` returns the object itself.  Arrays are joined, so the
conversion descends into their elements. -/
def toStringThrows : JValue → Bool
  | .obj fields => fields.any (fun p => p.1 == "toString")
  | .arr items => joinThrows items
  | _ => false
/-- The conversion of some element throws while an array is joined. -/
def joinThrows : List JValue → Bool
  | [] => false
  | x :: xs => toStringThrows x || joinThrows xs
end

/-- The interpolation of a possibly `undefined` value into a template literal throws. -/
def interpolationThrows : Option JValue → Bool
  | none => false
  | some v => toStringThrows v

/-- The value is a string, so that a string method can be called on it. -/
def isString : Option JValue → Bool
  | some (.str _) => true
  | _ => false

/-! ## Strings -/

/-- WhiteSpace and LineTerminator code points, the characters `String.prototype.trim`
removes. -/
def isJsWhitespace (c : Char) : Bool :=
  let n := c.toNat
  n == 0x09 || n == 0x0A || n == 0x0B || n == 0x0C || n == 0x0D || n == 0x20 ||
  n == 0xA0 || n == 0x1680 || (0x2000 ≤ n && n ≤ 0x200A) || n == 0x2028 ||
  n == 0x2029 || n == 0x202F || n == 0x205F || n == 0x3000 || n == 0xFEFF

/-- The method `trim()`. -/
def jsTrim (s : String) : String :=
  String.mk ((s.data.dropWhile isJsWhitespace).reverse.dropWhile isJsWhitespace).reverse

/-- The method `startsWith(p)`. -/
def startsWith (s p : String) : Bool :=
  p.data.isPrefixOf s.data

/-! ## Platform, state and notifications -/

/-- The built-ins the script relies on.  `parse` is `JSON.parse` (`none` when it throws a
`SyntaxError`), `stringify v n` is `JSON.stringify(v, null, n)`, and `sortComparisons l`
lists the pairs that `Array.prototype.sort` hands to the comparator of `renderContents`
for the array `l`; the engine chooses them, but only among the elements of `l`. -/
structure Platform where
  parse : String → Option JValue
  stringify : JValue → Nat → String
  sortComparisons : List JValue → List (JValue × JValue)
  sortComparisons_mem : ∀ l p, p ∈ sortComparisons l → p.1 ∈ l ∧ p.2 ∈ l

/-- The calls of `showAlert` the modelled functions make. -/
inductive Alert where
  /-- The call `showAlert('Validation Error', 'Please fill all fields', 'error')`. -/
  | validationError : Alert
  /-- The call `showAlert('Success', 'Repository updated successfully', 'success')`. -/
  | updated : Alert
  /-- The call `showAlert('Success', 'Repository added successfully', 'success')`. -/
  | added : Alert
  /-- The call `showAlert('Success', 'Repository removed', 'success')`. -/
  | removed : Alert
  /-- The call `showAlert('Success', 'All repositories cleared', 'success')`. -/
  | cleared : Alert
  /-- The call `showAlert('Warning', 'No repositories to export', 'warning')`. -/
  | nothingToExport : Alert
  /-- The call `showAlert('Success', 'Repositories exported successfully', 'success')`. -/
  | exported : Alert
  /-- The call `showAlert('Success', 'Imported n repositories', 'success')`, `n` being
  `data.length`. -/
  | imported (count : Nat) : Alert
  /-- The call `showAlert('Error', 'Invalid file format: ' + error.message, 'error')`. -/
  | importFailed (cause : Thrown) : Alert
  /-- The call `showAlert('Error', error.message, 'error')` of `loadContents`. -/
  | loadFailed (cause : Thrown) : Alert
  deriving DecidableEq, Repr

/-- The error `importRepos` throws for a document that is not an array. -/
def invalidFormat : Thrown := .error "Invalid data format"

/-- The error `importRepos` throws for a record that fails the validation. -/
def invalidRecord : Thrown := .error "Invalid repository data"

/-- The object `currentRepo` refers to.  `currentRepo = repo` stores a reference to an
element of `repositories`, so a later assignment to that element is seen through
`currentRepo`: `index` is the position of the object in `repositories` for as long as
it is an element of that array, and `value` is its present content. -/
structure Active where
  value : JValue
  index : Option Nat
  deriving DecidableEq

/-- The global variables of the script, the item of `localStorage` under
`'github-repos-manager-v2'`, and the two logs. -/
structure State where
  repositories : JValue
  currentRepo : Option Active
  currentPath : String
  currentContents : List JValue
  storage : Option String
  alerts : List Alert
  uncaught : List Thrown
  deriving DecidableEq

/-- The state when the script has been evaluated, before `DOMContentLoaded`. -/
def State.initial (stored : Option String) : State :=
  { repositories := .arr [], currentRepo := none, currentPath := "",
    currentContents := [], storage := stored, alerts := [], uncaught := [] }

/-- The function `showAlert`. -/
def showAlert (s : State) (a : Alert) : State :=
  { s with alerts := s.alerts ++ [a] }

/-- An error escapes the running function. -/
def raise (s : State) (e : Thrown) : State :=
  { s with uncaught := s.uncaught ++ [e] }

/-- The object `currentRepo` refers to is no longer an element of `repositories`. -/
def detach : Option Active → Option Active
  | none => none
  | some a => some { a with index := none }

/-! ## Rendering: where it throws

The rendering functions write to the DOM only, but an error thrown while they run
cuts short the function that called them, or lands in its `catch` block. -/

/-- The function `updateStats` throws: `repositories.length` when `repositories` is `null`,
or the interpolation of `currentRepo.owner` and `currentRepo.repo`. -/
def updateStatsThrows (s : State) : Bool :=
  s.repositories == .null ||
  match s.currentRepo with
  | none => false
  | some a =>
      interpolationThrows (a.value.field "owner") ||
      interpolationThrows (a.value.field "repo")

/-- The callback of `repositories.map` in `renderRepoList` throws for the entry `repo`:
`repo.id` on `null`, `new Date(repo.addedAt)`, the interpolation of `repo.id`,
`repo.owner` and `repo.repo`, or `repo.token.substring` when the token is not a
string. -/
def repoItemThrows (repo : JValue) : Bool :=
  repo == .null ||
  interpolationThrows (repo.field "addedAt") ||
  interpolationThrows (repo.field "id") ||
  interpolationThrows (repo.field "owner") ||
  interpolationThrows (repo.field "repo") ||
  !isString (repo.field "token")

/-- The function `renderRepoList` throws.  It returns early when
`repositories.length === 0`; otherwise it calls `repositories.map`, which only an
array has. -/
def renderRepoListThrows (repositories : JValue) : Bool :=
  match repositories with
  | .null => true
  | .arr entries => entries.any repoItemThrows
  | .str t => t != ""
  | .obj fields => !((JValue.obj fields).field "length" == some (.num 0))
  | _ => true

/-- The test `item.type === 'dir'`. -/
def isDir (item : JValue) : Bool :=
  strictEqStr (item.field "type") "dir"

/-- The comparator of `renderContents` throws on `(a, b)`: a `null` operand, or,
when both are folders or both are not, `a.name.localeCompare(b.name)` with `a.name`
not a string or `b.name` not convertible. -/
def compareThrows (a b : JValue) : Bool :=
  a == .null || b == .null ||
  (isDir a == isDir b &&
    (!isString (a.field "name") || interpolationThrows (b.field "name")))

/-- The functions `renderFileCard` and `renderFileRow` (they read the same properties)
throw for `item`. -/
def fileItemThrows (item : JValue) : Bool :=
  item == .null ||
  (!isDir item &&
    (!isString (item.field "name") || interpolationThrows (item.field "size"))) ||
  (truthyOpt (item.field "last_modified") &&
    interpolationThrows (item.field "last_modified")) ||
  interpolationThrows (item.field "path") ||
  interpolationThrows (item.field "name") ||
  interpolationThrows (item.field "sha")

/-- The function `renderContents` throws for the listing `contents`. -/
def renderContentsThrows (P : Platform) (contents : List JValue) : Bool :=
  !contents.isEmpty &&
  ((P.sortComparisons contents).any (fun p => compareThrows p.1 p.2) ||
    contents.any fileItemThrows)

/-! ## Credential store -/

/-- The function `saveToStorage` up to its call of `updateStats`. -/
def setItem (P : Platform) (s : State) : State :=
  { s with storage := some (P.stringify s.repositories 0) }

/-- One of the calls `updateStats(); renderRepoList();` throws (`saveToStorage` ends with
the first of them). -/
def saveAndRenderThrows (s : State) : Bool :=
  updateStatsThrows s || renderRepoListThrows s.repositories

/-- The function `loadFromStorage`. -/
def loadFromStorage (P : Platform) (s : State) : State :=
  let s1 : State :=
    match s.storage with
    | none => s
    | some saved =>
        if saved = "" then s
        else
          match P.parse saved with
          | some v => { s with repositories := v, currentRepo := detach s.currentRepo }
          | none => { s with repositories := .arr [], currentRepo := detach s.currentRepo }
  if saveAndRenderThrows s1 then raise s1 .typeError else s1

/-- The calls `saveToStorage(); renderRepoList();`: the item is written, then an error
of the rendering escapes. -/
def saveAndRender (P : Platform) (s : State) : State :=
  let s1 := setItem P s
  if saveAndRenderThrows s1 then raise s1 .typeError else s1

/-! ## Repository registry -/

/-- The method `find` with a callback that reads a property of the element: the first
element satisfying `p` and its index, a `TypeError` when a `null` element comes first. -/
def findThrowing (p : JValue → Bool) : List JValue → Except Thrown (Option (Nat × JValue))
  | [] => .ok none
  | x :: xs =>
      if x == .null then .error .typeError
      else if p x then .ok (some (0, x))
      else
        match findThrowing p xs with
        | .ok (some (i, y)) => .ok (some (i + 1, y))
        | other => other

/-- The callback `r => r.owner === owner && r.repo === repo`. -/
def matchesOwnerRepo (owner repo : String) (r : JValue) : Bool :=
  strictEqStr (r.field "owner") owner && strictEqStr (r.field "repo") repo

/-- The callback `r => r.id === id`. -/
def matchesId (id : String) (r : JValue) : Bool :=
  strictEqStr (r.field "id") id

/-- Apply `f` to the element at position `i`. -/
def updateAt (f : JValue → JValue) : List JValue → Nat → List JValue
  | [], _ => []
  | x :: xs, 0 => f x :: xs
  | x :: xs, i + 1 => x :: updateAt f xs i

/-- The two assignments `exists.token = token; exists.updatedAt = ...`. -/
def refreshToken (token updatedAt : String) (r : JValue) : JValue :=
  (r.set "token" (.str token)).set "updatedAt" (.str updatedAt)

/-- The object literal pushed by `addRepository`. -/
def newEntry (id token owner repo addedAt : String) : JValue :=
  .obj [("id", .str id), ("token", .str token), ("owner", .str owner),
        ("repo", .str repo), ("addedAt", .str addedAt)]

/-- What `addRepository` reads from outside: the three form fields, the answers to the
two `confirm` dialogs, `Date.now()` and `new Date().toISOString()`. -/
structure AddForm where
  token : String
  owner : String
  repo : String
  confirmFormat : Bool
  confirmUpdate : Bool
  nowMs : Nat
  nowIso : String

/-- The function `addRepository`. -/
def addRepository (P : Platform) (f : AddForm) (s : State) : State :=
  let token := jsTrim f.token
  let owner := jsTrim f.owner
  let repo := jsTrim f.repo
  if token = "" ∨ owner = "" ∨ repo = "" then showAlert s .validationError
  else if !startsWith token "ghp_" && !startsWith token "github_pat_" && !f.confirmFormat then s
  else
    match s.repositories with
    | .arr entries =>
        match findThrowing (matchesOwnerRepo owner repo) entries with
        | .error e => raise s e
        | .ok (some (i, _)) =>
            if !f.confirmUpdate then s
            else
              let active :=
                match s.currentRepo with
                | some a =>
                    if a.index = some i then
                      some { a with value := refreshToken token f.nowIso a.value }
                    else some a
                | none => none
              let updated := updateAt (refreshToken token f.nowIso) entries i
              saveAndRender P
                (showAlert { s with repositories := .arr updated, currentRepo := active } .updated)
        | .ok none =>
            let entry := newEntry (toString f.nowMs) token owner repo f.nowIso
            saveAndRender P (showAlert { s with repositories := .arr (entries ++ [entry]) } .added)
    | _ => raise s .typeError

/-- The test `currentRepo?.id === id`. -/
def activeIdIs (id : String) (s : State) : Bool :=
  match s.currentRepo with
  | some a => matchesId id a.value
  | none => false

/-- Where the active object sits after `repositories.filter(keep)`. -/
def reindex (keep : JValue → Bool) (entries : List JValue) (a : Active) : Active :=
  match a.index with
  | none => a
  | some i =>
      if keep a.value then { a with index := some ((entries.take i).filter keep).length }
      else { a with index := none }

/-- The function `removeRepository`; `confirmed` is the answer to the dialog. -/
def removeRepository (P : Platform) (id : String) (confirmed : Bool) (s : State) : State :=
  if !confirmed then s
  else
    match s.repositories with
    | .arr entries =>
        if entries.any (fun r => r == .null) then raise s .typeError
        else
          let keep := fun r => !matchesId id r
          let s1 := setItem P
            { s with repositories := .arr (entries.filter keep),
                     currentRepo := s.currentRepo.map (reindex keep entries) }
          if saveAndRenderThrows s1 then raise s1 .typeError
          else
            let s2 := if activeIdIs id s1 then { s1 with currentRepo := none } else s1
            if updateStatsThrows s2 then raise s2 .typeError else showAlert s2 .removed
    | _ => raise s .typeError

/-- The function `clearAllRepos`; `confirmed` is the answer to the dialog. -/
def clearAllRepos (P : Platform) (confirmed : Bool) (s : State) : State :=
  if !confirmed then s
  else
    let s1 := setItem P { s with repositories := .arr [], currentRepo := detach s.currentRepo }
    if saveAndRenderThrows s1 then raise s1 .typeError
    else
      let s2 := { s1 with currentRepo := none }
      if updateStatsThrows s2 then raise s2 .typeError else showAlert s2 .cleared

/-- The test `repositories.length === 0`, which throws on `null`. -/
def lengthIsZero : JValue → Except Thrown Bool
  | .null => .error .typeError
  | .arr entries => .ok entries.isEmpty
  | .str t => .ok (t == "")
  | .obj fields => .ok ((JValue.obj fields).field "length" == some (.num 0))
  | _ => .ok false

/-- The function `exportRepos`: the new state and the text offered for download. -/
def exportRepos (P : Platform) (s : State) : State × Option String :=
  match lengthIsZero s.repositories with
  | .error e => (raise s e, none)
  | .ok true => (showAlert s .nothingToExport, none)
  | .ok false => (showAlert s .exported, some (P.stringify s.repositories 2))

/-- The callback `r => r.id && r.token && r.owner && r.repo && r.addedAt`, as `every`
reads its result. -/
def validRecord (r : JValue) : Bool :=
  truthyOpt (r.field "id") && truthyOpt (r.field "token") && truthyOpt (r.field "owner") &&
  truthyOpt (r.field "repo") && truthyOpt (r.field "addedAt")

/-- The call `data.every(...)` of `importRepos`: it stops at the first record that fails,
and throws a `TypeError` when it meets `null` before that. -/
def everyValid : List JValue → Except Thrown Bool
  | [] => .ok true
  | r :: rest =>
      if r == .null then .error .typeError
      else if validRecord r then everyValid rest
      else .ok false

/-- The handler `reader.onload` of `importRepos`, `text` being the content of the chosen
file. -/
def importRepos (P : Platform) (text : String) (s : State) : State :=
  match P.parse text with
  | none => showAlert s (.importFailed .syntaxError)
  | some (.arr items) =>
      match everyValid items with
      | .error e => showAlert s (.importFailed e)
      | .ok false => showAlert s (.importFailed invalidRecord)
      | .ok true =>
          let s1 := setItem P
            { s with repositories := .arr items, currentRepo := detach s.currentRepo }
          if saveAndRenderThrows s1 then showAlert s1 (.importFailed .typeError)
          else showAlert s1 (.imported items.length)
  | some _ => showAlert s (.importFailed invalidFormat)

/-! ## Navigation -/

/-- What `loadContents` hands to `fetch`: the URL is built from `owner`, `repo` and `path`,
the `Authorization` header from `token`. -/
structure Request where
  owner : Option JValue
  repo : Option JValue
  token : Option JValue
  path : String
  deriving DecidableEq

/-- How the promise of `fetch` settles: it rejects, or it resolves with a response of the
given status whose `json()` yields `body` (`none` when `json()` rejects). -/
inductive FetchResult where
  | rejected : FetchResult
  | responded (status : Nat) (body : Option JValue) : FetchResult
  deriving DecidableEq

/-- The property `response.ok`. -/
def statusOk (status : Nat) : Bool :=
  200 ≤ status && status ≤ 299

/-- The error `loadContents` throws for a response that is not `ok`. -/
def statusError (status : Nat) : Thrown :=
  if status = 401 then .error "Invalid token or unauthorized"
  else if status = 404 then .error "Repository or path not found"
  else .error ("Failed to load contents (" ++ toString status ++ ")")

/-- The `catch` block of `loadContents`; `renderContents` does not throw on the empty
listing. -/
def loadFailed (s : State) (e : Thrown) : State :=
  { showAlert s (.loadFailed e) with currentContents := [] }

/-- The expression `Array.isArray(data) ? data : [data]`. -/
def toListing : JValue → List JValue
  | .arr items => items
  | data => [data]

/-- The assignment `currentContents = Array.isArray(data) ? data : [data]`. -/
def storeListing (data : JValue) (s : State) : State :=
  { s with currentContents := toListing data }

/-- The rest of the `try` block after the assignment: `renderContents()` and
`renderBreadcrumb()`, an error of which lands in the `catch` block. -/
def renderStored (P : Platform) (s : State) : State :=
  if renderContentsThrows P s.currentContents then loadFailed s .typeError else s

/-- How far a call of `loadContents` gets before it waits for the response: it returns at
once or an error escapes before the `try` block (`idle`), an error inside the `try`
block is caught before `fetch` is called (`caught`), or the request is issued. -/
inductive Started where
  | idle : Started
  | caught : Started
  | issued (request : Request) : Started
  deriving DecidableEq

/-- The function `loadContents` up to `await fetch(...)`. -/
def loadContentsStart (path : String) (s : State) : State × Started :=
  match s.currentRepo with
  | none => (s, .idle)
  | some a =>
      let s1 := { s with currentPath := path }
      if updateStatsThrows s1 then (raise s1 .typeError, .idle)
      else if interpolationThrows (a.value.field "owner") ||
          interpolationThrows (a.value.field "repo") ||
          interpolationThrows (a.value.field "token") then (loadFailed s1 .typeError, .caught)
      else
        (s1, .issued { owner := a.value.field "owner", repo := a.value.field "repo",
                       token := a.value.field "token", path := path })

/-- The function `loadContents` from the moment the promise of `fetch` settles. -/
def loadContentsResume (P : Platform) (r : FetchResult) (s : State) : State :=
  match r with
  | .rejected => loadFailed s .typeError
  | .responded status body =>
      if !statusOk status then loadFailed s (statusError status)
      else
        match body with
        | none => loadFailed s .syntaxError
        | some data => renderStored P (storeListing data s)

/-- A call `loadContents(path)` that runs to its end before anything else happens; `r`
is how its request settles. -/
def loadContents (P : Platform) (path : String) (r : FetchResult) (s : State) : State :=
  match loadContentsStart path s with
  | (s1, .issued _) => loadContentsResume P r s1
  | (s1, _) => s1

/-- The function `selectRepository` up to the `await` of the `loadContents()` it calls. -/
def selectRepository (id : String) (s : State) : State × Started :=
  match s.repositories with
  | .arr entries =>
      match findThrowing (matchesId id) entries with
      | .error e => (raise s e, .idle)
      | .ok none => (s, .idle)
      | .ok (some (i, repo)) =>
          let s1 := { s with currentRepo := some { value := repo, index := some i },
                             currentPath := "" }
          if interpolationThrows (repo.field "owner") || interpolationThrows (repo.field "repo")
          then (raise s1 .typeError, .idle)
          else if updateStatsThrows s1 then (raise s1 .typeError, .idle)
          else loadContentsStart "" s1
  | _ => (raise s .typeError, .idle)

/-! ## Notions the properties are stated with -/

/-- The elements of `repositories` when it is an array. -/
def entriesOf : JValue → List JValue
  | .arr entries => entries
  | _ => []

/-- The (owner, repo) pair of an entry whose `owner` and `repo` are strings. -/
def ownerRepo (r : JValue) : Option (String × String) :=
  match r.field "owner", r.field "repo" with
  | some (.str o), some (.str p) => some (o, p)
  | _, _ => none

/-- Two entries register the same (owner, repo) pair. -/
def samePair (a b : JValue) : Bool :=
  (ownerRepo a).isSome && ownerRepo a == ownerRepo b

/-- At most one registration per (owner, repo) pair. -/
def UniquePairs (registry : JValue) : Prop :=
  (entriesOf registry).Pairwise (fun a b => samePair a b = false)

instance (registry : JValue) : Decidable (UniquePairs registry) := by
  unfold UniquePairs; infer_instance

/-- A platform for evaluating the functions on concrete inputs: `table` lists texts
together with the value `JSON.parse` yields for each; every other text does not
parse, a value is serialized to the first text listed for it, and the sort never
calls its comparator. -/
def tablePlatform (table : List (String × JValue)) : Platform where
  parse t := (table.find? (fun e => e.1 == t)).map (fun e => e.2)
  stringify v _ := ((table.find? (fun e => e.2 == v)).map (fun e => e.1)).getD ""
  sortComparisons _ := []
  sortComparisons_mem := by simp

/-- A registration as `addRepository` creates it. -/
def sampleEntry (id token owner repo : String) : JValue :=
  newEntry id token owner repo "2024-01-01T00:00:00.000Z"

/-- A document with two records for the pair (acme, site). -/
def duplicateText : String :=
  "[\x7b\"id\":\"1\",\"token\":\"ghp_a\",\"owner\":\"acme\",\"repo\":\"site\",\"addedAt\":\"2024-01-01T00:00:00.000Z\"\x7d,\x7b\"id\":\"2\",\"token\":\"ghp_b\",\"owner\":\"acme\",\"repo\":\"site\",\"addedAt\":\"2024-01-01T00:00:00.000Z\"\x7d]"

/-- The value of `duplicateText`. -/
def duplicateDoc : JValue :=
  .arr [sampleEntry "1" "ghp_a" "acme" "site", sampleEntry "2" "ghp_b" "acme" "site"]

/-- A document whose only record has all five properties, the token being the number 5. -/
def numericTokenText : String :=
  "[\x7b\"id\":\"1\",\"token\":5,\"owner\":\"acme\",\"repo\":\"site\",\"addedAt\":\"2024-01-01T00:00:00.000Z\"\x7d]"

/-- The value of `numericTokenText`. -/
def numericTokenDoc : JValue :=
  .arr [.obj [("id", .str "1"), ("token", .num 5), ("owner", .str "acme"),
    ("repo", .str "site"), ("addedAt", .str "2024-01-01T00:00:00.000Z")]]

/-- A document whose only record has an empty token. -/
def emptyTokenText : String :=
  "[\x7b\"id\":\"1\",\"token\":\"\",\"owner\":\"acme\",\"repo\":\"site\",\"addedAt\":\"2024-01-01T00:00:00.000Z\"\x7d]"

/-- The value of `emptyTokenText`. -/
def emptyTokenDoc : JValue :=
  .arr [sampleEntry "1" "" "acme" "site"]

/-- A text that parses to an object, not to an array. -/
def objectText : String := "\x7b\"a\":1\x7d"

/-- The value of `objectText`. -/
def objectDoc : JValue := .obj [("a", .num 1)]

/-- The registry of `sampleState` as `JSON.stringify` writes it. -/
def sampleText : String :=
  "[\x7b\"id\":\"1\",\"token\":\"ghp_old\",\"owner\":\"acme\",\"repo\":\"site\",\"addedAt\":\"2024-01-01T00:00:00.000Z\"\x7d]"

/-- The platform restricted to the texts used in the examples below. -/
def examplePlatform : Platform :=
  tablePlatform [(duplicateText, duplicateDoc), (numericTokenText, numericTokenDoc),
    (emptyTokenText, emptyTokenDoc), (objectText, objectDoc),
    (sampleText, .arr [sampleEntry "1" "ghp_old" "acme" "site"])]

/-- A form as a user fills it in for the repository acme/site. -/
def sampleForm : AddForm :=
  { token := " ghp_new ", owner := "acme", repo := "site", confirmFormat := true,
    confirmUpdate := true, nowMs := 1700000000000, nowIso := "2023-11-14T22:13:20.000Z" }

/-- A registry holding one registration for acme/site. -/
def sampleState : State :=
  { State.initial none with
    repositories := .arr [sampleEntry "1" "ghp_old" "acme" "site"] }

/-- The entry has the shape of a registration of the data model: `id`, `token`, `owner`,
`repo` and `addedAt` are strings. -/
def isRegistration (r : JValue) : Bool :=
  isString (r.field "id") && isString (r.field "token") && isString (r.field "owner") &&
  isString (r.field "repo") && isString (r.field "addedAt")

/-- The registry is an array of registrations and the active repository, if any, is a
registration. -/
def WellFormed (s : State) : Prop :=
  (∃ entries, s.repositories = .arr entries ∧ ∀ r ∈ entries, isRegistration r = true) ∧
  ∀ a, s.currentRepo = some a → isRegistration a.value = true

/-- The state after acme/site was selected and its folder `docs` (empty) was opened. -/
def navigatedState : State :=
  loadContents examplePlatform "docs" (.responded 200 (some (.arr [])))
    (selectRepository "1" sampleState).1

/-- The properties `importRepos` requires of a record. -/
def requiredFields : List String := ["id", "token", "owner", "repo", "addedAt"]

/-- The record lacks one of the required properties. -/
def lacksField (r : JValue) : Prop :=
  ∃ k ∈ requiredFields, r.field k = none

/-- The state after a page load that found `emptyTokenText` under the storage key. -/
def loadedEmptyToken : State :=
  loadFromStorage examplePlatform (State.initial (some emptyTokenText))

/-! ## Fetches in flight

`loadContents` is asynchronous: between the call of `fetch` and the moment its promise
settles other handlers run, among them further calls of `loadContents`. -/

/-- A page in use: the state, the requests that have not settled yet (oldest first), and
a record of the settled request, with its outcome, whose continuation assigned
`currentContents` last. -/
structure Session where
  state : State
  inflight : List Request
  shown : Option (Request × FetchResult)

/-- What can happen next: `selectRepository(id)` or `loadContents(path)` run up to their
`await`, or the `k`-th request in flight settles and its `loadContents` runs on. -/
inductive Event where
  | select (id : String) : Event
  | navigate (path : String) : Event
  | settle (k : Nat) (r : FetchResult) : Event

/-- Bookkeeping after the synchronous part of `loadContents`. -/
def Session.started (σ : Session) (s : State) : Started → Session
  | .idle => { σ with state := s }
  | .caught => { σ with state := s, shown := none }
  | .issued request => { σ with state := s, inflight := σ.inflight ++ [request] }

/-- One event. -/
def Session.step (P : Platform) (σ : Session) : Event → Session
  | .select id => σ.started (selectRepository id σ.state).1 (selectRepository id σ.state).2
  | .navigate path =>
      σ.started (loadContentsStart path σ.state).1 (loadContentsStart path σ.state).2
  | .settle k r =>
      match σ.inflight[k]? with
      | none => σ
      | some request =>
          { state := loadContentsResume P r σ.state, inflight := σ.inflight.eraseIdx k,
            shown := some (request, r) }

/-- A sequence of events. -/
def Session.run (P : Platform) (σ : Session) (events : List Event) : Session :=
  events.foldl (Session.step P) σ

/-- The listing `loadContents` leaves when its request settles with `r`. -/
def settledListing (P : Platform) : FetchResult → List JValue
  | .responded status (some data) =>
      if statusOk status && !renderContentsThrows P (toListing data) then toListing data
      else []
  | _ => []

/-- The request was built from the path and the active repository of the state. -/
def requestFor (s : State) (request : Request) : Prop :=
  request.path = s.currentPath ∧
  ∃ a, s.currentRepo = some a ∧ request.owner = a.value.field "owner" ∧
    request.repo = a.value.field "repo" ∧ request.token = a.value.field "token"

/-- No event starts a fetch while another is in flight. -/
def sequential (P : Platform) : Session → List Event → Prop
  | _, [] => True
  | σ, .settle k r :: rest => sequential P (σ.step P (.settle k r)) rest
  | σ, e :: rest => σ.inflight = [] ∧ sequential P (σ.step P e) rest

/-- The listing in `currentContents` is the one left by the fetch that settled last. -/
def Session.showsLastSettled (P : Platform) (σ : Session) : Prop :=
  σ.state.currentContents =
    match σ.shown with
    | none => []
    | some (_, r) => settledListing P r

/-- At most one request is in flight and it is the one for the present path and active
repository; with none in flight, the fetch that settled last was for them. -/
def Session.orderly (σ : Session) : Prop :=
  WellFormed σ.state ∧
  match σ.inflight with
  | [] => ∀ request r, σ.shown = some (request, r) → requestFor σ.state request
  | [request] => requestFor σ.state request
  | _ => False

/-- A page right after it was loaded: nothing in flight, nothing fetched. -/
def Session.fresh (s : State) : Session :=
  { state := s, inflight := [], shown := none }

/-- A file entry as the Contents API lists it. -/
def fileEntry (name path sha : String) : JValue :=
  .obj [("name", .str name), ("path", .str path), ("sha", .str sha), ("size", .num 12),
        ("type", .str "file")]

/-- The response for the folder `a`: one file. -/
def responseA : FetchResult :=
  .responded 200 (some (.arr [fileEntry "x.txt" "a/x.txt" "3b18e5"]))

/-- The response for the folder `b`: one file. -/
def responseB : FetchResult :=
  .responded 200 (some (.arr [fileEntry "y.txt" "b/y.txt" "9fceb0"]))

/-- Two folders are opened in quick succession and the response for the second arrives
before the response for the first. -/
def overtakingEvents : List Event :=
  [.select "1", .settle 0 (.responded 200 (some (.arr []))), .navigate "a", .navigate "b",
   .settle 1 responseB, .settle 0 responseA]

/-- The state after acme/site was selected, before any response has arrived. -/
def selectedState : State :=
  (selectRepository "1" sampleState).1

/-- The response for a path that names a file: a single object. -/
def fileBody : JValue :=
  fileEntry "x.txt" "a/x.txt" "3b18e5"

/-- The request `loadContents("a")` issues for acme/site. -/
def requestA : Request :=
  { owner := some (.str "acme"), repo := some (.str "site"), token := some (.str "ghp_old"),
    path := "a" }

/-- The property is absent or a string. -/
def isStringOrAbsent : Option JValue → Bool
  | none => true
  | some (.str _) => true
  | _ => false

/-- The property is absent or a number. -/
def isNumberOrAbsent : Option JValue → Bool
  | none => true
  | some (.num _) => true
  | _ => false

/-- The element has the shape of a directory entry of the data model: `name`, `path`,
`type` and `sha` are strings, `size` is a number when present, `last_modified` a string
when present. -/
def isDirectoryEntry (e : JValue) : Bool :=
  isString (e.field "name") && isString (e.field "path") && isString (e.field "type") &&
  isString (e.field "sha") && isNumberOrAbsent (e.field "size") &&
  isStringOrAbsent (e.field "last_modified")

/-! ## Error kinds of `loadContents` -/

/-- The error thrown for HTTP 401. -/
def unauthorized : Thrown := .error "Invalid token or unauthorized"

/-- The error thrown for HTTP 404. -/
def notFound : Thrown := .error "Repository or path not found"

/-- The error thrown for any other status that is not OK; its message holds the status. -/
def remoteError (status : Nat) : Thrown :=
  .error ("Failed to load contents (" ++ toString status ++ ")")

/-- The value of a decimal digit character. -/
def digitValue (c : Char) : Nat := c.toNat - 48

/-- The number a list of decimal digits denotes. -/
def decimalValue (ds : List Char) : Nat :=
  ds.foldl (fun acc c => acc * 10 + digitValue c) 0

/-! ## Sequences of registry operations -/

/-- A call that changes the registry, with what it reads from outside. -/
inductive RegistryOp where
  | add (f : AddForm) : RegistryOp
  | remove (id : String) (confirmed : Bool) : RegistryOp
  | clear (confirmed : Bool) : RegistryOp

/-- The call. -/
def RegistryOp.apply (P : Platform) : RegistryOp → State → State
  | .add f, s => addRepository P f s
  | .remove id confirmed, s => removeRepository P id confirmed s
  | .clear confirmed, s => clearAllRepos P confirmed s

/-- A sequence of calls, one after the other. -/
def runOps (P : Platform) (s : State) (ops : List RegistryOp) : State :=
  ops.foldl (fun t op => op.apply P t) s

/-- The readings of `Date.now()` in the calls of `addRepository`. -/
def clockReadings : List RegistryOp → List Nat
  | [] => []
  | .add f :: rest => f.nowMs :: clockReadings rest
  | _ :: rest => clockReadings rest

/-- No two entries have the same `id`. -/
def UniqueIds (registry : JValue) : Prop :=
  (entriesOf registry).Pairwise (fun a b => a.field "id" ≠ b.field "id")

instance (registry : JValue) : Decidable (UniqueIds registry) := by
  unfold UniqueIds; infer_instance

/-- A second form, for acme/docs, submitted at the clock reading of `sampleForm`. -/
def secondForm : AddForm :=
  { token := "ghp_docs", owner := "acme", repo := "docs", confirmFormat := true,
    confirmUpdate := true, nowMs := 1700000000000, nowIso := "2023-11-14T22:13:20.000Z" }

/-- The form with an owner that consists of whitespace only. -/
def blankForm : AddForm :=
  { sampleForm with owner := " \t " }

/-! ## The active repository and the registry -/

/-- The active repository is none, or the object `currentRepo` refers to is an element
of `repositories`. -/
def Attached (s : State) : Prop :=
  ∀ a, s.currentRepo = some a →
    ∃ entries i, s.repositories = .arr entries ∧ a.index = some i ∧
      entries[i]? = some a.value

/-- A backup that holds one registration, for acme/blog. -/
def blogText : String :=
  "[\x7b\"id\":\"7\",\"token\":\"ghp_blog\",\"owner\":\"acme\",\"repo\":\"blog\",\"addedAt\":\"2024-01-01T00:00:00.000Z\"\x7d]"

/-- The value of `blogText`. -/
def blogDoc : JValue :=
  .arr [sampleEntry "7" "ghp_blog" "acme" "blog"]

/-- A platform that knows the text of the backup. -/
def backupPlatform : Platform :=
  tablePlatform [(blogText, blogDoc)]

/-! ## Breadcrumb -/

/-- The segment before the first separator and the segments after it. -/
def splitAux (sep : Char) : List Char → List Char × List (List Char)
  | [] => ([], [])
  | c :: cs =>
      if c = sep then ([], (splitAux sep cs).1 :: (splitAux sep cs).2)
      else (c :: (splitAux sep cs).1, (splitAux sep cs).2)

/-- The method `split(sep)` for a separator of one character. -/
def jsSplit (sep : Char) (s : String) : List String :=
  ((splitAux sep s.data).1 :: (splitAux sep s.data).2).map String.mk

/-- The method `join(sep)` on an array of strings. -/
def jsJoin (sep : String) : List String → String
  | [] => ""
  | [x] => x
  | x :: y :: rest => x ++ sep ++ jsJoin sep (y :: rest)

/-- An item of the breadcrumb: its label and the path put into its handler
`loadContents('...')`. -/
structure Crumb where
  label : String
  target : String
  deriving DecidableEq

/-- The callback of `parts.forEach` in `renderBreadcrumb`: `acc` holds the variable
`current` and the items appended so far, `ip` the index and the part. -/
def crumbStep (acc : String × List Crumb) (ip : Nat × String) : String × List Crumb :=
  (acc.1 ++ ((if ip.1 = 0 then "" else "/") ++ ip.2),
   acc.2 ++ [{ label := ip.2, target := acc.1 ++ ((if ip.1 = 0 then "" else "/") ++ ip.2) }])

/-- The expression `currentPath.split('/').filter(p => p)`. -/
def pathParts (currentPath : String) : List String :=
  (jsSplit '/' currentPath).filter (fun p => p != "")

/-- The function `renderBreadcrumb`: the items it writes, the first being the one for the
root, whose handler is `loadContents()`. -/
def renderBreadcrumb (currentPath : String) : List Crumb :=
  { label := "root", target := "" } ::
    ((pathParts currentPath).enum.foldl crumbStep ("", [])).2

/-- The items for `parts` when the parts `pre` come before them: each part is labelled
with itself and leads to the parts up to it, joined by `/`. -/
def crumbsFrom (pre : List String) : List String → List Crumb
  | [] => []
  | p :: ps => { label := p, target := jsJoin "/" (pre ++ [p]) } :: crumbsFrom (pre ++ [p]) ps

/-- The breadcrumb as the specification describes it: `root`, leading to the empty path,
followed by the segments, the k-th leading to the first k segments joined by `/`. -/
def breadcrumbSpec (segments : List String) : List Crumb :=
  { label := "root", target := "" } :: crumbsFrom [] segments

/-- The method `join` on character lists, with a separator of one character. -/
def joinData (sep : Char) : List (List Char) → List Char
  | [] => []
  | [x] => x
  | x :: y :: rest => x ++ sep :: joinData sep (y :: rest)

/-! ## Built-in string functions

The values of text fields and the payloads are JavaScript strings, that is, sequences of
UTF-16 code units; they are lists of numbers here.  The functions below follow the
ECMAScript specification (`encodeURIComponent`, `decodeURIComponent`, `escape`,
`unescape`) and the HTML specification (`btoa`, `atob`); `none` stands for the
exception the function throws. -/

/-- The code unit is an ASCII letter or digit. -/
def isAlnum (u : Nat) : Bool :=
  (48 ≤ u && u ≤ 57) || (65 ≤ u && u ≤ 90) || (97 ≤ u && u ≤ 122)

/-- The characters `encodeURIComponent` leaves as they are: letters, digits and
`- _ . ! ~ * ' ( )`. -/
def isUriUnreserved (u : Nat) : Bool :=
  isAlnum u || u == 45 || u == 95 || u == 46 || u == 33 || u == 126 || u == 42 ||
  u == 39 || u == 40 || u == 41

/-- The characters `escape` leaves as they are: letters, digits and `@ * _ + - . /`. -/
def isEscapeSafe (u : Nat) : Bool :=
  isAlnum u || u == 64 || u == 42 || u == 95 || u == 43 || u == 45 || u == 46 || u == 47

/-- The upper-case hexadecimal digit for a number below 16. -/
def hexDigit (n : Nat) : Nat :=
  if n < 10 then 48 + n else 55 + n

/-- The value of a hexadecimal digit, of either case. -/
def hexValue (u : Nat) : Option Nat :=
  if 48 ≤ u && u ≤ 57 then some (u - 48)
  else if 65 ≤ u && u ≤ 70 then some (u - 55)
  else if 97 ≤ u && u ≤ 102 then some (u - 87)
  else none

/-- The value of two hexadecimal digits. -/
def hexByte (a b : Nat) : Option Nat :=
  match hexValue a, hexValue b with
  | some x, some y => some (x * 16 + y)
  | _, _ => none

/-- The escape sequence `%XX` for an octet. -/
def percentEncode (b : Nat) : List Nat :=
  [37, hexDigit (b / 16), hexDigit (b % 16)]

/-- The UTF-8 octets of a code point. -/
def utf8Octets (cp : Nat) : List Nat :=
  if cp < 0x80 then [cp]
  else if cp < 0x800 then [0xC0 + cp / 0x40, 0x80 + cp % 0x40]
  else if cp < 0x10000 then
    [0xE0 + cp / 0x1000, 0x80 + cp / 0x40 % 0x40, 0x80 + cp % 0x40]
  else
    [0xF0 + cp / 0x40000, 0x80 + cp / 0x1000 % 0x40, 0x80 + cp / 0x40 % 0x40,
     0x80 + cp % 0x40]

/-- The code point is written as the escape sequences of its UTF-8 octets. -/
def encodeCodePoint (cp : Nat) : List Nat :=
  (utf8Octets cp).flatMap percentEncode

/-- The code unit is a leading surrogate. -/
def isLeadSurrogate (u : Nat) : Bool := 0xD800 ≤ u && u ≤ 0xDBFF

/-- The code unit is a trailing surrogate. -/
def isTrailSurrogate (u : Nat) : Bool := 0xDC00 ≤ u && u ≤ 0xDFFF

/-- The code point of a surrogate pair. -/
def pairCodePoint (lead trail : Nat) : Nat :=
  0x10000 + (lead - 0xD800) * 0x400 + (trail - 0xDC00)

/-- The function `encodeURIComponent`; it throws a `URIError` on an unpaired surrogate. -/
def encodeURIComponent : List Nat → Option (List Nat)
  | [] => some []
  | u :: rest =>
      if isUriUnreserved u then (encodeURIComponent rest).map (fun e => u :: e)
      else if isTrailSurrogate u then none
      else if isLeadSurrogate u then
        match rest with
        | [] => none
        | v :: rest' =>
            if isTrailSurrogate v then
              (encodeURIComponent rest').map (fun e => encodeCodePoint (pairCodePoint u v) ++ e)
            else none
      else (encodeURIComponent rest).map (fun e => encodeCodePoint u ++ e)

/-- What `unescape` finds after a `%`: the code unit an escape `uXXXX` or `XX` denotes,
and the number of code units the escape takes. -/
def escapeAt (rest : List Nat) : Option (Nat × Nat) :=
  match rest with
  | x :: a :: b :: c :: d :: _ =>
      if x = 117 then
        match hexByte a b, hexByte c d with
        | some hi, some lo => some (hi * 256 + lo, 5)
        | _, _ => none
      else (hexByte x a).map (fun v => (v, 2))
  | x :: a :: _ => (hexByte x a).map (fun v => (v, 2))
  | _ => none

/-- The loop of `unescape`; `skip` code units belong to the escape just read. -/
def unescapeAux : Nat → List Nat → List Nat
  | _, [] => []
  | skip + 1, _ :: rest => unescapeAux skip rest
  | 0, c :: rest =>
      if c = 37 then
        match escapeAt rest with
        | some (v, n) => v :: unescapeAux n rest
        | none => 37 :: unescapeAux 0 rest
      else c :: unescapeAux 0 rest

/-- The function `unescape`: `%uXXXX` and `%XX` are replaced by the code unit they
denote, everything else is kept. -/
def unescape (s : List Nat) : List Nat :=
  unescapeAux 0 s

/-- The character of the base64 alphabet for a number below 64. -/
def b64Char (n : Nat) : Nat :=
  if n < 26 then 65 + n
  else if n < 52 then 71 + n
  else if n < 62 then n - 4
  else if n = 62 then 43
  else 47

/-- The number a character of the base64 alphabet stands for. -/
def b64Value (u : Nat) : Option Nat :=
  if 65 ≤ u && u ≤ 90 then some (u - 65)
  else if 97 ≤ u && u ≤ 122 then some (u - 71)
  else if 48 ≤ u && u ≤ 57 then some (u + 4)
  else if u = 43 then some 62
  else if u = 47 then some 63
  else none

/-- The base64 encoding of a sequence of octets, with padding. -/
def base64Encode : List Nat → List Nat
  | x :: y :: z :: rest =>
      b64Char (x / 4) :: b64Char (x % 4 * 16 + y / 16) :: b64Char (y % 16 * 4 + z / 64) ::
        b64Char (z % 64) :: base64Encode rest
  | [x, y] => [b64Char (x / 4), b64Char (x % 4 * 16 + y / 16), b64Char (y % 16 * 4), 61]
  | [x] => [b64Char (x / 4), b64Char (x % 4 * 16), 61, 61]
  | [] => []

/-- The function `btoa`; it throws when a code unit is above 255. -/
def btoa (s : List Nat) : Option (List Nat) :=
  if s.all (fun u => u ≤ 255) then some (base64Encode s) else none

/-- ASCII whitespace: tab, line feed, form feed, carriage return, space. -/
def isAsciiWhitespace (u : Nat) : Bool :=
  u == 9 || u == 10 || u == 12 || u == 13 || u == 32

/-- If the length is a multiple of four, one or two `=` at the end are removed. -/
def stripPadding (data : List Nat) : List Nat :=
  if data.length % 4 = 0 then
    match data.reverse with
    | 61 :: 61 :: rest => rest.reverse
    | 61 :: rest => rest.reverse
    | _ => data
  else data

/-- The numbers the characters stand for, or `none` when one is not in the alphabet. -/
def b64Values : List Nat → Option (List Nat)
  | [] => some []
  | u :: rest =>
      match b64Value u, b64Values rest with
      | some v, some vs => some (v :: vs)
      | _, _ => none

/-- The octets of a sequence of 6-bit numbers; the bits left over at the end are
dropped. -/
def sextetsToOctets : List Nat → List Nat
  | a :: b :: c :: d :: rest =>
      (a * 4 + b / 16) :: (b % 16 * 16 + c / 4) :: (c % 4 * 64 + d) :: sextetsToOctets rest
  | [a, b, c] => [a * 4 + b / 16, b % 16 * 16 + c / 4]
  | [a, b] => [a * 4 + b / 16]
  | _ => []

/-- The function `atob` (forgiving base64 decoding); it throws on a length that leaves
the remainder 1 and on a character outside the alphabet. -/
def atob (data : List Nat) : Option (List Nat) :=
  let stripped := stripPadding (data.filter (fun u => !isAsciiWhitespace u))
  if stripped.length % 4 = 1 then none
  else (b64Values stripped).map sextetsToOctets

/-- The escape sequence `escape` writes for a code unit. -/
def escapeUnit (u : Nat) : List Nat :=
  if isEscapeSafe u then [u]
  else if u < 256 then percentEncode u
  else [37, 117, hexDigit (u / 4096), hexDigit (u / 256 % 16), hexDigit (u / 16 % 16),
        hexDigit (u % 16)]

/-- The function `escape`. -/
def escape (s : List Nat) : List Nat :=
  s.flatMap escapeUnit

/-- The UTF-16 code units of a code point. -/
def utf16Units (cp : Nat) : List Nat :=
  if cp < 0x10000 then [cp]
  else [0xD800 + (cp - 0x10000) / 0x400, 0xDC00 + (cp - 0x10000) % 0x400]

/-- The octet continues a UTF-8 sequence. -/
def isContinuation (b : Nat) : Bool := 0x80 ≤ b && b ≤ 0xBF

/-- The code point of a UTF-8 sequence of two to four octets, `none` when the sequence
is not a valid encoding (wrong continuation octet, overlong form, surrogate, above
U+10FFFF). -/
def utf8CodePoint : List Nat → Option Nat
  | [b1, b2] =>
      if 0xC0 ≤ b1 && b1 < 0xE0 && isContinuation b2 &&
          0x80 ≤ (b1 - 0xC0) * 0x40 + (b2 - 0x80) then
        some ((b1 - 0xC0) * 0x40 + (b2 - 0x80))
      else none
  | [b1, b2, b3] =>
      let v := (b1 - 0xE0) * 0x1000 + (b2 - 0x80) * 0x40 + (b3 - 0x80)
      if 0xE0 ≤ b1 && b1 < 0xF0 && isContinuation b2 && isContinuation b3 && 0x800 ≤ v &&
          !(0xD800 ≤ v && v ≤ 0xDFFF) then some v
      else none
  | [b1, b2, b3, b4] =>
      let v := (b1 - 0xF0) * 0x40000 + (b2 - 0x80) * 0x1000 + (b3 - 0x80) * 0x40 + (b4 - 0x80)
      if 0xF0 ≤ b1 && b1 < 0xF8 && isContinuation b2 && isContinuation b3 &&
          isContinuation b4 && 0x10000 ≤ v && v ≤ 0x10FFFF then some v
      else none
  | _ => none

/-- The octets of `n` escape sequences `%XX` at the start of the list. -/
def readEscapes : Nat → List Nat → Option (List Nat)
  | 0, _ => some []
  | n + 1, p :: a :: b :: rest =>
      if p = 37 then
        match hexByte a b, readEscapes n rest with
        | some v, some vs => some (v :: vs)
        | _, _ => none
      else none
  | _ + 1, _ => none

/-- The number of octets of the UTF-8 sequence that begins with the octet `b`, which is
not below 0x80; `none` when `b` cannot begin a sequence. -/
def sequenceLength (b : Nat) : Option Nat :=
  if b < 0xC0 then none
  else if b < 0xE0 then some 2
  else if b < 0xF0 then some 3
  else if b < 0xF8 then some 4
  else none

/-- What `decodeURIComponent` finds after a `%`: the code units to append and the number
of code units the escape sequences take; `none` when it throws a `URIError`. -/
def decodeAt (rest : List Nat) : Option (List Nat × Nat) :=
  match rest with
  | a :: b :: more =>
      match hexByte a b with
      | none => none
      | some first =>
          if first < 0x80 then some ([first], 2)
          else
            match sequenceLength first with
            | none => none
            | some n =>
                match readEscapes (n - 1) more with
                | none => none
                | some others =>
                    (utf8CodePoint (first :: others)).map
                      (fun cp => (utf16Units cp, 2 + 3 * (n - 1)))
  | _ => none

/-- The loop of `decodeURIComponent`; `skip` code units belong to the escape sequences
just read. -/
def decodeAux : Nat → List Nat → Option (List Nat)
  | _, [] => some []
  | skip + 1, _ :: rest => decodeAux skip rest
  | 0, c :: rest =>
      if c = 37 then
        match decodeAt rest with
        | none => none
        | some (units, n) => (decodeAux n rest).map (fun r => units ++ r)
      else (decodeAux 0 rest).map (fun r => c :: r)

/-- The function `decodeURIComponent`. -/
def decodeURIComponent (s : List Nat) : Option (List Nat) :=
  decodeAux 0 s

/-- The expression `btoa(unescape(encodeURIComponent(content)))` of `createFile` and
`saveFile`. -/
def encodePayload (content : List Nat) : Option (List Nat) :=
  (encodeURIComponent content).bind (fun e => btoa (unescape e))

/-- The expression `decodeURIComponent(escape(atob(payload)))` of `editFile` and
`downloadFile`. -/
def decodePayload (payload : List Nat) : Option (List Nat) :=
  (atob payload).bind (fun b => decodeURIComponent (escape b))

/-- The code points of a sequence of UTF-16 code units, `none` when a surrogate is not
part of a pair. -/
def codePoints : List Nat → Option (List Nat)
  | [] => some []
  | u :: rest =>
      if isTrailSurrogate u then none
      else if isLeadSurrogate u then
        match rest with
        | [] => none
        | v :: rest' =>
            if isTrailSurrogate v then (codePoints rest').map (fun c => pairCodePoint u v :: c)
            else none
      else (codePoints rest).map (fun c => u :: c)

/-- The UTF-8 octets of a sequence of code points. -/
def utf8 (cps : List Nat) : List Nat :=
  cps.flatMap utf8Octets

/-! ## Functions that change the remote repository

`createFile`, `createFolder`, `saveFile`, `confirmRename` and `uploadFiles` read the
global variables, call `fetch` and show notifications.  A call is modelled by the
requests it issues, in order, the notifications it shows, and whether it ends with
`loadContents(currentPath)`; how each request settles is an input.  No other handler
runs between the steps of a call. -/

/-- The method of a request. -/
inductive Method where
  | get : Method
  | put : Method
  | delete : Method
  deriving DecidableEq

/-- A call of `fetch` on the contents API: the method, what the URL and the
`Authorization` header are built from, and the properties of the JSON body in order. -/
structure ApiCall where
  method : Method
  request : Request
  body : List (String × JValue)
  deriving DecidableEq

/-- What lands in a `catch` block of these functions. -/
inductive Failure where
  /-- A `TypeError` (a rejected `fetch`, a property read on `null`, a conversion to
  string that throws) or the `SyntaxError` of a rejected `json()`. -/
  | thrown (e : Thrown) : Failure
  /-- The `URIError` of `encodeURIComponent`. -/
  | uriError : Failure
  /-- The event the `FileReader` rejects with; it has no `message`. -/
  | readError : Failure
  /-- The error `new Error(error.message)` for the truthy `message` of a response. -/
  | remote (message : JValue) : Failure
  /-- The error `new Error(text)` for the text the function supplies itself. -/
  | fallback (text : String) : Failure
  deriving DecidableEq

/-- The calls of `showAlert` these functions make. -/
inductive Notice where
  /-- The call `showAlert('Validation Error', message, 'error')`. -/
  | validationError (message : String) : Notice
  /-- The call `showAlert('Success', message, 'success')`. -/
  | success (message : String) : Notice
  /-- The call `showAlert('Warning', message, 'warning')`. -/
  | warning (message : String) : Notice
  /-- The call `showAlert('Error', message, 'error')` with a text of the script. -/
  | error (message : String) : Notice
  /-- The call `showAlert('Error', error.message, 'error')` of a `catch` block. -/
  | failed (cause : Failure) : Notice
  deriving DecidableEq

/-- What a call does: the requests issued, the notifications shown, whether
`loadContents(currentPath)` is called at the end, and the error that escapes. -/
structure Outcome where
  calls : List ApiCall
  notices : List Notice
  refreshed : Bool
  escaped : Option Thrown
  deriving DecidableEq

/-- The function returns after a validation message. -/
def Outcome.rejected (message : String) : Outcome :=
  { calls := [], notices := [.validationError message], refreshed := false, escaped := none }

/-- The `catch` block: `showAlert('Error', error.message, 'error')`. -/
def Outcome.caught (calls : List ApiCall) (cause : Failure) : Outcome :=
  { calls := calls, notices := [.failed cause], refreshed := false, escaped := none }

/-- The end of the `try` block: the success message, `closeModal` and
`loadContents(currentPath)`. -/
def Outcome.done (calls : List ApiCall) (message : String) : Outcome :=
  { calls := calls, notices := [.success message], refreshed := true, escaped := none }

/-- A character of the class `[a-zA-Z0-9._-]`. -/
def isNameChar (c : Char) : Bool :=
  let n := c.toNat
  (97 ≤ n && n ≤ 122) || (65 ≤ n && n ≤ 90) || (48 ≤ n && n ≤ 57) ||
  n == 46 || n == 95 || n == 45

/-- The test `/^[a-zA-Z0-9._-]+$/.test(name)`. -/
def matchesNamePattern (name : String) : Bool :=
  !name.data.isEmpty && name.data.all isNameChar

/-- The URL and the `Authorization` header of a request for `path`: the template
literals read `currentRepo.owner`, `currentRepo.repo` and `currentRepo.token`. -/
def apiRequest (s : State) (path : String) : Except Thrown Request :=
  match s.currentRepo with
  | none => .error .typeError
  | some a =>
      if a.value == .null || interpolationThrows (a.value.field "owner") ||
          interpolationThrows (a.value.field "repo") ||
          interpolationThrows (a.value.field "token") then .error .typeError
      else
        .ok { owner := a.value.field "owner", repo := a.value.field "repo",
              token := a.value.field "token", path := path }

/-- The expression `currentPath ? currentPath + '/' + name : name`. -/
def pathIn (currentPath name : String) : String :=
  if currentPath != "" then currentPath ++ "/" ++ name else name

/-- The properties `JSON.stringify` writes for an object literal: a property whose value
is `undefined` is left out. -/
def properties (l : List (String × Option JValue)) : List (String × JValue) :=
  l.filterMap (fun p => p.2.map (fun v => (p.1, v)))

/-- The string with the given code units, all of which are ASCII. -/
def asciiString (units : List Nat) : String :=
  String.mk (units.map Char.ofNat)

/-- The statements `const error = await response.json(); throw new Error(error.message ||
fallback)`: what is thrown. -/
def errorFrom (fallback : String) (body : Option JValue) : Failure :=
  match body with
  | none => .thrown .syntaxError
  | some v =>
      if v == .null then .thrown .typeError
      else
        match v.field "message" with
        | none => .fallback fallback
        | some m =>
            if m.truthy then (if toStringThrows m then .thrown .typeError else .remote m)
            else .fallback fallback

/-- What `await fetch(...)` followed by `if (!response.ok) { ... }` throws; `none` when
the response is `ok`. -/
def failureOf (fallback : String) (r : FetchResult) : Option Failure :=
  match r with
  | .rejected => some (.thrown .typeError)
  | .responded status body =>
      if statusOk status then none else some (errorFrom fallback body)

/-- The rest of a `try` block that issues one `PUT` request. -/
def putAndFinish (call : ApiCall) (r : FetchResult) (fallback message : String) : Outcome :=
  match failureOf fallback r with
  | some cause => .caught [call] cause
  | none => .done [call] message

/-- The function `createFile`; `name`, `content` and `commitMessage` are the values of the
three fields, `r` is how the request settles. -/
def createFile (name : String) (content : List Nat) (commitMessage : String)
    (r : FetchResult) (s : State) : Outcome :=
  let fileName := jsTrim name
  if fileName == "" then .rejected "File name is required"
  else if !matchesNamePattern fileName then .rejected "File name contains invalid characters"
  else
    match apiRequest s (pathIn s.currentPath fileName) with
    | .error e => .caught [] (.thrown e)
    | .ok request =>
        match encodePayload content with
        | none => .caught [] .uriError
        | some payload =>
            putAndFinish
              { method := .put, request := request,
                body := [("message", .str commitMessage),
                         ("content", .str (asciiString payload))] }
              r "Failed to create file" "File created successfully"

/-- The function `createFolder`. -/
def createFolder (name commitMessage : String) (r : FetchResult) (s : State) : Outcome :=
  let folderName := jsTrim name
  if folderName == "" then .rejected "Folder name is required"
  else if !matchesNamePattern folderName then
    .rejected "Folder name contains invalid characters"
  else
    match apiRequest s (pathIn s.currentPath (folderName ++ "/.gitkeep")) with
    | .error e => .caught [] (.thrown e)
    | .ok request =>
        putAndFinish
          { method := .put, request := request,
            body := [("message", .str commitMessage), ("content", .str "")] }
          r "Failed to create folder" "Folder created successfully"

/-- The variable `currentItem` as `showRenameModal` and `editFile` set it; the latter
leaves `currentName` out. -/
structure Item where
  path : String
  sha : Option String
  currentName : Option String
  deriving DecidableEq

/-- The function `saveFile`; `fileSha` is the variable `currentFileSha`. -/
def saveFile (item : Option Item) (fileSha : Option JValue) (content : List Nat)
    (commitMessage : String) (r : FetchResult) (s : State) : Outcome :=
  match item with
  | none => .caught [] (.thrown .typeError)
  | some it =>
      match apiRequest s it.path with
      | .error e => .caught [] (.thrown e)
      | .ok request =>
          match encodePayload content with
          | none => .caught [] .uriError
          | some payload =>
              putAndFinish
                { method := .put, request := request,
                  body := properties [("message", some (.str commitMessage)),
                                      ("content", some (.str (asciiString payload))),
                                      ("sha", fileSha)] }
                r "Failed to save file" "File saved successfully"

/-- The text a template literal writes for a possibly `undefined` string. -/
def interpolated : Option String → String
  | none => "undefined"
  | some t => t

/-- The statements `pathParts = path.split('/'); pathParts.pop(); parentPath =
pathParts.join('/')`. -/
def parentOf (path : String) : String :=
  jsJoin "/" (jsSplit '/' path).dropLast

/-- The three requests of `confirmRename` for the item, the new path, the commit message
and the value `data` read in the first step. -/
def renameCalls (source : Request) (it : Item) (newPath commitMessage : String)
    (data : JValue) : List ApiCall :=
  [{ method := .get, request := source, body := [] },
   { method := .put, request := { source with path := newPath },
     body := properties [("message", some (.str commitMessage)),
                         ("content", data.field "content")] },
   { method := .delete, request := source,
     body := properties [("message", some (.str ("Delete " ++ interpolated it.currentName))),
                         ("sha", it.sha.map JValue.str)] }]

/-- The function `confirmRename`; `name` and `commitMessage` are the values of the two
fields, `r1`, `r2` and `r3` are how the requests settle. -/
def confirmRename (item : Option Item) (name commitMessage : String)
    (r1 r2 r3 : FetchResult) (s : State) : Outcome :=
  let newName := jsTrim name
  if newName == "" then .rejected "New name is required"
  else if !matchesNamePattern newName then .rejected "Name contains invalid characters"
  else
    match item with
    | none => { calls := [], notices := [], refreshed := false, escaped := some .typeError }
    | some it =>
        match apiRequest s it.path with
        | .error e => .caught [] (.thrown e)
        | .ok source =>
            match r1 with
            | .rejected => .caught [{ method := .get, request := source, body := [] }]
                (.thrown .typeError)
            | .responded status body =>
                if !statusOk status then
                  .caught [{ method := .get, request := source, body := [] }]
                    (errorFrom "Failed to fetch item" body)
                else
                  match body with
                  | none => .caught [{ method := .get, request := source, body := [] }]
                      (.thrown .syntaxError)
                  | some data =>
                      let calls := renameCalls source it
                        (pathIn (parentOf it.path) newName) commitMessage data
                      if data == .null then .caught (calls.take 1) (.thrown .typeError)
                      else
                        match failureOf "Failed to create new file" r2 with
                        | some cause => .caught (calls.take 2) cause
                        | none =>
                            match failureOf "Failed to delete old file" r3 with
                            | some cause => .caught calls cause
                            | none => .done calls "Renamed successfully"

/-- An element of `filesToUpload`. -/
structure SelectedFile where
  name : String
  size : Nat
  deriving DecidableEq

/-- How the environment answers while one file is uploaded: the response to the request
that checks for an existing file, the outcome of `readAsDataURL` (`none` when the
reader fails, otherwise `reader.result.split(',')[1]`, which may be `undefined`), and
the response to the `PUT` request. -/
structure Answers where
  check : FetchResult
  read : Option (Option String)
  put : FetchResult
  deriving DecidableEq

/-- The variable `sha` after the check: `null`, or `existing.sha` for a response that is
`ok`. -/
def existingSha (r : FetchResult) : Except Failure (Option JValue) :=
  match r with
  | .rejected => .error (.thrown .typeError)
  | .responded status body =>
      if statusOk status then
        match body with
        | none => .error (.thrown .syntaxError)
        | some v => if v == .null then .error (.thrown .typeError) else .ok (v.field "sha")
      else .ok (some .null)

/-- The body of the loop of `uploadFiles` for one file: the requests issued and what the
`catch` block receives, `none` when the `try` block reaches `successCount++`. -/
def uploadOne (s : State) (commitMessage : String) (file : SelectedFile) (a : Answers) :
    List ApiCall × Option Failure :=
  match apiRequest s (pathIn s.currentPath file.name) with
  | .error e => ([], some (.thrown e))
  | .ok request =>
      let check : ApiCall := { method := .get, request := request, body := [] }
      match existingSha a.check with
      | .error cause => ([check], some cause)
      | .ok sha =>
          match a.read with
          | none => ([check], some .readError)
          | some content =>
              let put : ApiCall :=
                { method := .put, request := request,
                  body := properties
                    [("message", some (.str (commitMessage ++ ": " ++ file.name))),
                     ("content", content.map JValue.str),
                     ("sha", if truthyOpt sha then sha else none)] }
              ([check, put], failureOf ("Failed to upload " ++ file.name) a.put)

/-- The variables of the loop of `uploadFiles`, and the requests issued so far; an
element of `errors` stands for the text made of the name, `: ` and the message. -/
structure Progress where
  calls : List ApiCall
  successCount : Nat
  errorCount : Nat
  errors : List (String × Failure)
  deriving DecidableEq

/-- One turn of the loop. -/
def uploadStep (s : State) (commitMessage : String) (p : Progress)
    (fa : SelectedFile × Answers) : Progress :=
  match uploadOne s commitMessage fa.1 fa.2 with
  | (calls, none) => { p with calls := p.calls ++ calls, successCount := p.successCount + 1 }
  | (calls, some cause) =>
      { p with calls := p.calls ++ calls, errorCount := p.errorCount + 1,
               errors := p.errors ++ [(fa.1.name, cause)] }

/-- The loop `for (const file of filesToUpload)`. -/
def uploadLoop (s : State) (commitMessage : String) (files : List (SelectedFile × Answers)) :
    Progress :=
  files.foldl (uploadStep s commitMessage)
    { calls := [], successCount := 0, errorCount := 0, errors := [] }

/-- The expression `filesToUpload.reduce((acc, file) => acc + file.size, 0)`. -/
def totalSize (files : List SelectedFile) : Nat :=
  files.foldl (fun acc file => acc + file.size) 0

/-- The limit `100 * 1024 * 1024`. -/
def sizeLimit : Nat := 100 * 1024 * 1024

/-- What a call of `uploadFiles` does: the variables at the end of the loop (zero and
empty when the loop is not reached), the notification, whether the list of errors is
written to the console, and whether `loadContents(currentPath)` is called. -/
structure UploadOutcome where
  progress : Progress
  notices : List Notice
  logged : Bool
  refreshed : Bool
  deriving DecidableEq

/-- The function `uploadFiles`; every selected file comes with the answers of the
environment to its upload. -/
def uploadFiles (commitMessage : String) (files : List (SelectedFile × Answers))
    (s : State) : UploadOutcome :=
  let idle : Progress := { calls := [], successCount := 0, errorCount := 0, errors := [] }
  if files.length = 0 then
    { progress := idle, notices := [.validationError "No files selected"], logged := false,
      refreshed := false }
  else if totalSize (files.map Prod.fst) > sizeLimit then
    { progress := idle, notices := [.error "Total file size exceeds 100MB limit"],
      logged := false, refreshed := false }
  else
    let p := uploadLoop s commitMessage files
    if p.errorCount = 0 then
      { progress := p,
        notices := [.success ("Successfully uploaded " ++ toString p.successCount ++ " files")],
        logged := false, refreshed := true }
    else if p.successCount > 0 then
      { progress := p,
        notices := [.warning ("Uploaded " ++ toString p.successCount ++ " files, " ++
          toString p.errorCount ++ " failed")],
        logged := decide (p.errors.length > 0), refreshed := false }
    else
      { progress := p, notices := [.error "Failed to upload any files"], logged := false,
        refreshed := false }

/-! ## Notions the properties of these functions are stated with -/

/-- No validation message is among the notifications: the call went past the checks of
the entered name. -/
def Outcome.passedValidation (o : Outcome) : Bool :=
  o.notices.all (fun n => match n with
    | .validationError _ => false
    | _ => true)

/-- The call stopped at a validation message: nothing else is shown, no request is issued
and the listing is not loaded again. -/
def Outcome.isValidationError (o : Outcome) : Prop :=
  ∃ message, o = Outcome.rejected message

/-- A name as the specification accepts it: after trimming it is not empty and each of its
characters is a letter, a digit, `.`, `_` or `-`. -/
def AcceptableName (name : String) : Prop :=
  jsTrim name ≠ "" ∧
    ∀ c ∈ (jsTrim name).data, c.isAlpha ∨ c.isDigit ∨ c = '.' ∨ c = '_' ∨ c = '-'

/-- The upload of the file fails: its turn of the loop ends in the `catch` block. -/
def attemptFails (s : State) (commitMessage : String) (fa : SelectedFile × Answers) : Bool :=
  (uploadOne s commitMessage fa.1 fa.2).2.isSome

/-- The requests of the turn of the loop for the file. -/
def attemptCalls (s : State) (commitMessage : String) (fa : SelectedFile × Answers) :
    List ApiCall :=
  (uploadOne s commitMessage fa.1 fa.2).1

/-- The entry of `errors` for the file, if its upload fails. -/
def attemptError (s : State) (commitMessage : String) (fa : SelectedFile × Answers) :
    Option (String × Failure) :=
  (uploadOne s commitMessage fa.1 fa.2).2.map (fun cause => (fa.1.name, cause))

/-- The sum of the sizes of the selected files. -/
def selectionSize (files : List (SelectedFile × Answers)) : Nat :=
  (files.map (fun fa => fa.1.size)).sum

/-- The notification of a batch that is too large. -/
def tooLarge : Notice :=
  .error "Total file size exceeds 100MB limit"

/-- The response to a request that created a file. -/
def created : FetchResult :=
  .responded 201 (some (.obj [("content", .obj [])]))

/-- The response for a path at which there is nothing. -/
def missing : FetchResult :=
  .responded 404 (some (.obj [("message", .str "Not Found")]))

/-- The response to a request the server refuses. -/
def refused : FetchResult :=
  .responded 422 (some (.obj [("message", .str "Validation Failed")]))

/-- The upload of a new file goes through. -/
def goodAnswers : Answers :=
  { check := missing, read := some (some "aGk="), put := created }

/-- The server refuses the `PUT` request. -/
def badAnswers : Answers :=
  { check := missing, read := some (some "aGk="), put := refused }

/-- Three files, the second of which is refused. -/
def sampleBatch : List (SelectedFile × Answers) :=
  [({ name := "a.txt", size := 2 }, goodAnswers), ({ name := "b.txt", size := 2 }, badAnswers),
   ({ name := "c.txt", size := 2 }, goodAnswers)]

/-- One file of 100 MiB and one byte. -/
def oversizedBatch : List (SelectedFile × Answers) :=
  [({ name := "big.bin", size := 104857601 }, goodAnswers)]

/-- The item `showRenameModal` stores for the file `docs/a.txt`. -/
def sampleItem : Item :=
  { path := "docs/a.txt", sha := some "3b18e5", currentName := some "a.txt" }

/-- The response to the read of a file: its content and its sha. -/
def fileRead : FetchResult :=
  .responded 200 (some (.obj [("name", .str "a.txt"), ("path", .str "docs/a.txt"),
    ("sha", .str "3b18e5"), ("content", .str "aGk=")]))

/-- The response to a `DELETE` request with a sha that is out of date. -/
def conflict : FetchResult :=
  .responded 409 (some (.obj [("message", .str "docs/a.txt does not match 3b18e5")]))

/-- The request for `path` in acme/site. -/
def requestAt (path : String) : Request :=
  { owner := some (.str "acme"), repo := some (.str "site"), token := some (.str "ghp_old"),
    path := path }

/-- The text `héllo 😀`: the last character is the surrogate pair D83D DE00. -/
def sampleContent : List Nat :=
  [104, 233, 108, 108, 111, 32, 0xD83D, 0xDE00]

/-- The code points of `sampleContent`. -/
def sampleCodePoints : List Nat :=
  [104, 233, 108, 108, 111, 32, 0x1F600]

/-- The letter `h` followed by the first half of a surrogate pair. -/
def unpairedContent : List Nat :=
  [104, 0xD83D]

/-! # Properties -/

/-! ## Bookkeeping lemmas -/

@[simp] theorem showAlert_repositories (s : State) (a : Alert) :
    (showAlert s a).repositories = s.repositories := rfl

@[simp] theorem raise_repositories (s : State) (e : Thrown) :
    (raise s e).repositories = s.repositories := rfl

@[simp] theorem setItem_repositories (P : Platform) (s : State) :
    (setItem P s).repositories = s.repositories := rfl

@[simp] theorem saveAndRender_repositories (P : Platform) (s : State) :
    (saveAndRender P s).repositories = s.repositories := by
  simp only [saveAndRender]
  split <;> rfl

/-! ## Properties of the helpers -/

theorem find_setField_ne (fields : List (String × JValue)) (key k : String) (x : JValue)
    (h : key ≠ k) :
    (JValue.setField fields key x).find? (fun p => p.1 == k) =
      fields.find? (fun p => p.1 == k) := by
  induction fields with
  | nil => simp [JValue.setField, h]
  | cons e rest ih =>
      obtain ⟨k', x'⟩ := e
      by_cases hk : k' = key
      · subst hk
        simp [JValue.setField, List.find?_cons, h]
      · simp [JValue.setField, hk, List.find?_cons, ih]

theorem field_set_ne (v : JValue) (key k : String) (x : JValue) (h : key ≠ k) :
    (v.set key x).field k = v.field k := by
  cases v <;> simp [JValue.set, JValue.field, find_setField_ne _ _ _ _ h]

theorem find_setField_self (fields : List (String × JValue)) (key : String) (x : JValue) :
    ((JValue.setField fields key x).find? (fun p => p.1 == key)).map (fun p => p.2) =
      some x := by
  induction fields with
  | nil => simp [JValue.setField]
  | cons e rest ih =>
      obtain ⟨k', x'⟩ := e
      by_cases hk : k' = key
      · subst hk
        simp [JValue.setField, List.find?_cons]
      · simp [JValue.setField, hk, List.find?_cons, ih]

theorem field_refreshToken_other (token updatedAt k : String) (r : JValue)
    (h1 : "token" ≠ k) (h2 : "updatedAt" ≠ k) :
    (refreshToken token updatedAt r).field k = r.field k := by
  unfold refreshToken
  rw [field_set_ne _ _ _ _ h2, field_set_ne _ _ _ _ h1]

theorem ownerRepo_refreshToken (token updatedAt : String) (r : JValue) :
    ownerRepo (refreshToken token updatedAt r) = ownerRepo r := by
  unfold ownerRepo
  rw [field_refreshToken_other _ _ "owner" r (by decide) (by decide),
    field_refreshToken_other _ _ "repo" r (by decide) (by decide)]

theorem ownerRepo_eq_some_iff (r : JValue) (o p : String) :
    ownerRepo r = some (o, p) ↔ matchesOwnerRepo o p r = true := by
  unfold ownerRepo matchesOwnerRepo
  cases h1 : r.field "owner" with
  | none => simp [strictEqStr]
  | some a =>
      cases a <;> cases h2 : r.field "repo" with
      | none => simp [strictEqStr]
      | some b => cases b <;> simp [strictEqStr]

theorem map_updateAt (g : JValue → Option (String × String)) (f : JValue → JValue)
    (h : ∀ r, g (f r) = g r) (l : List JValue) (i : Nat) :
    (updateAt f l i).map g = l.map g := by
  induction l generalizing i with
  | nil => rfl
  | cons x xs ih =>
      cases i with
      | zero => simp [updateAt, h]
      | succ j => simp [updateAt, ih]

theorem length_updateAt (f : JValue → JValue) (l : List JValue) (i : Nat) :
    (updateAt f l i).length = l.length := by
  induction l generalizing i with
  | nil => rfl
  | cons x xs ih =>
      cases i with
      | zero => simp [updateAt]
      | succ j => simp [updateAt, ih]

theorem findThrowing_none (p : JValue → Bool) (l : List JValue)
    (h : findThrowing p l = .ok none) : ∀ x ∈ l, p x = false := by
  induction l with
  | nil => simp
  | cons x xs ih =>
      unfold findThrowing at h
      split at h
      · cases h
      · split at h
        · cases h
        · rename_i hp
          cases hrec : findThrowing p xs with
          | error e => rw [hrec] at h; cases h
          | ok o =>
              cases o with
              | none =>
                  intro y hy
                  rcases List.mem_cons.mp hy with rfl | hy
                  · simpa using hp
                  · exact ih hrec y hy
              | some q =>
                  obtain ⟨i, y⟩ := q
                  rw [hrec] at h
                  cases h

theorem uniquePairs_iff_map (l : List JValue) :
    UniquePairs (.arr l) ↔
      (l.map ownerRepo).Pairwise (fun x y => (x.isSome && x == y) = false) := by
  unfold UniquePairs entriesOf
  rw [List.pairwise_map]
  rfl

/-! ## What each operation does to `repositories` -/

theorem addRepository_repositories (P : Platform) (f : AddForm) (s : State) :
    (addRepository P f s).repositories = s.repositories ∨
    (∃ entries i x, s.repositories = .arr entries ∧
      findThrowing (matchesOwnerRepo (jsTrim f.owner) (jsTrim f.repo)) entries =
        .ok (some (i, x)) ∧
      (addRepository P f s).repositories =
        .arr (updateAt (refreshToken (jsTrim f.token) f.nowIso) entries i)) ∨
    (∃ entries, s.repositories = .arr entries ∧
      findThrowing (matchesOwnerRepo (jsTrim f.owner) (jsTrim f.repo)) entries = .ok none ∧
      (addRepository P f s).repositories =
        .arr (entries ++ [newEntry (toString f.nowMs) (jsTrim f.token) (jsTrim f.owner)
          (jsTrim f.repo) f.nowIso])) := by
  unfold addRepository
  simp only
  split
  · exact Or.inl rfl
  · split
    · exact Or.inl rfl
    · split
      · rename_i entries hreg
        split
        · exact Or.inl rfl
        · rename_i i x hfind
          split
          · exact Or.inl rfl
          · exact Or.inr (Or.inl ⟨entries, i, x, hreg, hfind, by simp⟩)
        · rename_i hfind
          exact Or.inr (Or.inr ⟨entries, hreg, hfind, by simp⟩)
      · exact Or.inl rfl

theorem removeRepository_repositories (P : Platform) (id : String) (confirmed : Bool)
    (s : State) :
    (removeRepository P id confirmed s).repositories = s.repositories ∨
    (∃ entries, s.repositories = .arr entries ∧
      (removeRepository P id confirmed s).repositories =
        .arr (entries.filter (fun r => !matchesId id r))) := by
  unfold removeRepository
  split
  · exact Or.inl rfl
  · split
    · rename_i entries hreg
      split
      · exact Or.inl rfl
      · refine Or.inr ⟨entries, hreg, ?_⟩
        simp only
        split
        · rfl
        · split <;> split <;> rfl
    · exact Or.inl rfl

theorem clearAllRepos_repositories (P : Platform) (confirmed : Bool) (s : State) :
    (clearAllRepos P confirmed s).repositories = s.repositories ∨
    (clearAllRepos P confirmed s).repositories = .arr [] := by
  unfold clearAllRepos
  split
  · exact Or.inl rfl
  · simp only
    split
    · exact Or.inr rfl
    · split <;> exact Or.inr rfl

theorem importRepos_repositories (P : Platform) (text : String) (s : State) :
    (importRepos P text s).repositories = s.repositories ∨
    (∃ items, P.parse text = some (.arr items) ∧ everyValid items = .ok true ∧
      (importRepos P text s).repositories = .arr items) := by
  unfold importRepos
  split
  · exact Or.inl rfl
  · rename_i items hparse
    split
    · exact Or.inl rfl
    · exact Or.inl rfl
    · rename_i hvalid
      refine Or.inr ⟨items, hparse, hvalid, ?_⟩
      simp only
      split <;> rfl
  · exact Or.inl rfl

theorem loadFromStorage_repositories (P : Platform) (s : State) :
    (loadFromStorage P s).repositories = s.repositories ∨
    (∃ saved, s.storage = some saved ∧ saved ≠ "" ∧
      ((∃ v, P.parse saved = some v ∧ (loadFromStorage P s).repositories = v) ∨
       (P.parse saved = none ∧ (loadFromStorage P s).repositories = .arr []))) := by
  unfold loadFromStorage
  cases hst : s.storage with
  | none =>
      left
      simp only
      split <;> rfl
  | some saved =>
      by_cases hempty : saved = ""
      · left
        simp only [hempty, if_true]
        split <;> rfl
      · right
        refine ⟨saved, rfl, hempty, ?_⟩
        simp only [hempty, if_false]
        cases hp : P.parse saved with
        | none =>
            right
            refine ⟨rfl, ?_⟩
            simp only
            split <;> rfl
        | some v =>
            left
            refine ⟨v, rfl, ?_⟩
            simp only
            split <;> rfl

/-! ## C1: at most one registration per (owner, repo) pair -/

theorem uniquePairs_addRepository (P : Platform) (f : AddForm) (s : State)
    (h : UniquePairs s.repositories) : UniquePairs (addRepository P f s).repositories := by
  rcases addRepository_repositories P f s with h0 | ⟨entries, i, x, hreg, -, hres⟩ |
    ⟨entries, hreg, hfind, hres⟩
  · rw [h0]; exact h
  · rw [hres, uniquePairs_iff_map, map_updateAt _ _ (ownerRepo_refreshToken _ _),
      ← uniquePairs_iff_map, ← hreg]
    exact h
  · rw [hres]
    rw [hreg] at h
    unfold UniquePairs entriesOf at h ⊢
    rw [List.pairwise_append]
    refine ⟨h, List.pairwise_singleton _ _, ?_⟩
    intro a ha b hb
    rw [List.mem_singleton] at hb
    subst hb
    have hno := findThrowing_none _ _ hfind a ha
    cases hsame : samePair a (newEntry (toString f.nowMs) (jsTrim f.token) (jsTrim f.owner)
        (jsTrim f.repo) f.nowIso) with
    | false => rfl
    | true =>
        exfalso
        have hnew : ownerRepo (newEntry (toString f.nowMs) (jsTrim f.token) (jsTrim f.owner)
            (jsTrim f.repo) f.nowIso) = some (jsTrim f.owner, jsTrim f.repo) := by
          simp [ownerRepo, newEntry, JValue.field, List.find?_cons]
        unfold samePair at hsame
        rw [hnew] at hsame
        have hpair : ownerRepo a = some (jsTrim f.owner, jsTrim f.repo) := by
          have := hsame
          simp at this
          exact this.2
        rw [(ownerRepo_eq_some_iff a _ _).mp hpair] at hno
        cases hno

theorem uniquePairs_removeRepository (P : Platform) (id : String) (confirmed : Bool)
    (s : State) (h : UniquePairs s.repositories) :
    UniquePairs (removeRepository P id confirmed s).repositories := by
  rcases removeRepository_repositories P id confirmed s with h0 | ⟨entries, hreg, hres⟩
  · rw [h0]; exact h
  · rw [hres]
    rw [hreg] at h
    exact List.Pairwise.sublist (List.filter_sublist _) h

theorem uniquePairs_clearAllRepos (P : Platform) (confirmed : Bool) (s : State)
    (h : UniquePairs s.repositories) :
    UniquePairs (clearAllRepos P confirmed s).repositories := by
  rcases clearAllRepos_repositories P confirmed s with h0 | h0
  · rw [h0]; exact h
  · rw [h0]; exact List.Pairwise.nil

/-- C1 (as amended): at most one registration per (owner, repo) pair holds for the
initial empty registry and is preserved, for every input, by `addRepository`,
`removeRepository` and `clearAllRepos`.  `importRepos` and `loadFromStorage` install the
array they read without looking for duplicate pairs: they preserve the invariant when
the value they install has at most one record per pair. -/
theorem unique_pairs_invariant (P : Platform) (s : State) (h : UniquePairs s.repositories) :
    (∀ stored, UniquePairs (State.initial stored).repositories) ∧
    (∀ f, UniquePairs (addRepository P f s).repositories) ∧
    (∀ id confirmed, UniquePairs (removeRepository P id confirmed s).repositories) ∧
    (∀ confirmed, UniquePairs (clearAllRepos P confirmed s).repositories) ∧
    (∀ text, (∀ items, P.parse text = some (.arr items) → UniquePairs (.arr items)) →
      UniquePairs (importRepos P text s).repositories) ∧
    ((∀ saved v, s.storage = some saved → P.parse saved = some v → UniquePairs v) →
      UniquePairs (loadFromStorage P s).repositories) := by
  refine ⟨fun _ => List.Pairwise.nil, fun f => uniquePairs_addRepository P f s h,
    fun id c => uniquePairs_removeRepository P id c s h,
    fun c => uniquePairs_clearAllRepos P c s h, ?_, ?_⟩
  · intro text hdoc
    rcases importRepos_repositories P text s with h0 | ⟨items, hparse, -, hres⟩
    · rw [h0]; exact h
    · rw [hres]; exact hdoc items hparse
  · intro hdoc
    rcases loadFromStorage_repositories P s with h0 | ⟨saved, hst, -, ⟨v, hp, hres⟩ | ⟨-, hres⟩⟩
    · rw [h0]; exact h
    · rw [hres]; exact hdoc saved v hst hp
    · rw [hres]; exact List.Pairwise.nil

set_option maxRecDepth 100000 in
/-- An instance of `unique_pairs_invariant`: adding acme/site to the empty registry. -/
theorem unique_pairs_invariant_witness :
    UniquePairs (State.initial none).repositories ∧
    UniquePairs (addRepository examplePlatform sampleForm (State.initial none)).repositories :=
  ⟨by decide, (unique_pairs_invariant examplePlatform (State.initial none) (by decide)).2.1
    sampleForm⟩

set_option maxRecDepth 100000 in
/-- C1 fails as stated: the empty registry has no duplicate pair, and importing a document
with two records for acme/site, which passes the validation, leaves a registry with two
registrations for that pair. -/
theorem import_installs_duplicate_pairs :
    UniquePairs (State.initial none).repositories ∧
    (importRepos examplePlatform duplicateText (State.initial none)).repositories =
      duplicateDoc ∧
    ¬ UniquePairs (importRepos examplePlatform duplicateText (State.initial none)).repositories := by
  decide

/-! ## C2: adding an existing (owner, repo) pair updates the entry in place -/

@[simp] theorem saveAndRender_alerts (P : Platform) (s : State) :
    (saveAndRender P s).alerts = s.alerts := by
  simp only [saveAndRender]
  split <;> rfl

theorem findThrowing_some (p : JValue → Bool) (l : List JValue) (i : Nat) (x : JValue)
    (h : findThrowing p l = .ok (some (i, x))) :
    l[i]? = some x ∧ p x = true ∧ ∀ j y, j < i → l[j]? = some y → p y = false := by
  induction l generalizing i with
  | nil => simp [findThrowing] at h
  | cons a rest ih =>
      unfold findThrowing at h
      split at h
      · cases h
      · split at h
        · rename_i hp
          cases h
          exact ⟨by simp, hp, fun j y hj => absurd hj (Nat.not_lt_zero j)⟩
        · rename_i hp
          cases hrec : findThrowing p rest with
          | error e => rw [hrec] at h; cases h
          | ok o =>
              cases o with
              | none => rw [hrec] at h; cases h
              | some q =>
                  obtain ⟨i', y'⟩ := q
                  rw [hrec] at h
                  cases h
                  obtain ⟨h1, h2, h3⟩ := ih i' hrec
                  refine ⟨by simpa using h1, h2, ?_⟩
                  intro j y hj hy
                  cases j with
                  | zero =>
                      simp at hy
                      subst hy
                      simpa using hp
                  | succ j' =>
                      exact h3 j' y (Nat.lt_of_succ_lt_succ hj) (by simpa using hy)

theorem findThrowing_of_exists (p : JValue → Bool) (l : List JValue)
    (hnonnull : ∀ r ∈ l, r ≠ .null) (hex : ∃ r ∈ l, p r = true) :
    ∃ i x, findThrowing p l = .ok (some (i, x)) := by
  induction l with
  | nil => simp at hex
  | cons a rest ih =>
      have ha : (a == JValue.null) = false := by
        simpa using hnonnull a (List.mem_cons_self a rest)
      by_cases hp : p a = true
      · exact ⟨0, a, by simp [findThrowing, ha, hp]⟩
      · have hex' : ∃ r ∈ rest, p r = true := by
          obtain ⟨r, hr, hpr⟩ := hex
          rcases List.mem_cons.mp hr with rfl | hr
          · exact absurd hpr hp
          · exact ⟨r, hr, hpr⟩
        obtain ⟨i, x, hrec⟩ := ih (fun r hr => hnonnull r (List.mem_cons_of_mem a hr)) hex'
        exact ⟨i + 1, x, by simp [findThrowing, ha, hp, hrec]⟩

theorem getElem?_updateAt_self (f : JValue → JValue) (l : List JValue) (i : Nat) :
    (updateAt f l i)[i]? = (l[i]?).map f := by
  induction l generalizing i with
  | nil => simp [updateAt]
  | cons x xs ih =>
      cases i with
      | zero => simp [updateAt]
      | succ j => simpa [updateAt] using ih j

theorem getElem?_updateAt_ne (f : JValue → JValue) (l : List JValue) (i j : Nat)
    (h : j ≠ i) : (updateAt f l i)[j]? = l[j]? := by
  induction l generalizing i j with
  | nil => simp [updateAt]
  | cons x xs ih =>
      cases i with
      | zero =>
          cases j with
          | zero => exact absurd rfl h
          | succ j' => simp [updateAt]
      | succ i' =>
          cases j with
          | zero => simp [updateAt]
          | succ j' => simpa [updateAt] using ih i' j' (fun hj => h (by rw [hj]))

theorem isObj_of_field (v : JValue) (k : String) (x : JValue) (h : v.field k = some x) :
    ∃ fields, v = .obj fields := by
  cases v <;> simp [JValue.field] at h
  exact ⟨_, rfl⟩

theorem field_set_self (fields : List (String × JValue)) (key : String) (x : JValue) :
    ((JValue.obj fields).set key x).field key = some x := by
  simp only [JValue.set, JValue.field]
  exact find_setField_self fields key x

theorem field_refreshToken_token (token updatedAt : String) (fields : List (String × JValue)) :
    (refreshToken token updatedAt (.obj fields)).field "token" = some (.str token) := by
  unfold refreshToken
  rw [field_set_ne _ _ _ _ (by decide)]
  exact field_set_self fields "token" _

theorem field_refreshToken_updatedAt (token updatedAt : String)
    (fields : List (String × JValue)) :
    (refreshToken token updatedAt (.obj fields)).field "updatedAt" =
      some (.str updatedAt) := by
  unfold refreshToken
  exact field_set_self _ "updatedAt" _

theorem addRepository_update_branch (P : Platform) (f : AddForm) (s : State)
    (entries : List JValue) (i : Nat) (x : JValue)
    (hreg : s.repositories = .arr entries)
    (htoken : jsTrim f.token ≠ "") (howner : jsTrim f.owner ≠ "") (hrepo : jsTrim f.repo ≠ "")
    (hformat : startsWith (jsTrim f.token) "ghp_" = true ∨
      startsWith (jsTrim f.token) "github_pat_" = true ∨ f.confirmFormat = true)
    (hfind : findThrowing (matchesOwnerRepo (jsTrim f.owner) (jsTrim f.repo)) entries =
      .ok (some (i, x)))
    (hupdate : f.confirmUpdate = true) :
    (addRepository P f s).repositories =
        .arr (updateAt (refreshToken (jsTrim f.token) f.nowIso) entries i) ∧
      (addRepository P f s).alerts = s.alerts ++ [.updated] := by
  have hgate : (!startsWith (jsTrim f.token) "ghp_" &&
      !startsWith (jsTrim f.token) "github_pat_" && !f.confirmFormat) = false := by
    rcases hformat with h | h | h <;> simp [h]
  unfold addRepository
  simp only [htoken, howner, hrepo, or_self, if_false, hgate, hreg, hfind, hupdate]
  simp [showAlert]

/-- C2: when the registry already holds an entry for the given (owner, repo) and the run
reaches the question whether to update it (the three trimmed fields are non-empty and
the token has a recognised form or its form was accepted), then, the update being
confirmed, `addRepository` gives the first such entry the new token and sets its
`updatedAt` to the current time; the registry keeps its length, every other property of
that entry (`id`, `owner`, `repo`, `addedAt` among them) and every other entry stay as
they were, and the notification is `updated`. -/
theorem addRepository_updates_existing (P : Platform) (f : AddForm) (s : State)
    (entries : List JValue)
    (hreg : s.repositories = .arr entries)
    (hnonnull : ∀ r ∈ entries, r ≠ .null)
    (hexists : ∃ r ∈ entries, matchesOwnerRepo (jsTrim f.owner) (jsTrim f.repo) r = true)
    (htoken : jsTrim f.token ≠ "") (howner : jsTrim f.owner ≠ "") (hrepo : jsTrim f.repo ≠ "")
    (hformat : startsWith (jsTrim f.token) "ghp_" = true ∨
      startsWith (jsTrim f.token) "github_pat_" = true ∨ f.confirmFormat = true)
    (hupdate : f.confirmUpdate = true) :
    ∃ (i : Nat) (x x' : JValue) (entries' : List JValue),
      entries[i]? = some x ∧
      matchesOwnerRepo (jsTrim f.owner) (jsTrim f.repo) x = true ∧
      (∀ j y, j < i → entries[j]? = some y →
        matchesOwnerRepo (jsTrim f.owner) (jsTrim f.repo) y = false) ∧
      (addRepository P f s).repositories = .arr entries' ∧
      entries'.length = entries.length ∧
      entries'[i]? = some x' ∧
      x'.field "token" = some (.str (jsTrim f.token)) ∧
      x'.field "updatedAt" = some (.str f.nowIso) ∧
      (∀ k, k ≠ "token" → k ≠ "updatedAt" → x'.field k = x.field k) ∧
      (∀ j, j ≠ i → entries'[j]? = entries[j]?) ∧
      (addRepository P f s).alerts = s.alerts ++ [.updated] := by
  obtain ⟨i, x, hfind⟩ := findThrowing_of_exists _ entries hnonnull hexists
  obtain ⟨hx, hpx, hfirst⟩ := findThrowing_some _ _ _ _ hfind
  obtain ⟨hres, halert⟩ :=
    addRepository_update_branch P f s entries i x hreg htoken howner hrepo hformat hfind hupdate
  have hobj : ∃ fields, x = .obj fields := by
    have hm := hpx
    unfold matchesOwnerRepo at hm
    cases ho : x.field "owner" with
    | none => simp [ho, strictEqStr] at hm
    | some v => exact isObj_of_field x "owner" v ho
  obtain ⟨fields, rfl⟩ := hobj
  refine ⟨i, .obj fields, refreshToken (jsTrim f.token) f.nowIso (.obj fields),
    updateAt (refreshToken (jsTrim f.token) f.nowIso) entries i, hx, hpx, hfirst, hres,
    length_updateAt _ _ _, ?_, field_refreshToken_token _ _ _,
    field_refreshToken_updatedAt _ _ _, ?_, ?_, halert⟩
  · rw [getElem?_updateAt_self, hx]; rfl
  · intro k hk1 hk2
    exact field_refreshToken_other _ _ k _ (fun h => hk1 h.symm) (fun h => hk2 h.symm)
  · intro j hj
    exact getElem?_updateAt_ne _ _ _ _ hj

set_option maxRecDepth 100000 in
/-- An instance of `addRepository_updates_existing`: the token of acme/site is replaced. -/
theorem addRepository_updates_existing_witness :
    (addRepository examplePlatform sampleForm sampleState).repositories =
      .arr [.obj [("id", .str "1"), ("token", .str "ghp_new"), ("owner", .str "acme"),
        ("repo", .str "site"), ("addedAt", .str "2024-01-01T00:00:00.000Z"),
        ("updatedAt", .str "2023-11-14T22:13:20.000Z")]] ∧
    ∃ (i : Nat) (x x' : JValue) (entries' : List JValue),
      [sampleEntry "1" "ghp_old" "acme" "site"][i]? = some x ∧
      matchesOwnerRepo (jsTrim sampleForm.owner) (jsTrim sampleForm.repo) x = true ∧
      (∀ j y, j < i → [sampleEntry "1" "ghp_old" "acme" "site"][j]? = some y →
        matchesOwnerRepo (jsTrim sampleForm.owner) (jsTrim sampleForm.repo) y = false) ∧
      (addRepository examplePlatform sampleForm sampleState).repositories = .arr entries' ∧
      entries'.length = [sampleEntry "1" "ghp_old" "acme" "site"].length ∧
      entries'[i]? = some x' ∧
      x'.field "token" = some (.str (jsTrim sampleForm.token)) ∧
      x'.field "updatedAt" = some (.str sampleForm.nowIso) ∧
      (∀ k, k ≠ "token" → k ≠ "updatedAt" → x'.field k = x.field k) ∧
      (∀ j, j ≠ i → entries'[j]? = [sampleEntry "1" "ghp_old" "acme" "site"][j]?) ∧
      (addRepository examplePlatform sampleForm sampleState).alerts =
        sampleState.alerts ++ [.updated] :=
  ⟨by decide,
   addRepository_updates_existing examplePlatform sampleForm sampleState
    [sampleEntry "1" "ghp_old" "acme" "site"] rfl (by decide) (by decide) (by decide)
    (by decide) (by decide) (by decide) (by decide)⟩

/-! ## C3: removing a registration -/

theorem interpolationThrows_of_isString (o : Option JValue) (h : isString o = true) :
    interpolationThrows o = false := by
  cases o with
  | none => rfl
  | some v => cases v <;> simp_all [isString, interpolationThrows, toStringThrows]

theorem isRegistration_fields (r : JValue) (h : isRegistration r = true) :
    isString (r.field "id") = true ∧ isString (r.field "token") = true ∧
    isString (r.field "owner") = true ∧ isString (r.field "repo") = true ∧
    isString (r.field "addedAt") = true := by
  simpa [isRegistration, and_assoc] using h

theorem ne_null_of_isRegistration (r : JValue) (h : isRegistration r = true) :
    r ≠ .null := by
  rintro rfl
  simp [isRegistration, JValue.field, isString] at h

theorem repoItemThrows_of_isRegistration (r : JValue) (h : isRegistration r = true) :
    repoItemThrows r = false := by
  obtain ⟨h1, h2, h3, h4, h5⟩ := isRegistration_fields r h
  have hn : (r == JValue.null) = false := by simpa using ne_null_of_isRegistration r h
  simp [repoItemThrows, hn, interpolationThrows_of_isString _ h1,
    interpolationThrows_of_isString _ h3, interpolationThrows_of_isString _ h4,
    interpolationThrows_of_isString _ h5, h2]

theorem renderRepoListThrows_of_registrations (entries : List JValue)
    (h : ∀ r ∈ entries, isRegistration r = true) :
    renderRepoListThrows (.arr entries) = false := by
  simp only [renderRepoListThrows, List.any_eq_false]
  intro r hr
  simp [repoItemThrows_of_isRegistration r (h r hr)]

theorem updateStatsThrows_of_registration (s : State) (entries : List JValue)
    (hreg : s.repositories = .arr entries)
    (hactive : ∀ a, s.currentRepo = some a → isRegistration a.value = true) :
    updateStatsThrows s = false := by
  unfold updateStatsThrows
  rw [hreg]
  cases hc : s.currentRepo with
  | none => simp
  | some a =>
      obtain ⟨-, -, h3, h4, -⟩ := isRegistration_fields a.value (hactive a hc)
      simp [interpolationThrows_of_isString _ h3, interpolationThrows_of_isString _ h4]

theorem reindex_value (keep : JValue → Bool) (entries : List JValue) (a : Active) :
    (reindex keep entries a).value = a.value := by
  unfold reindex
  split
  · rfl
  · split <;> rfl

theorem activeIdIs_reindex (id : String) (s : State) (reg : JValue) (keep : JValue → Bool)
    (entries : List JValue) (store : Option String) :
    activeIdIs id { s with repositories := reg,
                           currentRepo := s.currentRepo.map (reindex keep entries),
                           storage := store } = activeIdIs id s := by
  unfold activeIdIs
  cases s.currentRepo with
  | none => rfl
  | some a => simp [reindex_value]

theorem removeRepository_wellFormed (P : Platform) (id : String) (s : State)
    (entries : List JValue) (hreg : s.repositories = .arr entries)
    (hentries : ∀ r ∈ entries, isRegistration r = true)
    (hactive : ∀ a, s.currentRepo = some a → isRegistration a.value = true) :
    removeRepository P id true s =
      showAlert
        { s with repositories := .arr (entries.filter (fun r => !matchesId id r)),
                 currentRepo :=
                   if activeIdIs id s then none
                   else s.currentRepo.map (reindex (fun r => !matchesId id r) entries),
                 storage := some (P.stringify
                   (.arr (entries.filter (fun r => !matchesId id r))) 0) } .removed := by
  have hnull : entries.any (fun r => r == JValue.null) = false := by
    simp only [List.any_eq_false]
    intro r hr
    simpa using ne_null_of_isRegistration r (hentries r hr)
  have hkept : ∀ r ∈ entries.filter (fun r => !matchesId id r), isRegistration r = true :=
    fun r hr => hentries r (List.mem_filter.mp hr).1
  have hact1 : ∀ a, (s.currentRepo.map (reindex (fun r => !matchesId id r) entries)) = some a →
      isRegistration a.value = true := by
    intro a ha
    cases hc : s.currentRepo with
    | none => simp [hc] at ha
    | some b =>
        simp [hc] at ha
        subst ha
        rw [reindex_value]
        exact hactive b hc
  have hthrow1 : saveAndRenderThrows (setItem P
      { s with repositories := .arr (entries.filter (fun r => !matchesId id r)),
               currentRepo := s.currentRepo.map (reindex (fun r => !matchesId id r) entries) })
      = false := by
    unfold saveAndRenderThrows
    rw [updateStatsThrows_of_registration _ _ rfl hact1]
    simpa [setItem] using renderRepoListThrows_of_registrations _ hkept
  unfold removeRepository
  simp only [Bool.not_true, Bool.false_eq_true, if_false, hreg, hnull, hthrow1]
  by_cases hid : activeIdIs id s = true
  · have hid1 := activeIdIs_reindex id s (.arr (entries.filter (fun r => !matchesId id r)))
      (fun r => !matchesId id r) entries
      (some (P.stringify (.arr (entries.filter (fun r => !matchesId id r))) 0))
    simp only [setItem] at hid1 ⊢
    simp only [hid1, hid, if_true]
    rw [if_neg]
    simp [updateStatsThrows]
  · have hid1 := activeIdIs_reindex id s (.arr (entries.filter (fun r => !matchesId id r)))
      (fun r => !matchesId id r) entries
      (some (P.stringify (.arr (entries.filter (fun r => !matchesId id r))) 0))
    simp only [setItem] at hid1 ⊢
    simp only [hid1, hid, if_false]
    rw [if_neg]
    · rfl
    · have := updateStatsThrows_of_registration
        { s with repositories := .arr (entries.filter (fun r => !matchesId id r)),
                 currentRepo := s.currentRepo.map (reindex (fun r => !matchesId id r) entries),
                 storage := some (P.stringify
                   (.arr (entries.filter (fun r => !matchesId id r))) 0) }
        _ rfl hact1
      simp [this]

/-- C3 (as amended): on a registry of registrations `removeRepository(id)`, once confirmed,
leaves in the registry exactly the entries whose `id` differs from `id`, in their original
order; if the removed entry was the active repository, the active repository becomes
none.  `currentPath` and `currentContents` are left as they were: the path is not reset
to the root. -/
theorem removeRepository_removes (P : Platform) (id : String) (s : State)
    (hwf : WellFormed s) :
    (removeRepository P id true s).repositories =
      .arr ((entriesOf s.repositories).filter (fun r => !matchesId id r)) ∧
    (activeIdIs id s = true → (removeRepository P id true s).currentRepo = none) ∧
    (removeRepository P id true s).currentPath = s.currentPath ∧
    (removeRepository P id true s).currentContents = s.currentContents := by
  obtain ⟨⟨entries, hreg, hentries⟩, hactive⟩ := hwf
  rw [removeRepository_wellFormed P id s entries hreg hentries hactive]
  refine ⟨by simp [hreg, entriesOf], ?_, rfl, rfl⟩
  intro hid
  simp [showAlert, hid]

set_option maxRecDepth 100000 in
/-- An instance of `removeRepository_removes`: the active repository acme/site is
removed while its folder `docs` is shown. -/
theorem removeRepository_removes_witness :
    WellFormed navigatedState ∧
    (removeRepository examplePlatform "1" true navigatedState).repositories = .arr [] ∧
    (removeRepository examplePlatform "1" true navigatedState).currentRepo = none := by
  have hwf : WellFormed navigatedState := by
    refine ⟨⟨[sampleEntry "1" "ghp_old" "acme" "site"], by decide, by decide⟩, ?_⟩
    intro a ha
    have hv : navigatedState.currentRepo =
        some { value := sampleEntry "1" "ghp_old" "acme" "site", index := some 0 } := by
      decide
    rw [hv] at ha
    cases ha
    decide
  have h := removeRepository_removes examplePlatform "1" navigatedState hwf
  exact ⟨hwf, by rw [h.1]; decide, h.2.1 (by decide)⟩

set_option maxRecDepth 100000 in
/-- C3 fails as stated: acme/site is the active repository and its folder `docs` is shown;
after `removeRepository("1")` the active repository is none but `currentPath` is still
`docs`, not the empty string. -/
theorem removeRepository_keeps_currentPath :
    activeIdIs "1" navigatedState = true ∧
    navigatedState.currentPath = "docs" ∧
    (removeRepository examplePlatform "1" true navigatedState).currentRepo = none ∧
    (removeRepository examplePlatform "1" true navigatedState).currentPath = "docs" ∧
    (removeRepository examplePlatform "1" true navigatedState).currentPath ≠ "" := by
  decide

/-! ## C4: a failed import leaves the registry alone -/

theorem validRecord_false_of_lacksField (r : JValue) (h : lacksField r) :
    validRecord r = false := by
  obtain ⟨k, hk, hnone⟩ := h
  simp only [requiredFields, List.mem_cons, List.mem_singleton, List.not_mem_nil,
    or_false] at hk
  unfold validRecord
  rcases hk with rfl | rfl | rfl | rfl | rfl <;> simp [hnone, truthyOpt]

theorem everyValid_true (items : List JValue) (h : everyValid items = .ok true) :
    ∀ r ∈ items, r ≠ .null ∧ validRecord r = true := by
  induction items with
  | nil => simp
  | cons a rest ih =>
      unfold everyValid at h
      split at h
      · cases h
      · rename_i hnull
        split at h
        · rename_i hvalid
          intro r hr
          rcases List.mem_cons.mp hr with rfl | hr
          · exact ⟨by simpa using hnull, hvalid⟩
          · exact ih h r hr
        · cases h

theorem everyValid_of_nonnull (items : List JValue) (h : ∀ r ∈ items, r ≠ .null) :
    everyValid items = .ok (items.all validRecord) := by
  induction items with
  | nil => rfl
  | cons a rest ih =>
      have ha : (a == JValue.null) = false := by
        simpa using h a (List.mem_cons_self a rest)
      have hrest := ih (fun r hr => h r (List.mem_cons_of_mem a hr))
      unfold everyValid
      by_cases hv : validRecord a = true
      · simp [ha, hv, hrest]
      · simp [ha, hv]

theorem importRepos_invalid (P : Platform) (text : String) (s : State) (items : List JValue)
    (hparse : P.parse text = some (.arr items)) (hbad : everyValid items ≠ .ok true) :
    ∃ e, importRepos P text s = showAlert s (.importFailed e) ∧
      ((∀ r ∈ items, r ≠ .null) → e = invalidRecord) := by
  unfold importRepos
  rw [hparse]
  simp only
  cases hv : everyValid items with
  | error e =>
      refine ⟨e, rfl, ?_⟩
      intro hnn
      rw [everyValid_of_nonnull items hnn] at hv
      cases hv
  | ok b =>
      cases b with
      | false => exact ⟨invalidRecord, rfl, fun _ => rfl⟩
      | true => exact absurd hv hbad

/-- C4: `importRepos` fails and changes nothing but the notification (the registry, the
stored item and the navigation state are as before) for every document whose top-level
value is not an array (`invalidFormat`), for every array in which some record lacks one
of `id`, `token`, `owner`, `repo`, `addedAt` (`invalidRecord`, unless `every` meets a
`null` element first and throws a `TypeError`), and for every text that does not
parse. -/
theorem importRepos_failure_keeps_registry (P : Platform) (text : String) (s : State) :
    (∀ v, P.parse text = some v → v.isArray = false →
      importRepos P text s = showAlert s (.importFailed invalidFormat)) ∧
    (∀ items, P.parse text = some (.arr items) → (∃ r ∈ items, lacksField r) →
      ∃ e, importRepos P text s = showAlert s (.importFailed e) ∧
        ((∀ r ∈ items, r ≠ .null) → e = invalidRecord)) ∧
    (P.parse text = none → importRepos P text s = showAlert s (.importFailed .syntaxError)) ∧
    (∀ a, (showAlert s a).repositories = s.repositories ∧
      (showAlert s a).storage = s.storage ∧
      (showAlert s a).currentRepo = s.currentRepo) := by
  refine ⟨?_, ?_, ?_, fun a => ⟨rfl, rfl, rfl⟩⟩
  · intro v hparse hnot
    unfold importRepos
    rw [hparse]
    cases v <;> simp [JValue.isArray] at hnot <;> rfl
  · rintro items hparse ⟨r, hr, hlack⟩
    refine importRepos_invalid P text s items hparse ?_
    intro hall
    have := (everyValid_true items hall r hr).2
    rw [validRecord_false_of_lacksField r hlack] at this
    cases this
  · intro hparse
    unfold importRepos
    rw [hparse]

/-! ## C5: when an import succeeds -/

theorem everyValid_of_valid (items : List JValue)
    (h : ∀ r ∈ items, r ≠ .null ∧ validRecord r = true) : everyValid items = .ok true := by
  rw [everyValid_of_nonnull items (fun r hr => (h r hr).1)]
  congr 1
  rw [List.all_eq_true]
  exact fun r hr => (h r hr).2

theorem isRegistration_detach (c : Option Active)
    (h : ∀ a, c = some a → isRegistration a.value = true) :
    ∀ a, detach c = some a → isRegistration a.value = true := by
  intro a ha
  cases c with
  | none => cases ha
  | some b =>
      simp only [detach, Option.some.injEq] at ha
      subst ha
      exact h b rfl

theorem importRepos_valid (P : Platform) (text : String) (s : State) (items : List JValue)
    (hparse : P.parse text = some (.arr items))
    (hitems : ∀ r ∈ items, isRegistration r = true ∧ validRecord r = true)
    (hactive : ∀ a, s.currentRepo = some a → isRegistration a.value = true) :
    importRepos P text s =
      showAlert { s with repositories := .arr items, currentRepo := detach s.currentRepo,
                         storage := some (P.stringify (.arr items) 0) }
        (.imported items.length) := by
  have hvalid : everyValid items = .ok true :=
    everyValid_of_valid items
      (fun r hr => ⟨ne_null_of_isRegistration r (hitems r hr).1, (hitems r hr).2⟩)
  have hthrow : saveAndRenderThrows (setItem P
      { s with repositories := .arr items, currentRepo := detach s.currentRepo }) = false := by
    unfold saveAndRenderThrows
    rw [updateStatsThrows_of_registration _ items rfl
      (isRegistration_detach s.currentRepo hactive)]
    simpa [setItem] using
      renderRepoListThrows_of_registrations items (fun r hr => (hitems r hr).1)
  unfold importRepos
  rw [hparse]
  simp only [hvalid, hthrow]
  rfl

set_option maxRecDepth 100000 in
/-- C5, the code at the failing input: every record of the document has all five
properties (the token is the number 5) and `every` accepts it; `importRepos` replaces
the registry and the stored item by the document and then reports a failure, because
`renderRepoList` calls `repo.token.substring` inside the same `try` block. -/
theorem importRepos_reports_failure_after_install :
    examplePlatform.parse numericTokenText = some numericTokenDoc ∧
    everyValid (entriesOf numericTokenDoc) = .ok true ∧
    (importRepos examplePlatform numericTokenText sampleState).repositories =
      numericTokenDoc ∧
    (importRepos examplePlatform numericTokenText sampleState).storage =
      some numericTokenText ∧
    (importRepos examplePlatform numericTokenText sampleState).alerts =
      [.importFailed .typeError] ∧
    sampleState.repositories ≠ numericTokenDoc := by
  decide

/-! ## C6: export followed by import -/

@[simp] theorem showAlert_alerts (s : State) (a : Alert) :
    (showAlert s a).alerts = s.alerts ++ [a] := rfl

/-- C6 (as amended): for every non-empty registry whose records are registrations with
non-empty `id`, `token`, `owner`, `repo` and `addedAt` (what `addRepository` creates),
`exportRepos` offers a text, and importing that text, in any state `t`, succeeds and
makes the registry equal to the exported one, record by record and property by
property (`updatedAt` included); the count reported is its length.  The platform is
assumed to parse what it serialized. -/
theorem export_import_roundtrip (P : Platform) (s t : State) (entries : List JValue)
    (hreg : s.repositories = .arr entries) (hne : entries ≠ [])
    (hentries : ∀ r ∈ entries, isRegistration r = true ∧ validRecord r = true)
    (hactive : ∀ a, t.currentRepo = some a → isRegistration a.value = true)
    (hround : P.parse (P.stringify (.arr entries) 2) = some (.arr entries)) :
    ∃ text, (exportRepos P s).2 = some text ∧
      (importRepos P text t).repositories = s.repositories ∧
      (importRepos P text t).alerts = t.alerts ++ [.imported entries.length] := by
  refine ⟨P.stringify (.arr entries) 2, ?_, ?_, ?_⟩
  · unfold exportRepos
    rw [hreg]
    cases entries with
    | nil => exact absurd rfl hne
    | cons a rest => rfl
  · rw [importRepos_valid P _ t entries hround hentries hactive, hreg]
    rfl
  · rw [importRepos_valid P _ t entries hround hentries hactive]
    rfl

set_option maxRecDepth 100000 in
/-- An instance of `export_import_roundtrip`: the registry holding acme/site is exported
and imported into a fresh session. -/
theorem export_import_roundtrip_witness :
    ∃ text, (exportRepos examplePlatform sampleState).2 = some text ∧
      (importRepos examplePlatform text (State.initial none)).repositories =
        sampleState.repositories ∧
      (importRepos examplePlatform text (State.initial none)).alerts =
        (State.initial none).alerts ++ [.imported 1] :=
  export_import_roundtrip examplePlatform sampleState (State.initial none)
    [sampleEntry "1" "ghp_old" "acme" "site"] rfl (by decide) (by decide)
    (fun a ha => by cases ha) (by decide)

set_option maxRecDepth 100000 in
/-- C6 fails as stated: a page load finds a record with an empty token under the storage
key; the registry is then non-empty, `exportRepos` offers its text, and importing that
text fails with `invalidRecord`. -/
theorem export_of_loaded_registry_not_importable :
    loadedEmptyToken.repositories = emptyTokenDoc ∧
    lengthIsZero loadedEmptyToken.repositories = .ok false ∧
    (exportRepos examplePlatform loadedEmptyToken).2 = some emptyTokenText ∧
    (importRepos examplePlatform emptyTokenText
        (exportRepos examplePlatform loadedEmptyToken).1).alerts =
      [.exported, .importFailed invalidRecord] := by
  decide

/-! ## C7: loading the stored registry -/

set_option maxRecDepth 100000 in
/-- C7, the code at the failing input: the stored text parses, to an object; after
`loadFromStorage` the registry is that object, not a sequence, and the `TypeError` that
`renderRepoList` throws on it (`repositories.map` is not a function) escapes.  What the
claim says about a stored text that does not parse holds: the registry becomes the
empty array. -/
theorem loadFromStorage_installs_non_array :
    (examplePlatform.parse objectText = some objectDoc ∧
     objectDoc.isArray = false ∧
     (loadFromStorage examplePlatform (State.initial (some objectText))).repositories =
       objectDoc ∧
     (loadFromStorage examplePlatform (State.initial (some objectText))).uncaught =
       [.typeError]) ∧
    (∀ (P : Platform) (s : State) (saved : String), s.storage = some saved → saved ≠ "" →
      P.parse saved = none → (loadFromStorage P s).repositories = .arr []) := by
  refine ⟨by decide, ?_⟩
  intro P s saved hst hne hparse
  unfold loadFromStorage
  simp only [hst, hne, if_false, hparse]
  split <;> rfl

/-! ## C8: the listing and the fetches in flight -/

theorem loadContentsResume_fields (P : Platform) (r : FetchResult) (s : State) :
    (loadContentsResume P r s).currentContents = settledListing P r ∧
    (loadContentsResume P r s).currentPath = s.currentPath ∧
    (loadContentsResume P r s).currentRepo = s.currentRepo ∧
    (loadContentsResume P r s).repositories = s.repositories := by
  cases r with
  | rejected => exact ⟨rfl, rfl, rfl, rfl⟩
  | responded status body =>
      cases body with
      | none =>
          unfold loadContentsResume settledListing
          by_cases hok : statusOk status = true <;> simp [hok, loadFailed, showAlert]
      | some data =>
          unfold loadContentsResume settledListing
          by_cases hok : statusOk status = true
          · by_cases hr : renderContentsThrows P (toListing data) = true
            · simp [hok, hr, renderStored, storeListing, loadFailed, showAlert]
            · simp [hok, hr, renderStored, storeListing]
          · simp [hok, loadFailed, showAlert]

theorem loadContentsStart_cases (path : String) (s : State) :
    ((loadContentsStart path s).2 = .idle ∧
      (loadContentsStart path s).1.currentContents = s.currentContents) ∨
    ((loadContentsStart path s).2 = .caught ∧
      (loadContentsStart path s).1.currentContents = []) ∨
    (∃ request a, (loadContentsStart path s).2 = .issued request ∧
      s.currentRepo = some a ∧ request.path = path ∧
      request.owner = a.value.field "owner" ∧ request.repo = a.value.field "repo" ∧
      request.token = a.value.field "token" ∧
      (loadContentsStart path s).1 = { s with currentPath := path }) := by
  unfold loadContentsStart
  cases hc : s.currentRepo with
  | none => exact Or.inl ⟨rfl, rfl⟩
  | some a =>
      simp only
      split
      · exact Or.inl ⟨rfl, rfl⟩
      · split
        · exact Or.inr (Or.inl ⟨rfl, rfl⟩)
        · exact Or.inr (Or.inr ⟨_, a, rfl, rfl, rfl, rfl, rfl, rfl, rfl⟩)

theorem selectRepository_cases (id : String) (s : State) :
    ((selectRepository id s).2 = .idle ∧
      (selectRepository id s).1.currentContents = s.currentContents) ∨
    ((selectRepository id s).2 = .caught ∧
      (selectRepository id s).1.currentContents = []) ∨
    (∃ request, (selectRepository id s).2 = .issued request ∧
      (selectRepository id s).1.currentContents = s.currentContents) := by
  unfold selectRepository
  split
  · split
    · exact Or.inl ⟨rfl, rfl⟩
    · exact Or.inl ⟨rfl, rfl⟩
    · simp only
      split
      · exact Or.inl ⟨rfl, rfl⟩
      · split
        · exact Or.inl ⟨rfl, rfl⟩
        · rename_i entries _ i repo _ _ _
          rcases loadContentsStart_cases ""
            { s with currentRepo := some { value := repo, index := some i },
                     currentPath := "" } with h | h | ⟨request, a, h1, -, -, -, -, -, h2⟩
          · exact Or.inl h
          · exact Or.inr (Or.inl h)
          · exact Or.inr (Or.inr ⟨request, h1, by rw [h2]⟩)
  · exact Or.inl ⟨rfl, rfl⟩

theorem showsLastSettled_step (P : Platform) (σ : Session) (e : Event)
    (h : σ.showsLastSettled P) : (σ.step P e).showsLastSettled P := by
  unfold Session.showsLastSettled at h ⊢
  cases e with
  | select id =>
      simp only [Session.step]
      rcases selectRepository_cases id σ.state with ⟨h1, h2⟩ | ⟨h1, h2⟩ | ⟨request, h1, h2⟩
      · rw [h1]; simp only [Session.started]; rw [h2]; exact h
      · rw [h1]; simp only [Session.started]; rw [h2]
      · rw [h1]; simp only [Session.started]; rw [h2]; exact h
  | navigate path =>
      simp only [Session.step]
      rcases loadContentsStart_cases path σ.state with ⟨h1, h2⟩ | ⟨h1, h2⟩ |
        ⟨request, a, h1, -, -, -, -, -, h2⟩
      · rw [h1]; simp only [Session.started]; rw [h2]; exact h
      · rw [h1]; simp only [Session.started]; rw [h2]
      · rw [h1]; simp only [Session.started]; rw [h2]; exact h
  | settle k r =>
      simp only [Session.step]
      cases hk : σ.inflight[k]? with
      | none => exact h
      | some request => exact (loadContentsResume_fields P r σ.state).1

theorem showsLastSettled_run (P : Platform) (events : List Event) (σ : Session)
    (h : σ.showsLastSettled P) : (σ.run P events).showsLastSettled P := by
  induction events generalizing σ with
  | nil => exact h
  | cons e rest ih => exact ih (σ.step P e) (showsLastSettled_step P σ e h)

theorem findThrowing_nonnull (p : JValue → Bool) (l : List JValue)
    (hnonnull : ∀ r ∈ l, r ≠ .null) :
    findThrowing p l = .ok none ∨
      ∃ i x, findThrowing p l = .ok (some (i, x)) ∧ x ∈ l := by
  by_cases hex : ∃ r ∈ l, p r = true
  · obtain ⟨i, x, hfind⟩ := findThrowing_of_exists p l hnonnull hex
    refine Or.inr ⟨i, x, hfind, ?_⟩
    exact List.getElem?_mem (findThrowing_some p l i x hfind).1
  · left
    induction l with
    | nil => rfl
    | cons a rest ih =>
        have ha : (a == JValue.null) = false := by
          simpa using hnonnull a (List.mem_cons_self a rest)
        have hpa : p a = false := by
          cases hp : p a with
          | false => rfl
          | true => exact absurd ⟨a, List.mem_cons_self a rest, hp⟩ hex
        have hrest := ih (fun r hr => hnonnull r (List.mem_cons_of_mem a hr))
          (fun ⟨r, hr, hpr⟩ => hex ⟨r, List.mem_cons_of_mem a hr, hpr⟩)
        simp [findThrowing, ha, hpa, hrest]

theorem loadContentsStart_registration (path : String) (s : State) (a : Active)
    (entries : List JValue) (hreg : s.repositories = .arr entries)
    (hc : s.currentRepo = some a) (ha : isRegistration a.value = true) :
    loadContentsStart path s =
      ({ s with currentPath := path },
       .issued { owner := a.value.field "owner", repo := a.value.field "repo",
                 token := a.value.field "token", path := path }) := by
  obtain ⟨-, h2, h3, h4, -⟩ := isRegistration_fields a.value ha
  have hstats : updateStatsThrows { s with currentPath := path } = false :=
    updateStatsThrows_of_registration _ entries hreg
      (fun b hb => by
        have : b = a := by
          have hb' : s.currentRepo = some b := hb
          rw [hc] at hb'
          exact (Option.some.inj hb').symm
        rw [this]; exact ha)
  unfold loadContentsStart
  rw [hc] at hstats ⊢
  simp [hstats, interpolationThrows_of_isString _ h2,
    interpolationThrows_of_isString _ h3, interpolationThrows_of_isString _ h4]

theorem WellFormed.congr {s t : State} (h : WellFormed s)
    (hreg : t.repositories = s.repositories) (hc : t.currentRepo = s.currentRepo) :
    WellFormed t := by
  unfold WellFormed at h ⊢
  rw [hreg, hc]
  exact h

theorem requestFor_congr {s t : State} {request : Request} (h : requestFor s request)
    (hp : t.currentPath = s.currentPath) (hc : t.currentRepo = s.currentRepo) :
    requestFor t request := by
  unfold requestFor at h ⊢
  rw [hp, hc]
  exact h

theorem selectRepository_wellFormed (id : String) (s : State) (hwf : WellFormed s) :
    selectRepository id s = (s, .idle) ∨
    ∃ i repo entries, s.repositories = .arr entries ∧ repo ∈ entries ∧
      selectRepository id s =
        ({ s with currentRepo := some { value := repo, index := some i }, currentPath := "" },
         .issued { owner := repo.field "owner", repo := repo.field "repo",
                   token := repo.field "token", path := "" }) := by
  obtain ⟨⟨entries, hreg, hentries⟩, -⟩ := hwf
  rcases findThrowing_nonnull (matchesId id) entries
    (fun r hr => ne_null_of_isRegistration r (hentries r hr)) with hfind | ⟨i, repo, hfind, hmem⟩
  · left
    unfold selectRepository
    simp only [hreg, hfind]
  · right
    refine ⟨i, repo, entries, hreg, hmem, ?_⟩
    have hrepo := hentries repo hmem
    obtain ⟨-, -, h3, h4, -⟩ := isRegistration_fields repo hrepo
    have hstats : updateStatsThrows
        { s with currentRepo := some { value := repo, index := some i }, currentPath := "" }
        = false :=
      updateStatsThrows_of_registration _ entries hreg
        (fun b hb => by
          simp only [Option.some.injEq] at hb
          rw [← hb]; exact hrepo)
    have hstart := loadContentsStart_registration ""
      { s with currentRepo := some { value := repo, index := some i }, currentPath := "" }
      { value := repo, index := some i } entries hreg rfl hrepo
    unfold selectRepository
    simp only [hreg] at hstats hstart ⊢
    simp only [hfind, interpolationThrows_of_isString _ h3,
      interpolationThrows_of_isString _ h4, hstats]
    simpa using hstart

theorem orderly_step (P : Platform) (σ : Session) (e : Event) (h : σ.orderly)
    (hseq : (∃ k r, e = .settle k r) ∨ σ.inflight = []) : (σ.step P e).orderly := by
  obtain ⟨hwf, hfl⟩ := h
  cases e with
  | select id =>
      have hnil : σ.inflight = [] := by
        rcases hseq with ⟨k, r, hk⟩ | hnil
        · cases hk
        · exact hnil
      simp only [Session.step]
      rcases selectRepository_wellFormed id σ.state hwf with hsel |
        ⟨i, repo, entries, hreg, hmem, hsel⟩
      · rw [hsel]
        exact ⟨hwf, hfl⟩
      · rw [hsel]
        simp only [Session.started, hnil, List.nil_append]
        obtain ⟨⟨entries', hreg', hentries⟩, -⟩ := hwf
        have hee : entries' = entries := by
          rw [hreg] at hreg'
          cases hreg'
          rfl
        subst hee
        refine ⟨⟨⟨entries', hreg, hentries⟩, ?_⟩, ?_⟩
        · intro a ha
          simp only [Option.some.injEq] at ha
          rw [← ha]
          exact hentries repo hmem
        · exact ⟨rfl, _, rfl, rfl, rfl, rfl⟩
  | navigate path =>
      have hnil : σ.inflight = [] := by
        rcases hseq with ⟨k, r, hk⟩ | hnil
        · cases hk
        · exact hnil
      simp only [Session.step]
      cases hc : σ.state.currentRepo with
      | none =>
          have hstart : loadContentsStart path σ.state = (σ.state, .idle) := by
            unfold loadContentsStart
            rw [hc]
          rw [hstart]
          exact ⟨hwf, hfl⟩
      | some a =>
          obtain ⟨⟨entries, hreg, hentries⟩, hactive⟩ := hwf
          rw [loadContentsStart_registration path σ.state a entries hreg hc (hactive a hc)]
          simp only [Session.started, hnil, List.nil_append]
          exact ⟨⟨⟨entries, hreg, hentries⟩, hactive⟩, rfl, a, hc, rfl, rfl, rfl⟩
  | settle k r =>
      simp only [Session.step]
      cases hk : σ.inflight[k]? with
      | none => exact ⟨hwf, hfl⟩
      | some request =>
          obtain ⟨-, hp, hc, hreg⟩ := loadContentsResume_fields P r σ.state
          cases hin : σ.inflight with
          | nil => rw [hin] at hk; simp at hk
          | cons q rest =>
              cases rest with
              | nil =>
                  rw [hin] at hfl hk
                  cases k with
                  | zero =>
                      simp only [List.getElem?_cons_zero, Option.some.injEq] at hk
                      subst hk
                      refine ⟨hwf.congr hreg hc, ?_⟩
                      simp only [List.eraseIdx_cons_zero]
                      intro request' r' hshown
                      simp only [Option.some.injEq, Prod.mk.injEq] at hshown
                      rw [← hshown.1]
                      exact requestFor_congr hfl hp hc
                  | succ k' => simp at hk
              | cons q' rest' =>
                  rw [hin] at hfl
                  exact absurd hfl (by simp)

theorem orderly_run (P : Platform) (events : List Event) (σ : Session) (h : σ.orderly)
    (hseq : sequential P σ events) : (σ.run P events).orderly := by
  induction events generalizing σ with
  | nil => exact h
  | cons e rest ih =>
      cases e with
      | select id =>
          obtain ⟨hnil, hrest⟩ := hseq
          exact ih _ (orderly_step P σ _ h (Or.inr hnil)) hrest
      | navigate path =>
          obtain ⟨hnil, hrest⟩ := hseq
          exact ih _ (orderly_step P σ _ h (Or.inr hnil)) hrest
      | settle k r =>
          exact ih _ (orderly_step P σ _ h (Or.inl ⟨k, r, rfl⟩)) hseq

/-- C8 (as amended): in every state reached from a freshly loaded page through
`selectRepository`, `loadContents` and the settling of fetches in any order,
`currentContents` is the listing left by the fetch that settled last (empty if none has,
or if that fetch failed), whichever path and repository it was issued for.  A call of
`loadContents` that issues a request assigns `currentPath` at once and leaves
`currentContents` as it is.  When the registry holds registrations and no fetch is
started while another is in flight, then, whenever none is in flight, the fetch that
settled last was issued for the present `currentPath` and active repository. -/
theorem listing_follows_last_settled (P : Platform) (s : State) (events : List Event)
    (hempty : s.currentContents = []) :
    ((Session.fresh s).run P events).showsLastSettled P ∧
    (∀ path t request, (loadContentsStart path t).2 = .issued request →
      (loadContentsStart path t).1.currentContents = t.currentContents ∧
      (loadContentsStart path t).1.currentPath = path) ∧
    (WellFormed s → sequential P (Session.fresh s) events →
      ((Session.fresh s).run P events).inflight = [] →
      ∀ request r, ((Session.fresh s).run P events).shown = some (request, r) →
        requestFor ((Session.fresh s).run P events).state request) := by
  refine ⟨showsLastSettled_run P events _ hempty, ?_, ?_⟩
  · intro path t request hissued
    rcases loadContentsStart_cases path t with ⟨h1, -⟩ | ⟨h1, -⟩ | ⟨q, a, -, -, -, -, -, -, h2⟩
    · rw [h1] at hissued; cases hissued
    · rw [h1] at hissued; cases hissued
    · rw [h2]; exact ⟨rfl, rfl⟩
  · intro hwf hseq hnil request r hshown
    have horderly : (Session.fresh s).orderly := ⟨hwf, fun _ _ h => by cases h⟩
    have := orderly_run P events _ horderly hseq
    unfold Session.orderly at this
    rw [hnil] at this
    exact this.2 request r hshown

theorem wellFormed_sampleState : WellFormed sampleState :=
  ⟨⟨[sampleEntry "1" "ghp_old" "acme" "site"], rfl, by decide⟩, fun a ha => by cases ha⟩

set_option maxRecDepth 100000 in
/-- An instance of `listing_follows_last_settled`: acme/site is selected and the response
for its root arrives. -/
theorem listing_follows_last_settled_witness :
    sampleState.currentContents = [] ∧
    ((Session.fresh sampleState).run examplePlatform
      [.select "1", .settle 0 responseA]).showsLastSettled examplePlatform ∧
    ((Session.fresh sampleState).run examplePlatform
      [.select "1", .settle 0 responseA]).state.currentContents =
      [fileEntry "x.txt" "a/x.txt" "3b18e5"] ∧
    requestFor ((Session.fresh sampleState).run examplePlatform
      [.select "1", .settle 0 responseA]).state
      { owner := some (.str "acme"), repo := some (.str "site"),
        token := some (.str "ghp_old"), path := "" } :=
  ⟨by decide,
   (listing_follows_last_settled examplePlatform sampleState
      [.select "1", .settle 0 responseA] (by decide)).1,
   by decide,
   (listing_follows_last_settled examplePlatform sampleState
      [.select "1", .settle 0 responseA] (by decide)).2.2 wellFormed_sampleState
      ⟨rfl, trivial⟩ (by decide) _ responseA (by decide)⟩

set_option maxRecDepth 100000 in
/-- C8 fails as stated: the folders `a` and `b` are opened one right after the other and
the response for `b` arrives first.  When both fetches have settled, `currentPath` is
`b`, the most recently completed fetch for `b` delivered the listing of `b`, and
`currentContents` is the listing of `a`. -/
theorem late_response_overwrites_listing :
    ((Session.fresh sampleState).run examplePlatform overtakingEvents).inflight = [] ∧
    ((Session.fresh sampleState).run examplePlatform overtakingEvents).state.currentPath =
      "b" ∧
    settledListing examplePlatform responseB = [fileEntry "y.txt" "b/y.txt" "9fceb0"] ∧
    ((Session.fresh sampleState).run examplePlatform overtakingEvents).state.currentContents =
      [fileEntry "x.txt" "a/x.txt" "3b18e5"] ∧
    ((Session.fresh sampleState).run examplePlatform overtakingEvents).state.currentContents ≠
      settledListing examplePlatform responseB := by
  decide

/-! ## C9: one call of `loadContents` -/

theorem interpolationThrows_of_isStringOrAbsent (o : Option JValue)
    (h : isStringOrAbsent o = true) : interpolationThrows o = false := by
  cases o with
  | none => rfl
  | some v => cases v <;> simp_all [isStringOrAbsent, interpolationThrows, toStringThrows]

theorem interpolationThrows_of_isNumberOrAbsent (o : Option JValue)
    (h : isNumberOrAbsent o = true) : interpolationThrows o = false := by
  cases o with
  | none => rfl
  | some v => cases v <;> simp_all [isNumberOrAbsent, interpolationThrows, toStringThrows]

theorem isDirectoryEntry_fields (e : JValue) (h : isDirectoryEntry e = true) :
    isString (e.field "name") = true ∧ isString (e.field "path") = true ∧
    isString (e.field "type") = true ∧ isString (e.field "sha") = true ∧
    isNumberOrAbsent (e.field "size") = true ∧
    isStringOrAbsent (e.field "last_modified") = true := by
  simpa [isDirectoryEntry, and_assoc] using h

theorem ne_null_of_isDirectoryEntry (e : JValue) (h : isDirectoryEntry e = true) :
    e ≠ .null := by
  rintro rfl
  simp [isDirectoryEntry, JValue.field, isString] at h

theorem fileItemThrows_of_isDirectoryEntry (e : JValue) (h : isDirectoryEntry e = true) :
    fileItemThrows e = false := by
  obtain ⟨h1, h2, -, h4, h5, h6⟩ := isDirectoryEntry_fields e h
  have hn : (e == JValue.null) = false := by simpa using ne_null_of_isDirectoryEntry e h
  simp [fileItemThrows, hn, h1, interpolationThrows_of_isString _ h1,
    interpolationThrows_of_isString _ h2, interpolationThrows_of_isString _ h4,
    interpolationThrows_of_isNumberOrAbsent _ h5,
    interpolationThrows_of_isStringOrAbsent _ h6]

theorem compareThrows_of_isDirectoryEntry (a b : JValue) (ha : isDirectoryEntry a = true)
    (hb : isDirectoryEntry b = true) : compareThrows a b = false := by
  obtain ⟨ha1, -⟩ := isDirectoryEntry_fields a ha
  obtain ⟨hb1, -⟩ := isDirectoryEntry_fields b hb
  have hna : (a == JValue.null) = false := by simpa using ne_null_of_isDirectoryEntry a ha
  have hnb : (b == JValue.null) = false := by simpa using ne_null_of_isDirectoryEntry b hb
  simp [compareThrows, hna, hnb, ha1, interpolationThrows_of_isString _ hb1]

theorem renderContentsThrows_of_entries (P : Platform) (listing : List JValue)
    (h : ∀ e ∈ listing, isDirectoryEntry e = true) :
    renderContentsThrows P listing = false := by
  unfold renderContentsThrows
  have hsort : (P.sortComparisons listing).any (fun p => compareThrows p.1 p.2) = false := by
    rw [List.any_eq_false]
    intro p hp
    obtain ⟨h1, h2⟩ := P.sortComparisons_mem listing p hp
    simp [compareThrows_of_isDirectoryEntry p.1 p.2 (h _ h1) (h _ h2)]
  have hitems : listing.any fileItemThrows = false := by
    rw [List.any_eq_false]
    intro e he
    simp [fileItemThrows_of_isDirectoryEntry e (h e he)]
  simp [hsort, hitems]

theorem loadContents_of_issued (P : Platform) (path : String) (r : FetchResult) (s : State)
    (request : Request) (h : (loadContentsStart path s).2 = .issued request) :
    loadContents P path r s = loadContentsResume P r { s with currentPath := path } := by
  rcases loadContentsStart_cases path s with ⟨h1, -⟩ | ⟨h1, -⟩ | ⟨q, a, hq, -, -, -, -, -, h2⟩
  · rw [h1] at h; cases h
  · rw [h1] at h; cases h
  · unfold loadContents
    have hpair : loadContentsStart path s = ({ s with currentPath := path }, .issued q) := by
      rw [← h2, ← hq]
    rw [hpair]

theorem loadContentsStart_currentPath (path : String) (s : State) (a : Active)
    (hc : s.currentRepo = some a) : (loadContentsStart path s).1.currentPath = path := by
  unfold loadContentsStart
  rw [hc]
  simp only
  split
  · rfl
  · split <;> rfl

/-- C9: `loadContents(path)` does nothing when there is no active repository.  Otherwise it
ends with `currentPath = path`; and once its request is issued (it is whenever the
active repository is a registration), it ends with `currentContents` replaced by the
fetched listing when the fetch succeeds and nothing is thrown, which is so for every
body that lists directory entries, and with `currentContents` empty when the fetch
fails: the promise rejects, the status is not OK, or an error is thrown while the body
is read or the listing is rendered. -/
theorem loadContents_outcome (P : Platform) (path : String) (r : FetchResult) (s : State) :
    (s.currentRepo = none → loadContents P path r s = s) ∧
    (∀ a, s.currentRepo = some a → (loadContents P path r s).currentPath = path) ∧
    (∀ a entries, s.currentRepo = some a → s.repositories = .arr entries →
      isRegistration a.value = true → ∃ request, (loadContentsStart path s).2 = .issued request) ∧
    (∀ request, (loadContentsStart path s).2 = .issued request →
      (∀ status data, r = .responded status (some data) → statusOk status = true →
        renderContentsThrows P (toListing data) = false →
        (loadContents P path r s).currentContents = toListing data) ∧
      (∀ status data, r = .responded status (some data) → statusOk status = true →
        (∀ e ∈ toListing data, isDirectoryEntry e = true) →
        (loadContents P path r s).currentContents = toListing data) ∧
      (r = .rejected ∨ (∃ status body, r = .responded status body ∧ statusOk status = false) ∨
        (∃ status, r = .responded status none) ∨
        (∃ status data, r = .responded status (some data) ∧
          renderContentsThrows P (toListing data) = true) →
        (loadContents P path r s).currentContents = [])) := by
  refine ⟨?_, ?_, ?_, ?_⟩
  · intro hc
    unfold loadContents loadContentsStart
    rw [hc]
  · intro a hc
    rcases loadContentsStart_cases path s with ⟨h1, -⟩ | ⟨h1, -⟩ | ⟨q, b, hq, -, -, -, -, -, -⟩
    · have := loadContentsStart_currentPath path s a hc
      unfold loadContents
      revert this h1
      cases loadContentsStart path s with
      | mk s1 st =>
          intro h1 hp
          simp only at h1 hp
          subst h1
          exact hp
    · have := loadContentsStart_currentPath path s a hc
      unfold loadContents
      revert this h1
      cases loadContentsStart path s with
      | mk s1 st =>
          intro h1 hp
          simp only at h1 hp
          subst h1
          exact hp
    · rw [loadContents_of_issued P path r s q hq]
      exact (loadContentsResume_fields P r _).2.1
  · intro a entries hc hreg ha
    exact ⟨_, by rw [loadContentsStart_registration path s a entries hreg hc ha]⟩
  · intro request hissued
    rw [loadContents_of_issued P path r s request hissued,
      (loadContentsResume_fields P r _).1]
    refine ⟨?_, ?_, ?_⟩
    · rintro status data rfl hok hrender
      simp [settledListing, hok, hrender]
    · rintro status data rfl hok hentries
      simp [settledListing, hok, renderContentsThrows_of_entries P _ hentries]
    · rintro (rfl | ⟨status, body, rfl, hbad⟩ | ⟨status, rfl⟩ | ⟨status, data, rfl, hthrow⟩)
      · rfl
      · cases body <;> simp [settledListing, hbad]
      · rfl
      · simp [settledListing, hthrow]

set_option maxRecDepth 100000 in
/-- An instance of `loadContents_outcome`: with acme/site active, the folder `a` is
opened and its listing arrives. -/
theorem loadContents_outcome_witness :
    (loadContentsStart "a" selectedState).2 = .issued requestA ∧
    (loadContents examplePlatform "a" responseA selectedState).currentContents =
      [fileEntry "x.txt" "a/x.txt" "3b18e5"] ∧
    (loadContents examplePlatform "a" (.responded 404 none) selectedState).currentContents =
      [] :=
  ⟨by decide,
   ((loadContents_outcome examplePlatform "a" responseA selectedState).2.2.2 requestA
      (by decide)).2.1 200 _ rfl (by decide) (by decide),
   ((loadContents_outcome examplePlatform "a" (.responded 404 none) selectedState).2.2.2
      requestA (by decide)).2.2 (Or.inr (Or.inl ⟨404, none, rfl, by decide⟩))⟩

/-! ## C10: the listing that is stored -/

theorem toListing_of_not_array (data : JValue) (h : data.isArray = false) :
    toListing data = [data] := by
  cases data <;> simp [JValue.isArray] at h <;> rfl

/-- C10: for every response with an OK status and every body `data`, `loadContents` stores
a listing and then renders it; the listing it stores is the one-element sequence
`[data]` when `data` is not an array, and the elements of `data`, in their order, when
it is one.  That listing is `currentContents` when the call ends, unless rendering it
throws, in which case the `catch` block has emptied it. -/
theorem loadContents_stores_listing (P : Platform) (path : String) (status : Nat)
    (data : JValue) (s : State) (request : Request)
    (hissued : (loadContentsStart path s).2 = .issued request)
    (hok : statusOk status = true) :
    loadContents P path (.responded status (some data)) s =
      renderStored P (storeListing data { s with currentPath := path }) ∧
    (data.isArray = false →
      (storeListing data { s with currentPath := path }).currentContents = [data]) ∧
    (∀ items, data = .arr items →
      (storeListing data { s with currentPath := path }).currentContents = items) ∧
    (loadContents P path (.responded status (some data)) s).currentContents =
      if renderContentsThrows P (toListing data) then [] else toListing data := by
  have hrun : loadContents P path (.responded status (some data)) s =
      renderStored P (storeListing data { s with currentPath := path }) := by
    rw [loadContents_of_issued P path _ s request hissued]
    simp [loadContentsResume, hok]
  refine ⟨hrun, ?_, ?_, ?_⟩
  · intro hnot
    simp [storeListing, toListing_of_not_array data hnot]
  · rintro items rfl
    rfl
  · rw [hrun]
    unfold renderStored storeListing
    by_cases hthrow : renderContentsThrows P (toListing data) = true
    · simp [hthrow, loadFailed, showAlert]
    · simp [hthrow]

set_option maxRecDepth 100000 in
/-- An instance of `loadContents_stores_listing`: the path names a file and the body is a
single object. -/
theorem loadContents_stores_listing_witness :
    (loadContentsStart "a" selectedState).2 = .issued requestA ∧
    statusOk 200 = true ∧
    (loadContents examplePlatform "a" (.responded 200 (some fileBody))
      selectedState).currentContents = [fileBody] :=
  ⟨by decide, by decide, by
    rw [(loadContents_stores_listing examplePlatform "a" 200 fileBody selectedState requestA
      (by decide) (by decide)).2.2.2]
    decide⟩

/-! ## Decimal numerals -/

theorem digitValue_digitChar (k : Nat) (h : k < 10) : digitValue (Nat.digitChar k) = k := by
  interval_cases k <;> rfl

theorem toDigitsCore_append (fuel n : Nat) (ds : List Char) :
    Nat.toDigitsCore 10 fuel n ds = Nat.toDigitsCore 10 fuel n [] ++ ds := by
  induction fuel generalizing n ds with
  | zero => simp [Nat.toDigitsCore]
  | succ f ih =>
      simp only [Nat.toDigitsCore]
      split
      · simp
      · rw [ih (n / 10) (Nat.digitChar (n % 10) :: ds), ih (n / 10) [Nat.digitChar (n % 10)]]
        simp

theorem decimalValue_append_singleton (ds : List Char) (c : Char) :
    decimalValue (ds ++ [c]) = decimalValue ds * 10 + digitValue c := by
  simp [decimalValue, List.foldl_append]

theorem decimalValue_toDigitsCore (fuel n : Nat) (h : n < fuel) :
    decimalValue (Nat.toDigitsCore 10 fuel n []) = n := by
  induction fuel generalizing n with
  | zero => omega
  | succ f ih =>
      simp only [Nat.toDigitsCore]
      split
      · rename_i h0
        have hlt : n % 10 < 10 := Nat.mod_lt _ (by decide)
        simp [decimalValue, digitValue_digitChar _ hlt]
        omega
      · rename_i h0
        rw [toDigitsCore_append, decimalValue_append_singleton, ih (n / 10) (by omega),
          digitValue_digitChar _ (Nat.mod_lt _ (by decide))]
        omega

theorem toString_nat_injective (m n : Nat) (h : toString m = toString n) : m = n := by
  have h1 : Nat.toDigits 10 m = Nat.toDigits 10 n := by
    have : (Nat.toDigits 10 m).asString = (Nat.toDigits 10 n).asString := h
    exact congrArg String.data this
  have hm := decimalValue_toDigitsCore (m + 1) m (by omega)
  have hn := decimalValue_toDigitsCore (n + 1) n (by omega)
  unfold Nat.toDigits at h1
  rw [h1] at hm
  omega

/-! ## C11: the errors of `loadContents` for a status that is not OK -/

theorem remoteError_injective (m n : Nat) (h : remoteError m = remoteError n) : m = n := by
  unfold remoteError at h
  have h1 : "Failed to load contents (" ++ toString m ++ ")" =
      "Failed to load contents (" ++ toString n ++ ")" := by
    injection h
  have h2 := congrArg String.data h1
  simp only [String.data_append] at h2
  have h3 := List.append_cancel_left (List.append_cancel_right h2)
  exact toString_nat_injective m n (String.ext h3)

theorem failed_message_head (n : Nat) (m : String)
    (h : "Failed to load contents (" ++ toString n ++ ")" = m) : m.data.head? = some 'F' := by
  subst h
  simp only [String.data_append]
  rfl

theorem remoteError_ne (n : Nat) : remoteError n ≠ unauthorized ∧ remoteError n ≠ notFound := by
  unfold remoteError unauthorized notFound
  constructor
  · intro h
    injection h with h1
    have := failed_message_head n _ h1
    simp at this
  · intro h
    injection h with h1
    have := failed_message_head n _ h1
    simp at this

theorem statusError_cases (status : Nat) :
    (status = 401 → statusError status = unauthorized) ∧
    (status = 404 → statusError status = notFound) ∧
    (status ≠ 401 → status ≠ 404 → statusError status = remoteError status) := by
  refine ⟨?_, ?_, ?_⟩
  · rintro rfl; rfl
  · rintro rfl; rfl
  · intro h1 h2
    simp [statusError, remoteError, h1, h2]

/-- C11: once `loadContents` has issued its request, for every response status that is not
OK the call fails with the notification of `unauthorized` when the status is 401, of
`notFound` when it is 404, and otherwise of `remoteError status`, whose message
determines the status and differs from the other two; for an OK response the call
fails with none of these (it can only fail on an unreadable body or on an error thrown
while rendering). -/
theorem loadContents_status_errors (P : Platform) (path : String) (status : Nat)
    (body : Option JValue) (s : State) (request : Request)
    (hissued : (loadContentsStart path s).2 = .issued request) :
    (statusOk status = false →
      (loadContents P path (.responded status body) s).alerts =
        s.alerts ++ [.loadFailed (statusError status)] ∧
      (status = 401 → statusError status = unauthorized) ∧
      (status = 404 → statusError status = notFound) ∧
      (status ≠ 401 → status ≠ 404 → statusError status = remoteError status)) ∧
    (∀ t, remoteError status = remoteError t → status = t) ∧
    (remoteError status ≠ unauthorized ∧ remoteError status ≠ notFound ∧
      unauthorized ≠ notFound) ∧
    (statusOk status = true →
      (loadContents P path (.responded status body) s).alerts = s.alerts ∨
      ∃ e, (loadContents P path (.responded status body) s).alerts =
          s.alerts ++ [.loadFailed e] ∧
        e ≠ unauthorized ∧ e ≠ notFound ∧ ∀ t, e ≠ remoteError t) := by
  rw [loadContents_of_issued P path _ s request hissued]
  refine ⟨?_, fun t h => remoteError_injective status t h,
    ⟨(remoteError_ne status).1, (remoteError_ne status).2, by decide⟩, ?_⟩
  · intro hbad
    refine ⟨?_, statusError_cases status⟩
    simp [loadContentsResume, hbad, loadFailed, showAlert]
  · intro hok
    cases body with
    | none =>
        right
        refine ⟨.syntaxError, ?_, by decide, by decide, fun t => ?_⟩
        · simp [loadContentsResume, hok, loadFailed, showAlert]
        · unfold remoteError; exact fun h => by cases h
    | some data =>
        by_cases hthrow : renderContentsThrows P (toListing data) = true
        · right
          refine ⟨.typeError, ?_, by decide, by decide, fun t => ?_⟩
          · simp [loadContentsResume, hok, renderStored, storeListing, hthrow, loadFailed,
              showAlert]
          · unfold remoteError; exact fun h => by cases h
        · left
          simp [loadContentsResume, hok, renderStored, storeListing, hthrow]

set_option maxRecDepth 100000 in
/-- An instance of `loadContents_status_errors`: the response for the folder `a` of
acme/site has status 401. -/
theorem loadContents_status_errors_witness :
    (loadContentsStart "a" selectedState).2 = .issued requestA ∧
    (loadContents examplePlatform "a" (.responded 401 none) selectedState).alerts =
      selectedState.alerts ++ [.loadFailed unauthorized] :=
  ⟨by decide, by
    have h := (loadContents_status_errors examplePlatform "a" 401 none selectedState requestA
      (by decide)).1 (by decide)
    rw [h.1, h.2.1 rfl]⟩

/-! ## C18: `addRepository` validates and stores the trimmed fields -/

theorem jsTrim_spec (s : String) :
    ∃ pre post, s.data = pre ++ (jsTrim s).data ++ post ∧
      (∀ c ∈ pre, isJsWhitespace c = true) ∧ (∀ c ∈ post, isJsWhitespace c = true) ∧
      (∀ c, (jsTrim s).data.head? = some c → isJsWhitespace c = false) ∧
      (∀ c, (jsTrim s).data.getLast? = some c → isJsWhitespace c = false) := by
  refine ⟨s.data.takeWhile isJsWhitespace,
    (((s.data.dropWhile isJsWhitespace).reverse).takeWhile isJsWhitespace).reverse, ?_, ?_, ?_, ?_, ?_⟩
  · have h1 := List.takeWhile_append_dropWhile isJsWhitespace s.data
    have h2 := List.takeWhile_append_dropWhile isJsWhitespace
      (s.data.dropWhile isJsWhitespace).reverse
    have h3 := congrArg List.reverse h2
    simp only [List.reverse_append, List.reverse_reverse] at h3
    simp only [jsTrim, List.append_assoc]
    rw [h3]
    exact h1.symm
  · intro c hc
    exact List.mem_takeWhile_imp hc
  · intro c hc
    rw [List.mem_reverse] at hc
    exact List.mem_takeWhile_imp hc
  · intro c hc
    simp only [jsTrim, List.head?_reverse] at hc
    have hm := List.head?_dropWhile_not isJsWhitespace s.data
    obtain ⟨t, ht⟩ := List.dropWhile_suffix (l := (s.data.dropWhile isJsWhitespace).reverse)
      isJsWhitespace
    have h2 := congrArg List.getLast? ht
    rw [List.getLast?_append, hc, List.getLast?_reverse] at h2
    simp only [Option.or_some] at h2
    rw [← h2] at hm
    exact hm
  · intro c hc
    simp only [jsTrim, List.getLast?_reverse] at hc
    have hm := List.head?_dropWhile_not isJsWhitespace
      (s.data.dropWhile isJsWhitespace).reverse
    rw [hc] at hm
    exact hm

theorem eq_of_strictEqStr (o : Option JValue) (t : String) (h : strictEqStr o t = true) :
    o = some (.str t) := by
  cases o with
  | none => simp [strictEqStr] at h
  | some v =>
      cases v <;> simp [strictEqStr] at h
      rw [h]

theorem fields_of_matchesOwnerRepo (owner repo : String) (x : JValue)
    (h : matchesOwnerRepo owner repo x = true) :
    x.field "owner" = some (.str owner) ∧ x.field "repo" = some (.str repo) := by
  unfold matchesOwnerRepo at h
  rw [Bool.and_eq_true] at h
  exact ⟨eq_of_strictEqStr _ _ h.1, eq_of_strictEqStr _ _ h.2⟩

theorem saveAndRender_storage (P : Platform) (s : State) :
    (saveAndRender P s).storage = some (P.stringify s.repositories 0) := by
  simp only [saveAndRender]
  split <;> rfl

theorem findThrowing_eq_none (p : JValue → Bool) (l : List JValue)
    (hnonnull : ∀ r ∈ l, r ≠ .null) (hnone : ∀ r ∈ l, p r = false) :
    findThrowing p l = .ok none := by
  rcases findThrowing_nonnull p l hnonnull with h | ⟨i, x, h, hx⟩
  · exact h
  · have hp := (findThrowing_some p l i x h).2.1
    rw [hnone x hx] at hp
    cases hp

theorem addRepository_append_branch (P : Platform) (f : AddForm) (s : State)
    (entries : List JValue)
    (hreg : s.repositories = .arr entries)
    (htoken : jsTrim f.token ≠ "") (howner : jsTrim f.owner ≠ "") (hrepo : jsTrim f.repo ≠ "")
    (hformat : startsWith (jsTrim f.token) "ghp_" = true ∨
      startsWith (jsTrim f.token) "github_pat_" = true ∨ f.confirmFormat = true)
    (hfind : findThrowing (matchesOwnerRepo (jsTrim f.owner) (jsTrim f.repo)) entries =
      .ok none) :
    (addRepository P f s).repositories =
        .arr (entries ++ [newEntry (toString f.nowMs) (jsTrim f.token) (jsTrim f.owner)
          (jsTrim f.repo) f.nowIso]) ∧
      (addRepository P f s).alerts = s.alerts ++ [.added] ∧
      (addRepository P f s).storage =
        some (P.stringify (.arr (entries ++ [newEntry (toString f.nowMs) (jsTrim f.token)
          (jsTrim f.owner) (jsTrim f.repo) f.nowIso])) 0) := by
  have hgate : (!startsWith (jsTrim f.token) "ghp_" &&
      !startsWith (jsTrim f.token) "github_pat_" && !f.confirmFormat) = false := by
    rcases hformat with h | h | h <;> simp [h]
  unfold addRepository
  simp only [htoken, howner, hrepo, or_self, if_false, hgate, hreg, hfind]
  simp [showAlert, saveAndRender_storage]

theorem addRepository_update_storage (P : Platform) (f : AddForm) (s : State)
    (entries : List JValue) (i : Nat) (x : JValue)
    (hreg : s.repositories = .arr entries)
    (htoken : jsTrim f.token ≠ "") (howner : jsTrim f.owner ≠ "") (hrepo : jsTrim f.repo ≠ "")
    (hformat : startsWith (jsTrim f.token) "ghp_" = true ∨
      startsWith (jsTrim f.token) "github_pat_" = true ∨ f.confirmFormat = true)
    (hfind : findThrowing (matchesOwnerRepo (jsTrim f.owner) (jsTrim f.repo)) entries =
      .ok (some (i, x)))
    (hupdate : f.confirmUpdate = true) :
    (addRepository P f s).storage =
      some (P.stringify (.arr (updateAt (refreshToken (jsTrim f.token) f.nowIso) entries i))
        0) := by
  have hgate : (!startsWith (jsTrim f.token) "ghp_" &&
      !startsWith (jsTrim f.token) "github_pat_" && !f.confirmFormat) = false := by
    rcases hformat with h | h | h <;> simp [h]
  unfold addRepository
  simp only [htoken, howner, hrepo, or_self, if_false, hgate, hreg, hfind, hupdate]
  simp [showAlert, saveAndRender_storage]

theorem addRepository_declined (P : Platform) (f : AddForm) (s : State)
    (htoken : jsTrim f.token ≠ "") (howner : jsTrim f.owner ≠ "") (hrepo : jsTrim f.repo ≠ "") :
    (startsWith (jsTrim f.token) "ghp_" = false →
      startsWith (jsTrim f.token) "github_pat_" = false → f.confirmFormat = false →
      addRepository P f s = s) ∧
    (∀ entries i x, s.repositories = .arr entries →
      findThrowing (matchesOwnerRepo (jsTrim f.owner) (jsTrim f.repo)) entries =
        .ok (some (i, x)) →
      f.confirmUpdate = false → addRepository P f s = s) := by
  constructor
  · intro h1 h2 h3
    unfold addRepository
    simp [htoken, howner, hrepo, h1, h2, h3]
  · intro entries i x hreg hfind hupdate
    unfold addRepository
    simp only [htoken, howner, hrepo, or_self, if_false, hreg, hfind, hupdate]
    split <;> simp

/-- C18: if the token, the owner or the repository name is empty after `trim()`,
`addRepository` only shows the validation error: the registry and the stored item are
unchanged.  If all three are non-empty after trimming, the registry changes only at an
entry that carries the trimmed token, owner and repository name, and it does change:
when the form of the token is recognised or accepted and the registry is an array
without `null`, then, no entry having the trimmed pair, the entry with the trimmed
values is appended, reported as added and written to the store, and, an entry having
the trimmed pair and the update being confirmed, the first such entry gets the
trimmed token (it has the trimmed owner and repository name), which is reported as
updated and written to the store; a question that is declined leaves the state as it
was.  The trimmed value of a field is the field without the whitespace at its two
ends. -/
theorem addRepository_trims (P : Platform) (f : AddForm) (s : State) :
    ((jsTrim f.token = "" ∨ jsTrim f.owner = "" ∨ jsTrim f.repo = "") →
      addRepository P f s = showAlert s .validationError ∧
      (addRepository P f s).repositories = s.repositories ∧
      (addRepository P f s).storage = s.storage) ∧
    (jsTrim f.token ≠ "" → jsTrim f.owner ≠ "" → jsTrim f.repo ≠ "" →
      ((addRepository P f s).repositories = s.repositories ∨
        (∃ entries i x, s.repositories = .arr entries ∧ entries[i]? = some x ∧
          (addRepository P f s).repositories =
            .arr (updateAt (refreshToken (jsTrim f.token) f.nowIso) entries i) ∧
          (updateAt (refreshToken (jsTrim f.token) f.nowIso) entries i)[i]? =
            some (refreshToken (jsTrim f.token) f.nowIso x) ∧
          (refreshToken (jsTrim f.token) f.nowIso x).field "token" =
            some (.str (jsTrim f.token)) ∧
          (refreshToken (jsTrim f.token) f.nowIso x).field "owner" =
            some (.str (jsTrim f.owner)) ∧
          (refreshToken (jsTrim f.token) f.nowIso x).field "repo" =
            some (.str (jsTrim f.repo))) ∨
        (∃ entries e, s.repositories = .arr entries ∧
          (addRepository P f s).repositories = .arr (entries ++ [e]) ∧
          e.field "token" = some (.str (jsTrim f.token)) ∧
          e.field "owner" = some (.str (jsTrim f.owner)) ∧
          e.field "repo" = some (.str (jsTrim f.repo)))) ∧
      ((startsWith (jsTrim f.token) "ghp_" = true ∨
          startsWith (jsTrim f.token) "github_pat_" = true ∨ f.confirmFormat = true) →
        ∀ entries, s.repositories = .arr entries → (∀ r ∈ entries, r ≠ .null) →
          ((∀ r ∈ entries, matchesOwnerRepo (jsTrim f.owner) (jsTrim f.repo) r = false) →
            ∃ e, (addRepository P f s).repositories = .arr (entries ++ [e]) ∧
              e.field "token" = some (.str (jsTrim f.token)) ∧
              e.field "owner" = some (.str (jsTrim f.owner)) ∧
              e.field "repo" = some (.str (jsTrim f.repo)) ∧
              (addRepository P f s).alerts = s.alerts ++ [.added] ∧
              (addRepository P f s).storage = some (P.stringify (.arr (entries ++ [e])) 0)) ∧
          ((∃ r ∈ entries, matchesOwnerRepo (jsTrim f.owner) (jsTrim f.repo) r = true) →
            (f.confirmUpdate = true →
              ∃ (i : Nat) (x x' : JValue) (entries' : List JValue),
                entries[i]? = some x ∧
                matchesOwnerRepo (jsTrim f.owner) (jsTrim f.repo) x = true ∧
                (addRepository P f s).repositories = .arr entries' ∧
                entries'.length = entries.length ∧
                entries'[i]? = some x' ∧
                (∀ j, j ≠ i → entries'[j]? = entries[j]?) ∧
                x'.field "token" = some (.str (jsTrim f.token)) ∧
                x'.field "owner" = some (.str (jsTrim f.owner)) ∧
                x'.field "repo" = some (.str (jsTrim f.repo)) ∧
                (addRepository P f s).alerts = s.alerts ++ [.updated] ∧
                (addRepository P f s).storage = some (P.stringify (.arr entries') 0)) ∧
            (f.confirmUpdate = false → addRepository P f s = s))) ∧
      (startsWith (jsTrim f.token) "ghp_" = false →
        startsWith (jsTrim f.token) "github_pat_" = false → f.confirmFormat = false →
        addRepository P f s = s)) ∧
    (∀ t : String, ∃ pre post, t.data = pre ++ (jsTrim t).data ++ post ∧
      (∀ c ∈ pre, isJsWhitespace c = true) ∧ (∀ c ∈ post, isJsWhitespace c = true) ∧
      (∀ c, (jsTrim t).data.head? = some c → isJsWhitespace c = false) ∧
      (∀ c, (jsTrim t).data.getLast? = some c → isJsWhitespace c = false)) := by
  refine ⟨?_, ?_, jsTrim_spec⟩
  · intro hempty
    have h : addRepository P f s = showAlert s .validationError := by
      unfold addRepository
      simp only [hempty, if_true]
    exact ⟨h, by rw [h]; rfl, by rw [h]; rfl⟩
  · intro htoken howner hrepo
    refine ⟨?_, ?_, (addRepository_declined P f s htoken howner hrepo).1⟩
    · rcases addRepository_repositories P f s with h0 | ⟨entries, i, x, hreg, hfind, hres⟩ |
        ⟨entries, hreg, -, hres⟩
      · exact Or.inl h0
      · right; left
        obtain ⟨hx, hpx, -⟩ := findThrowing_some _ _ _ _ hfind
        obtain ⟨ho, hr⟩ := fields_of_matchesOwnerRepo _ _ x hpx
        obtain ⟨fields, rfl⟩ := isObj_of_field x "owner" _ ho
        refine ⟨entries, i, _, hreg, hx, hres, ?_, field_refreshToken_token _ _ _, ?_, ?_⟩
        · rw [getElem?_updateAt_self, hx]; rfl
        · rw [field_refreshToken_other _ _ "owner" _ (by decide) (by decide)]; exact ho
        · rw [field_refreshToken_other _ _ "repo" _ (by decide) (by decide)]; exact hr
      · right; right
        exact ⟨entries, _, hreg, hres, by simp [newEntry, JValue.field, List.find?_cons],
          by simp [newEntry, JValue.field, List.find?_cons],
          by simp [newEntry, JValue.field, List.find?_cons]⟩
    · intro hformat entries hreg hnonnull
      constructor
      · intro hnone
        have hfind := findThrowing_eq_none _ entries hnonnull hnone
        obtain ⟨h1, h2, h3⟩ :=
          addRepository_append_branch P f s entries hreg htoken howner hrepo hformat hfind
        exact ⟨_, h1, by simp [newEntry, JValue.field, List.find?_cons],
          by simp [newEntry, JValue.field, List.find?_cons],
          by simp [newEntry, JValue.field, List.find?_cons], h2, h3⟩
      · intro hexists
        obtain ⟨i, x, hfind⟩ := findThrowing_of_exists _ entries hnonnull hexists
        constructor
        · intro hupdate
          obtain ⟨hx, hpx, -⟩ := findThrowing_some _ _ _ _ hfind
          obtain ⟨hres, halert⟩ := addRepository_update_branch P f s entries i x hreg htoken
            howner hrepo hformat hfind hupdate
          have hstore := addRepository_update_storage P f s entries i x hreg htoken howner
            hrepo hformat hfind hupdate
          obtain ⟨ho, hr⟩ := fields_of_matchesOwnerRepo _ _ x hpx
          obtain ⟨fields, rfl⟩ := isObj_of_field x "owner" _ ho
          refine ⟨i, _, refreshToken (jsTrim f.token) f.nowIso (.obj fields), _, hx, hpx, hres,
            length_updateAt _ _ _, ?_, ?_, field_refreshToken_token _ _ _, ?_, ?_, halert,
            hstore⟩
          · rw [getElem?_updateAt_self, hx]; rfl
          · intro j hj
            exact getElem?_updateAt_ne _ _ _ _ hj
          · rw [field_refreshToken_other _ _ "owner" _ (by decide) (by decide)]; exact ho
          · rw [field_refreshToken_other _ _ "repo" _ (by decide) (by decide)]; exact hr
        · intro hupdate
          exact (addRepository_declined P f s htoken howner hrepo).2 entries i x hreg hfind
            hupdate

set_option maxRecDepth 100000 in
/-- On the registry that holds acme/site: an owner of whitespace only is turned down,
the form for acme/docs appends the entry with the trimmed values, and the form for
acme/site, whose token is written with a blank on either side, puts the token without
the blanks into the existing entry. -/
theorem addRepository_trims_witness :
    (addRepository examplePlatform blankForm sampleState =
        showAlert sampleState .validationError ∧
      (addRepository examplePlatform blankForm sampleState).repositories =
        sampleState.repositories ∧
      (addRepository examplePlatform blankForm sampleState).storage = sampleState.storage) ∧
    ((addRepository examplePlatform secondForm sampleState).repositories =
        .arr [sampleEntry "1" "ghp_old" "acme" "site",
          newEntry "1700000000000" "ghp_docs" "acme" "docs" "2023-11-14T22:13:20.000Z"] ∧
      ∃ e, (addRepository examplePlatform secondForm sampleState).repositories =
          .arr ([sampleEntry "1" "ghp_old" "acme" "site"] ++ [e]) ∧
        e.field "token" = some (.str (jsTrim secondForm.token)) ∧
        e.field "owner" = some (.str (jsTrim secondForm.owner)) ∧
        e.field "repo" = some (.str (jsTrim secondForm.repo)) ∧
        (addRepository examplePlatform secondForm sampleState).alerts =
          sampleState.alerts ++ [.added] ∧
        (addRepository examplePlatform secondForm sampleState).storage =
          some (examplePlatform.stringify
            (.arr ([sampleEntry "1" "ghp_old" "acme" "site"] ++ [e])) 0)) ∧
    (jsTrim sampleForm.token = "ghp_new" ∧
      ∃ (i : Nat) (x x' : JValue) (entries' : List JValue),
        [sampleEntry "1" "ghp_old" "acme" "site"][i]? = some x ∧
        matchesOwnerRepo (jsTrim sampleForm.owner) (jsTrim sampleForm.repo) x = true ∧
        (addRepository examplePlatform sampleForm sampleState).repositories = .arr entries' ∧
        entries'.length = [sampleEntry "1" "ghp_old" "acme" "site"].length ∧
        entries'[i]? = some x' ∧
        (∀ j, j ≠ i → entries'[j]? = [sampleEntry "1" "ghp_old" "acme" "site"][j]?) ∧
        x'.field "token" = some (.str (jsTrim sampleForm.token)) ∧
        x'.field "owner" = some (.str (jsTrim sampleForm.owner)) ∧
        x'.field "repo" = some (.str (jsTrim sampleForm.repo)) ∧
        (addRepository examplePlatform sampleForm sampleState).alerts =
          sampleState.alerts ++ [.updated] ∧
        (addRepository examplePlatform sampleForm sampleState).storage =
          some (examplePlatform.stringify (.arr entries') 0)) :=
  ⟨(addRepository_trims examplePlatform blankForm sampleState).1 (by decide),
   ⟨by decide,
    ((((addRepository_trims examplePlatform secondForm sampleState).2.1
      (by decide) (by decide) (by decide)).2.1 (by decide)
      [sampleEntry "1" "ghp_old" "acme" "site"] rfl (by decide)).1 (by decide))⟩,
   ⟨by decide,
    (((((addRepository_trims examplePlatform sampleForm sampleState).2.1
      (by decide) (by decide) (by decide)).2.1 (by decide)
      [sampleEntry "1" "ghp_old" "acme" "site"] rfl (by decide)).2 (by decide)).1
      (by decide))⟩⟩

/-! ## C19: the ids of the registrations -/

theorem map_updateAt_of_eq {β : Type} (g : JValue → β) (f : JValue → JValue)
    (h : ∀ r, g (f r) = g r) (l : List JValue) (i : Nat) :
    (updateAt f l i).map g = l.map g := by
  induction l generalizing i with
  | nil => rfl
  | cons x xs ih =>
      cases i with
      | zero => simp [updateAt, h]
      | succ j => simp [updateAt, ih]

/-- The entries have pairwise different ids, each the numeral of a clock reading that is
not among `future`. -/
theorem ids_step (P : Platform) (op : RegistryOp) (rest : List Nat) (s : State)
    (entries : List JValue) (hreg : s.repositories = .arr entries)
    (hpair : entries.Pairwise (fun a b => a.field "id" ≠ b.field "id"))
    (hids : ∀ e ∈ entries, ∃ t, e.field "id" = some (.str (toString t)) ∧
      t ∉ clockReadings [op] ++ rest)
    (hclock : (clockReadings [op] ++ rest).Nodup) :
    ∃ entries', (op.apply P s).repositories = .arr entries' ∧
      entries'.Pairwise (fun a b => a.field "id" ≠ b.field "id") ∧
      ∀ e ∈ entries', ∃ t, e.field "id" = some (.str (toString t)) ∧ t ∉ rest := by
  have hweak : ∀ e ∈ entries, ∃ t, e.field "id" = some (.str (toString t)) ∧ t ∉ rest := by
    intro e he
    obtain ⟨t, ht, hnot⟩ := hids e he
    exact ⟨t, ht, fun hm => hnot (List.mem_append_right _ hm)⟩
  cases op with
  | add f =>
      simp only [RegistryOp.apply]
      rcases addRepository_repositories P f s with h0 | ⟨en, i, x, hreg', -, hres⟩ |
        ⟨en, hreg', -, hres⟩
      · exact ⟨entries, by rw [h0, hreg], hpair, hweak⟩
      · have hen : en = entries := by rw [hreg] at hreg'; cases hreg'; rfl
        subst hen
        have hmap := map_updateAt_of_eq (fun r => r.field "id")
          (refreshToken (jsTrim f.token) f.nowIso)
          (fun r => field_refreshToken_other _ _ "id" r (by decide) (by decide)) en i
        refine ⟨_, hres, ?_, ?_⟩
        · have h1 : (en.map (fun r => r.field "id")).Pairwise (· ≠ ·) :=
            List.pairwise_map.mpr hpair
          rw [← hmap] at h1
          exact List.pairwise_map.mp h1
        · intro e he
          have h1 : e.field "id" ∈ (updateAt (refreshToken (jsTrim f.token) f.nowIso) en i).map
              (fun r => r.field "id") := List.mem_map.mpr ⟨e, he, rfl⟩
          rw [hmap] at h1
          obtain ⟨e', he', heq⟩ := List.mem_map.mp h1
          obtain ⟨t, ht, hnot⟩ := hweak e' he'
          exact ⟨t, by rw [← heq]; exact ht, hnot⟩
      · have hen : en = entries := by rw [hreg] at hreg'; cases hreg'; rfl
        subst hen
        have hnew : (newEntry (toString f.nowMs) (jsTrim f.token) (jsTrim f.owner)
            (jsTrim f.repo) f.nowIso).field "id" = some (.str (toString f.nowMs)) := by
          simp [newEntry, JValue.field, List.find?_cons]
        have hnodup : f.nowMs ∉ rest := by
          have : (f.nowMs :: rest).Nodup := by simpa [clockReadings] using hclock
          exact (List.nodup_cons.mp this).1
        refine ⟨_, hres, ?_, ?_⟩
        · rw [List.pairwise_append]
          refine ⟨hpair, List.pairwise_singleton _ _, ?_⟩
          intro a ha b hb
          rw [List.mem_singleton] at hb
          subst hb
          obtain ⟨t, ht, hnot⟩ := hids a ha
          rw [ht, hnew]
          intro heq
          have hstr : toString t = toString f.nowMs := by
            injection heq with h1
            injection h1
          have := toString_nat_injective _ _ hstr
          apply hnot
          simp [clockReadings, this]
        · intro e he
          rcases List.mem_append.mp he with he | he
          · exact hweak e he
          · rw [List.mem_singleton] at he
            subst he
            exact ⟨f.nowMs, hnew, hnodup⟩
  | remove id confirmed =>
      simp only [RegistryOp.apply]
      rcases removeRepository_repositories P id confirmed s with h0 | ⟨en, hreg', hres⟩
      · exact ⟨entries, by rw [h0, hreg], hpair, hweak⟩
      · have hen : en = entries := by rw [hreg] at hreg'; cases hreg'; rfl
        subst hen
        exact ⟨_, hres, List.Pairwise.sublist (List.filter_sublist _) hpair,
          fun e he => hweak e (List.mem_filter.mp he).1⟩
  | clear confirmed =>
      simp only [RegistryOp.apply]
      rcases clearAllRepos_repositories P confirmed s with h0 | h0
      · exact ⟨entries, by rw [h0, hreg], hpair, hweak⟩
      · exact ⟨[], h0, List.Pairwise.nil, fun e he => by cases he⟩

theorem clockReadings_cons (op : RegistryOp) (ops : List RegistryOp) :
    clockReadings (op :: ops) = clockReadings [op] ++ clockReadings ops := by
  cases op <;> simp [clockReadings]

theorem ids_run (P : Platform) (ops : List RegistryOp) (s : State) (entries : List JValue)
    (hreg : s.repositories = .arr entries)
    (hpair : entries.Pairwise (fun a b => a.field "id" ≠ b.field "id"))
    (hids : ∀ e ∈ entries, ∃ t, e.field "id" = some (.str (toString t)) ∧
      t ∉ clockReadings ops)
    (hclock : (clockReadings ops).Nodup) :
    UniqueIds (runOps P s ops).repositories := by
  induction ops generalizing s entries with
  | nil =>
      simp only [runOps, List.foldl_nil]
      unfold UniqueIds
      rw [hreg]
      exact hpair
  | cons op rest ih =>
      rw [clockReadings_cons] at hids hclock
      obtain ⟨entries', hreg', hpair', hids'⟩ :=
        ids_step P op (clockReadings rest) s entries hreg hpair hids hclock
      have hrest : (clockReadings rest).Nodup := (List.nodup_append.mp hclock).2.1
      simpa [runOps] using ih (op.apply P s) entries' hreg' hpair' hids' hrest

/-- C19 (as amended): in every registry reached from the empty registry by a sequence of
`addRepository`, `removeRepository` and `clearAllRepos` calls in which no two calls of
`addRepository` read the same value of `Date.now()`, no two entries have the same
`id`. -/
theorem ids_unique_of_distinct_clock (P : Platform) (stored : Option String)
    (ops : List RegistryOp) (hclock : (clockReadings ops).Nodup) :
    UniqueIds (runOps P (State.initial stored) ops).repositories :=
  ids_run P ops (State.initial stored) [] rfl List.Pairwise.nil (fun e he => by cases he)
    hclock

set_option maxRecDepth 100000 in
/-- An instance of `ids_unique_of_distinct_clock`: two repositories are added one
millisecond apart. -/
theorem ids_unique_of_distinct_clock_witness :
    (clockReadings [.add sampleForm, .add { secondForm with nowMs := 1700000000001 }]).Nodup ∧
    UniqueIds (runOps examplePlatform (State.initial none)
      [.add sampleForm, .add { secondForm with nowMs := 1700000000001 }]).repositories :=
  ⟨by decide, ids_unique_of_distinct_clock examplePlatform none
    [.add sampleForm, .add { secondForm with nowMs := 1700000000001 }] (by decide)⟩

set_option maxRecDepth 100000 in
/-- C19 fails as stated: acme/site and acme/docs are added from the empty registry while
`Date.now()` reads the same millisecond; both entries get the id `1700000000000`. -/
theorem same_millisecond_same_id :
    (runOps examplePlatform (State.initial none)
      [.add sampleForm, .add secondForm]).repositories =
      .arr [newEntry "1700000000000" "ghp_new" "acme" "site" "2023-11-14T22:13:20.000Z",
            newEntry "1700000000000" "ghp_docs" "acme" "docs" "2023-11-14T22:13:20.000Z"] ∧
    ¬ UniqueIds (runOps examplePlatform (State.initial none)
      [.add sampleForm, .add secondForm]).repositories := by
  decide

/-! ## C20: the active repository after an operation -/

theorem loadContentsStart_keeps (path : String) (s : State) :
    (loadContentsStart path s).1.repositories = s.repositories ∧
    (loadContentsStart path s).1.currentRepo = s.currentRepo := by
  unfold loadContentsStart
  cases hc : s.currentRepo with
  | none => simp [hc]
  | some a =>
      simp only
      split
      · exact ⟨rfl, hc.symm ▸ rfl⟩
      · split
        · exact ⟨rfl, hc.symm ▸ rfl⟩
        · exact ⟨rfl, hc.symm ▸ rfl⟩

theorem attached_of_eq {s t : State} (h : Attached s)
    (hreg : t.repositories = s.repositories) (hc : t.currentRepo = s.currentRepo) :
    Attached t := by
  unfold Attached at h ⊢
  rw [hreg, hc]
  exact h

theorem attached_selectRepository (id : String) (s : State) (h : Attached s) :
    Attached (selectRepository id s).1 := by
  unfold selectRepository
  split
  · rename_i entries hreg
    split
    · exact attached_of_eq h rfl rfl
    · exact h
    · rename_i i repo hfind
      have hx := (findThrowing_some _ _ _ _ hfind).1
      have hnew : Attached { s with currentRepo := some { value := repo, index := some i },
                                    currentPath := "" } := by
        intro a ha
        simp only [Option.some.injEq] at ha
        subst ha
        exact ⟨entries, i, hreg, rfl, hx⟩
      simp only
      split
      · exact attached_of_eq hnew rfl rfl
      · split
        · exact attached_of_eq hnew rfl rfl
        · exact attached_of_eq hnew (loadContentsStart_keeps "" _).1 (loadContentsStart_keeps "" _).2
  · exact attached_of_eq h rfl rfl

theorem saveAndRender_currentRepo (P : Platform) (s : State) :
    (saveAndRender P s).currentRepo = s.currentRepo := by
  simp only [saveAndRender]
  split <;> rfl

theorem attached_addRepository (P : Platform) (f : AddForm) (s : State) (h : Attached s) :
    Attached (addRepository P f s) := by
  unfold addRepository
  simp only
  split
  · exact attached_of_eq h rfl rfl
  · split
    · exact h
    · split
      · rename_i entries hreg
        split
        · exact attached_of_eq h rfl rfl
        · rename_i i x hfind
          split
          · exact h
          · refine attached_of_eq ?_ (saveAndRender_repositories P _)
              (saveAndRender_currentRepo P _)
            intro a ha
            simp only [showAlert] at ha ⊢
            cases hc : s.currentRepo with
            | none => rw [hc] at ha; cases ha
            | some b =>
                rw [hc] at ha
                obtain ⟨en, j, hreg', hj, hval⟩ := h b hc
                have hen : en = entries := by rw [hreg] at hreg'; cases hreg'; rfl
                subst hen
                by_cases hji : b.index = some i
                · simp only [hji, if_true, Option.some.injEq] at ha
                  subst ha
                  have hij : j = i := by rw [hj] at hji; exact Option.some.inj hji
                  subst hij
                  exact ⟨_, j, rfl, rfl, by rw [getElem?_updateAt_self, hval]; rfl⟩
                · simp only [hji, if_false, Option.some.injEq] at ha
                  subst ha
                  have hne : j ≠ i := fun hji' => hji (by rw [hj, hji'])
                  exact ⟨_, j, rfl, hj, by rw [getElem?_updateAt_ne _ _ _ _ hne, hval]⟩
        · refine attached_of_eq ?_ (saveAndRender_repositories P _)
            (saveAndRender_currentRepo P _)
          intro a ha
          simp only [showAlert] at ha ⊢
          obtain ⟨en, j, hreg', hj, hval⟩ := h a ha
          have hen : en = entries := by rw [hreg] at hreg'; cases hreg'; rfl
          subst hen
          refine ⟨_, j, rfl, hj, ?_⟩
          have hlt : j < en.length := by
            by_contra hge
            rw [List.getElem?_eq_none (by omega)] at hval
            cases hval
          rw [List.getElem?_append_left hlt, hval]
      · exact attached_of_eq h rfl rfl

theorem getElem?_filter_take (keep : JValue → Bool) (l : List JValue) (i : Nat) (v : JValue)
    (h : l[i]? = some v) (hk : keep v = true) :
    (l.filter keep)[((l.take i).filter keep).length]? = some v := by
  induction l generalizing i with
  | nil => simp at h
  | cons x xs ih =>
      cases i with
      | zero =>
          simp only [List.getElem?_cons_zero, Option.some.injEq] at h
          subst h
          simp [List.filter_cons, hk]
      | succ j =>
          have hj : xs[j]? = some v := by simpa using h
          by_cases hx : keep x = true
          · simpa [List.filter_cons, hx] using ih j hj
          · simpa [List.filter_cons, hx] using ih j hj

theorem attached_removeRepository (P : Platform) (id : String) (confirmed : Bool)
    (s : State) (hwf : WellFormed s) (h : Attached s) :
    Attached (removeRepository P id confirmed s) := by
  cases confirmed with
  | false => simpa [removeRepository] using h
  | true =>
      obtain ⟨⟨entries, hreg, hentries⟩, hactive⟩ := hwf
      rw [removeRepository_wellFormed P id s entries hreg hentries hactive]
      intro a ha
      simp only [showAlert] at ha ⊢
      by_cases hid : activeIdIs id s = true
      · simp [hid] at ha
      · simp only [hid, if_false] at ha
        cases hc : s.currentRepo with
        | none => rw [hc] at ha; cases ha
        | some b =>
            rw [hc] at ha
            simp only [Option.map_some', Option.some.injEq] at ha
            obtain ⟨en, j, hreg', hj, hval⟩ := h b hc
            have hen : en = entries := by rw [hreg] at hreg'; cases hreg'; rfl
            subst hen
            have hkeep : (!matchesId id b.value) = true := by
              have : activeIdIs id s = false := by simpa using hid
              simpa [activeIdIs, hc] using this
            simp only [Bool.false_eq_true, if_false, Option.some.injEq] at ha
            subst ha
            refine ⟨_, ((en.take j).filter (fun r => !matchesId id r)).length, rfl, ?_, ?_⟩
            · simp [reindex, hj, hkeep]
            · rw [reindex_value]
              exact getElem?_filter_take _ en j b.value hval hkeep

theorem attached_clearAllRepos (P : Platform) (confirmed : Bool) (s : State)
    (hwf : WellFormed s) (h : Attached s) : Attached (clearAllRepos P confirmed s) := by
  cases confirmed with
  | false => simpa [clearAllRepos] using h
  | true =>
      obtain ⟨⟨entries, hreg, -⟩, hactive⟩ := hwf
      have hstats : updateStatsThrows (setItem P
          { s with repositories := .arr [], currentRepo := detach s.currentRepo }) = false :=
        updateStatsThrows_of_registration _ [] rfl
          (by simpa [setItem] using isRegistration_detach s.currentRepo hactive)
      have hrender : renderRepoListThrows (JValue.arr []) = false := rfl
      intro a ha
      have hnone : (clearAllRepos P true s).currentRepo = none := by
        unfold clearAllRepos
        simp only [Bool.not_true, Bool.false_eq_true, if_false, saveAndRenderThrows, hstats]
        simp [setItem, hrender, updateStatsThrows, showAlert]
      rw [hnone] at ha
      cases ha

set_option maxRecDepth 100000 in
/-- C20, the code at the failing input: acme/site is the active repository and a backup
that holds only acme/blog is imported.  The import succeeds and replaces the registry,
and `currentRepo` still refers to the acme/site object, which is no entry of the
registry any more.  The other operations keep the active repository in the registry:
`selectRepository` and `addRepository` always, `removeRepository` and `clearAllRepos` on
a registry of registrations. -/
theorem import_leaves_stale_active :
    (selectedState.currentRepo =
        some { value := sampleEntry "1" "ghp_old" "acme" "site", index := some 0 } ∧
      selectedState.repositories = .arr [sampleEntry "1" "ghp_old" "acme" "site"] ∧
      (importRepos backupPlatform blogText selectedState).alerts = [.imported 1] ∧
      (importRepos backupPlatform blogText selectedState).repositories = blogDoc ∧
      (importRepos backupPlatform blogText selectedState).currentRepo =
        some { value := sampleEntry "1" "ghp_old" "acme" "site", index := none } ∧
      sampleEntry "1" "ghp_old" "acme" "site" ∉
        entriesOf (importRepos backupPlatform blogText selectedState).repositories ∧
      ¬ Attached (importRepos backupPlatform blogText selectedState)) ∧
    (∀ (P : Platform) (s : State), Attached s →
      (∀ id, Attached (selectRepository id s).1) ∧ (∀ f, Attached (addRepository P f s)) ∧
      (WellFormed s →
        (∀ id confirmed, Attached (removeRepository P id confirmed s)) ∧
        (∀ confirmed, Attached (clearAllRepos P confirmed s)))) := by
  refine ⟨⟨by decide, by decide, by decide, by decide, by decide, by decide, ?_⟩, ?_⟩
  · intro h
    obtain ⟨entries, i, -, hi, -⟩ := h
      { value := sampleEntry "1" "ghp_old" "acme" "site", index := none } (by decide)
    cases hi
  · intro P s h
    exact ⟨fun id => attached_selectRepository id s h,
      fun f => attached_addRepository P f s h,
      fun hwf => ⟨fun id c => attached_removeRepository P id c s hwf h,
        fun c => attached_clearAllRepos P c s hwf h⟩⟩

/-! ## C12: the breadcrumb -/

theorem jsJoin_append_singleton (sep : String) (pre : List String) (p : String) :
    jsJoin sep (pre ++ [p]) = jsJoin sep pre ++ ((if pre.length = 0 then "" else sep) ++ p) := by
  induction pre with
  | nil => simp [jsJoin]
  | cons x rest ih =>
      cases rest with
      | nil => simp [jsJoin, String.append_assoc]
      | cons y r =>
          have ih' : jsJoin sep (y :: r ++ [p]) = jsJoin sep (y :: r) ++ (sep ++ p) := by
            simpa using ih
          have : jsJoin sep (x :: y :: r ++ [p]) = x ++ sep ++ jsJoin sep (y :: r ++ [p]) := rfl
          rw [this, ih']
          simp [jsJoin, String.append_assoc]

theorem foldl_crumbStep (parts pre : List String) (items : List Crumb) :
    ((parts.enumFrom pre.length).foldl crumbStep (jsJoin "/" pre, items)) =
      (jsJoin "/" (pre ++ parts), items ++ crumbsFrom pre parts) := by
  induction parts generalizing pre items with
  | nil => simp [crumbsFrom]
  | cons p ps ih =>
      have hstep : crumbStep (jsJoin "/" pre, items) (pre.length, p) =
          (jsJoin "/" (pre ++ [p]),
            items ++ [{ label := p, target := jsJoin "/" (pre ++ [p]) }]) := by
        simp only [crumbStep, jsJoin_append_singleton]
      have hlen : (pre ++ [p]).length = pre.length + 1 := by simp
      simp only [List.enumFrom_cons, List.foldl_cons, hstep]
      rw [← hlen, ih (pre ++ [p])]
      simp [crumbsFrom]

theorem renderBreadcrumb_eq_spec (currentPath : String) :
    renderBreadcrumb currentPath = breadcrumbSpec (pathParts currentPath) := by
  unfold renderBreadcrumb breadcrumbSpec
  have h := foldl_crumbStep (pathParts currentPath) [] []
  simp only [List.length_nil, List.nil_append] at h
  have hj : jsJoin "/" [] = "" := rfl
  rw [hj] at h
  rw [List.enum, h]

theorem length_crumbsFrom (pre parts : List String) :
    (crumbsFrom pre parts).length = parts.length := by
  induction parts generalizing pre with
  | nil => rfl
  | cons p ps ih => simp [crumbsFrom, ih]

theorem getElem?_crumbsFrom (pre parts : List String) (k : Nat) :
    (crumbsFrom pre parts)[k]? =
      (parts[k]?).map (fun p => { label := p, target := jsJoin "/" (pre ++ parts.take (k + 1)) }) := by
  induction parts generalizing pre k with
  | nil => simp [crumbsFrom]
  | cons p ps ih =>
      cases k with
      | zero => simp [crumbsFrom]
      | succ j => simp [crumbsFrom, ih]

theorem joinData_cons_cons (sep c : Char) (x : List Char) (rest : List (List Char)) :
    joinData sep ((c :: x) :: rest) = c :: joinData sep (x :: rest) := by
  cases rest with
  | nil => rfl
  | cons y r => simp [joinData]

theorem joinData_splitAux (sep : Char) (cs : List Char) :
    joinData sep ((splitAux sep cs).1 :: (splitAux sep cs).2) = cs := by
  induction cs with
  | nil => rfl
  | cons c cs ih =>
      unfold splitAux
      by_cases hc : c = sep
      · simp only [hc, if_true]
        simp only [joinData, List.nil_append]
        rw [ih]
      · simp only [hc, if_false]
        rw [joinData_cons_cons, ih]

theorem data_jsJoin (l : List (List Char)) :
    (jsJoin "/" (l.map String.mk)).data = joinData '/' l := by
  induction l with
  | nil => rfl
  | cons x rest ih =>
      cases rest with
      | nil => rfl
      | cons y r =>
          have h : jsJoin "/" ((x :: y :: r).map String.mk) =
              String.mk x ++ "/" ++ jsJoin "/" ((y :: r).map String.mk) := rfl
          rw [h, String.data_append, String.data_append, ih]
          simp [joinData]

theorem jsJoin_jsSplit (s : String) : jsJoin "/" (jsSplit '/' s) = s := by
  apply String.ext
  unfold jsSplit
  rw [data_jsJoin, joinData_splitAux]

theorem map_label_crumbsFrom (pre parts : List String) :
    (crumbsFrom pre parts).map Crumb.label = parts := by
  induction parts generalizing pre with
  | nil => rfl
  | cons p ps ih => simp [crumbsFrom, ih]

/-- C12: for every `currentPath` the breadcrumb written by `renderBreadcrumb` is the item
`root`, whose handler opens the empty path, followed by one item for each non-empty
segment of `currentPath.split('/')`, in order, labelled with the segment; the handler
of the k-th segment is given the first k segments joined by `/`.  For `a/b/c` the items
are root, a, b, c with the paths (empty), `a`, `a/b`, `a/b/c`; and for every path none
of whose segments is empty the path given to the last handler is `currentPath`. -/
theorem breadcrumb_correct (currentPath : String) :
    renderBreadcrumb currentPath = breadcrumbSpec (pathParts currentPath) ∧
    (renderBreadcrumb currentPath).map Crumb.label = "root" :: pathParts currentPath ∧
    (renderBreadcrumb currentPath)[0]? = some { label := "root", target := "" } ∧
    (∀ k, (renderBreadcrumb currentPath)[k + 1]? =
      ((pathParts currentPath)[k]?).map (fun p =>
        { label := p, target := jsJoin "/" ((pathParts currentPath).take (k + 1)) })) ∧
    renderBreadcrumb "a/b/c" =
      [{ label := "root", target := "" }, { label := "a", target := "a" },
       { label := "b", target := "a/b" }, { label := "c", target := "a/b/c" }] ∧
    ((∀ seg ∈ jsSplit '/' currentPath, seg ≠ "") →
      ((renderBreadcrumb currentPath).getLast?).map Crumb.target = some currentPath) := by
  have hspec := renderBreadcrumb_eq_spec currentPath
  refine ⟨hspec, ?_, ?_, ?_, by decide, ?_⟩
  · rw [hspec]
    simp [breadcrumbSpec, map_label_crumbsFrom]
  · rw [hspec]; simp [breadcrumbSpec]
  · intro k
    rw [hspec]
    simp only [breadcrumbSpec, List.getElem?_cons_succ]
    rw [getElem?_crumbsFrom]
    simp
  · intro hall
    have hparts : pathParts currentPath = jsSplit '/' currentPath := by
      unfold pathParts
      rw [List.filter_eq_self]
      intro seg hseg
      simpa using hall seg hseg
    have hne : jsSplit '/' currentPath ≠ [] := by simp [jsSplit]
    rw [hspec, hparts]
    simp only [breadcrumbSpec]
    obtain ⟨n, hn⟩ : ∃ n, (jsSplit '/' currentPath).length = n + 1 :=
      ⟨(jsSplit '/' currentPath).length - 1, by
        have := List.length_pos.mpr hne
        omega⟩
    rw [List.getLast?_eq_getElem?]
    simp only [List.length_cons, length_crumbsFrom, hn, Nat.add_sub_cancel,
      List.getElem?_cons_succ]
    rw [getElem?_crumbsFrom]
    have hsome : ∃ p, (jsSplit '/' currentPath)[n]? = some p := by
      have hlt : n < (jsSplit '/' currentPath).length := by omega
      exact ⟨_, List.getElem?_eq_getElem hlt⟩
    obtain ⟨p, hp⟩ := hsome
    rw [hp]
    simp only [Option.map_some', List.nil_append, Option.some.injEq]
    rw [← hn, List.take_length]
    exact jsJoin_jsSplit currentPath
theorem isNameChar_iff (c : Char) :
    isNameChar c = true ↔ (c.isAlpha ∨ c.isDigit ∨ c = '.' ∨ c = '_' ∨ c = '-') := by
  have h1 : c = '.' ↔ c.toNat = 46 := by
    constructor
    · rintro rfl; rfl
    · intro h; apply Char.ext; apply UInt32.ext; exact h
  have h2 : c = '_' ↔ c.toNat = 95 := by
    constructor
    · rintro rfl; rfl
    · intro h; apply Char.ext; apply UInt32.ext; exact h
  have h3 : c = '-' ↔ c.toNat = 45 := by
    constructor
    · rintro rfl; rfl
    · intro h; apply Char.ext; apply UInt32.ext; exact h
  rw [h1, h2, h3]
  simp only [isNameChar, Char.isAlpha, Char.isUpper, Char.isLower, Char.isDigit,
    Bool.or_eq_true, Bool.and_eq_true, decide_eq_true_eq, beq_iff_eq, ge_iff_le,
    UInt32.le_def, Char.toNat]
  simp only [BitVec.le_def]
  have e : c.val.toBitVec.toNat = c.val.toNat := rfl
  have e65 : (UInt32.toBitVec 65).toNat = 65 := rfl
  have e90 : (UInt32.toBitVec 90).toNat = 90 := rfl
  have e97 : (UInt32.toBitVec 97).toNat = 97 := rfl
  have e122 : (UInt32.toBitVec 122).toNat = 122 := rfl
  have e48 : (UInt32.toBitVec 48).toNat = 48 := rfl
  have e57 : (UInt32.toBitVec 57).toNat = 57 := rfl
  rw [e, e65, e90, e97, e122, e48, e57]
  omega

theorem validated_iff (name : String) :
    ((jsTrim name == "") = false ∧ matchesNamePattern (jsTrim name) = true) ↔
      AcceptableName name := by
  unfold AcceptableName matchesNamePattern
  have hne : (jsTrim name == "") = false ↔ jsTrim name ≠ "" := by simp
  rw [hne]
  constructor
  · rintro ⟨h1, h2⟩
    refine ⟨h1, fun c hc => ?_⟩
    simp only [Bool.and_eq_true, List.all_eq_true] at h2
    exact (isNameChar_iff c).1 (h2.2 c hc)
  · rintro ⟨h1, h2⟩
    refine ⟨h1, ?_⟩
    simp only [Bool.and_eq_true, List.all_eq_true, Bool.not_eq_true', List.isEmpty_eq_false]
    refine ⟨?_, fun c hc => (isNameChar_iff c).2 (h2 c hc)⟩
    intro h
    apply h1
    show jsTrim name = String.mk []
    rw [← h]

theorem passed_caught (calls : List ApiCall) (cause : Failure) :
    (Outcome.caught calls cause).passedValidation = true := rfl

theorem passed_done (calls : List ApiCall) (message : String) :
    (Outcome.done calls message).passedValidation = true := rfl

theorem passed_rejected (message : String) :
    (Outcome.rejected message).passedValidation = false := rfl

theorem passed_putAndFinish (call : ApiCall) (r : FetchResult) (fallback message : String) :
    (putAndFinish call r fallback message).passedValidation = true := by
  unfold putAndFinish
  split <;> rfl

theorem createFile_cases (name : String) (content : List Nat) (commitMessage : String)
    (r : FetchResult) (s : State) :
    (((jsTrim name == "") = false ∧ matchesNamePattern (jsTrim name) = true) ∧
        (createFile name content commitMessage r s).passedValidation = true) ∨
      (¬ ((jsTrim name == "") = false ∧ matchesNamePattern (jsTrim name) = true) ∧
        (createFile name content commitMessage r s).isValidationError) := by
  cases h1 : jsTrim name == ""
  · cases h2 : matchesNamePattern (jsTrim name)
    · right
      exact ⟨by simp, "File name contains invalid characters", by simp [createFile, h1, h2]⟩
    · left
      refine ⟨⟨rfl, rfl⟩, ?_⟩
      simp only [createFile, h1, h2, Bool.false_eq_true, if_false, Bool.not_true]
      split
      · rfl
      · split
        · rfl
        · exact passed_putAndFinish _ _ _ _
  · right
    exact ⟨by simp, "File name is required", by simp [createFile, h1]⟩

theorem createFolder_cases (name commitMessage : String) (r : FetchResult) (s : State) :
    (((jsTrim name == "") = false ∧ matchesNamePattern (jsTrim name) = true) ∧
        (createFolder name commitMessage r s).passedValidation = true) ∨
      (¬ ((jsTrim name == "") = false ∧ matchesNamePattern (jsTrim name) = true) ∧
        (createFolder name commitMessage r s).isValidationError) := by
  cases h1 : jsTrim name == ""
  · cases h2 : matchesNamePattern (jsTrim name)
    · right
      exact ⟨by simp, "Folder name contains invalid characters", by simp [createFolder, h1, h2]⟩
    · left
      refine ⟨⟨rfl, rfl⟩, ?_⟩
      simp only [createFolder, h1, h2, Bool.false_eq_true, if_false, Bool.not_true]
      split
      · rfl
      · exact passed_putAndFinish _ _ _ _
  · right
    exact ⟨by simp, "Folder name is required", by simp [createFolder, h1]⟩

theorem confirmRename_cases (item : Option Item) (name commitMessage : String)
    (r1 r2 r3 : FetchResult) (s : State) :
    (((jsTrim name == "") = false ∧ matchesNamePattern (jsTrim name) = true) ∧
        (confirmRename item name commitMessage r1 r2 r3 s).passedValidation = true) ∨
      (¬ ((jsTrim name == "") = false ∧ matchesNamePattern (jsTrim name) = true) ∧
        (confirmRename item name commitMessage r1 r2 r3 s).isValidationError) := by
  cases h1 : jsTrim name == ""
  · cases h2 : matchesNamePattern (jsTrim name)
    · right
      exact ⟨by simp, "Name contains invalid characters", by simp [confirmRename, h1, h2]⟩
    · left
      refine ⟨⟨rfl, rfl⟩, ?_⟩
      simp only [confirmRename, h1, h2, Bool.false_eq_true, if_false, Bool.not_true]
      repeat (first | rfl | split)
  · right
    exact ⟨by simp, "New name is required", by simp [confirmRename, h1]⟩

theorem not_passed_of_isValidationError (o : Outcome) (h : o.isValidationError) :
    o.passedValidation = false ∧ o.calls = [] ∧ o.refreshed = false := by
  obtain ⟨m, rfl⟩ := h
  exact ⟨rfl, rfl, rfl⟩

theorem validation_of_cases (name : String) (o : Outcome)
    (h : (((jsTrim name == "") = false ∧ matchesNamePattern (jsTrim name) = true) ∧
        o.passedValidation = true) ∨
      (¬ ((jsTrim name == "") = false ∧ matchesNamePattern (jsTrim name) = true) ∧
        o.isValidationError)) :
    (o.passedValidation = true ↔ AcceptableName name) ∧
      (¬ AcceptableName name → o.isValidationError ∧ o.calls = []) := by
  rw [← validated_iff]
  rcases h with ⟨h1, h2⟩ | ⟨h1, h2⟩
  · exact ⟨⟨fun _ => h1, fun _ => h2⟩, fun h => absurd h1 h⟩
  · have h3 := not_passed_of_isValidationError o h2
    refine ⟨⟨fun h => ?_, fun h => absurd h h1⟩, fun _ => ⟨h2, h3.2.1⟩⟩
    rw [h3.1] at h
    cases h

/-- C16: for every entered name, `createFile`, `createFolder` and `confirmRename` go past
their validation exactly when the name, after trimming, is not empty and consists of
letters, digits, `.`, `_` and `-`; for any other name the call is a validation message
and nothing else: no request is issued. -/
theorem name_validation (name commitMessage : String) (content : List Nat)
    (item : Option Item) (r r1 r2 r3 : FetchResult) (s : State) :
    (((createFile name content commitMessage r s).passedValidation = true ↔
        AcceptableName name) ∧
      (¬ AcceptableName name →
        (createFile name content commitMessage r s).isValidationError ∧
        (createFile name content commitMessage r s).calls = [])) ∧
    (((createFolder name commitMessage r s).passedValidation = true ↔
        AcceptableName name) ∧
      (¬ AcceptableName name →
        (createFolder name commitMessage r s).isValidationError ∧
        (createFolder name commitMessage r s).calls = [])) ∧
    (((confirmRename item name commitMessage r1 r2 r3 s).passedValidation = true ↔
        AcceptableName name) ∧
      (¬ AcceptableName name →
        (confirmRename item name commitMessage r1 r2 r3 s).isValidationError ∧
        (confirmRename item name commitMessage r1 r2 r3 s).calls = [])) :=
  ⟨validation_of_cases name _ (createFile_cases name content commitMessage r s),
   validation_of_cases name _ (createFolder_cases name commitMessage r s),
   validation_of_cases name _ (confirmRename_cases item name commitMessage r1 r2 r3 s)⟩

theorem foldl_size (files : List SelectedFile) (acc : Nat) :
    files.foldl (fun acc file => acc + file.size) acc =
      acc + (files.map (fun file => file.size)).sum := by
  induction files generalizing acc with
  | nil => simp
  | cons f rest ih => simp [List.foldl_cons, ih, Nat.add_assoc]

theorem totalSize_eq (files : List (SelectedFile × Answers)) :
    totalSize (files.map Prod.fst) = selectionSize files := by
  unfold totalSize selectionSize
  rw [foldl_size]
  simp [List.map_map, Function.comp_def]

/-- C14: for every selection of files, if the sum of the sizes exceeds 104857600 bytes,
`uploadFiles` shows the message about the limit and does nothing else: no request is
issued, no file is counted as uploaded and the listing is not loaded again; if the sum
is at most 104857600 bytes, that message is not shown. -/
theorem upload_size_limit (commitMessage : String) (files : List (SelectedFile × Answers))
    (s : State) :
    (104857600 < selectionSize files →
      (uploadFiles commitMessage files s).notices = [tooLarge] ∧
      (uploadFiles commitMessage files s).progress.calls = [] ∧
      (uploadFiles commitMessage files s).progress.successCount = 0 ∧
      (uploadFiles commitMessage files s).refreshed = false) ∧
    (selectionSize files ≤ 104857600 →
      tooLarge ∉ (uploadFiles commitMessage files s).notices) := by
  have hlimit : sizeLimit = 104857600 := rfl
  constructor
  · intro h
    have hne : files.length ≠ 0 := by
      intro h0
      rw [List.length_eq_zero] at h0
      subst h0
      simp [selectionSize] at h
    have hbig : totalSize (files.map Prod.fst) > sizeLimit := by
      rw [totalSize_eq, hlimit]; exact h
    simp [uploadFiles, hne, hbig, tooLarge]
  · intro h
    have hsmall : ¬ totalSize (files.map Prod.fst) > sizeLimit := by
      rw [totalSize_eq, hlimit]; omega
    simp only [uploadFiles, hsmall, if_false]
    split
    · simp [tooLarge]
    · split
      · simp [tooLarge]
      · split
        · simp [tooLarge]
        · simp only [List.mem_singleton, tooLarge]
          intro h
          injection h with h
          revert h
          decide

set_option maxRecDepth 100000 in
/-- The batch of one file of 104857601 bytes is turned down without a request, and the
batch of three files of two bytes is not turned down. -/
theorem upload_size_limit_witness :
    ((uploadFiles "Upload files" oversizedBatch selectedState).notices = [tooLarge] ∧
      (uploadFiles "Upload files" oversizedBatch selectedState).progress.calls = [] ∧
      (uploadFiles "Upload files" oversizedBatch selectedState).progress.successCount = 0 ∧
      (uploadFiles "Upload files" oversizedBatch selectedState).refreshed = false) ∧
    tooLarge ∉ (uploadFiles "Upload files" sampleBatch selectedState).notices :=
  ⟨(upload_size_limit "Upload files" oversizedBatch selectedState).1 (by decide),
   (upload_size_limit "Upload files" sampleBatch selectedState).2 (by decide)⟩

theorem uploadStep_fields (s : State) (commitMessage : String) (p : Progress)
    (fa : SelectedFile × Answers) :
    (uploadStep s commitMessage p fa).calls = p.calls ++ attemptCalls s commitMessage fa ∧
    (uploadStep s commitMessage p fa).errors =
      p.errors ++ (attemptError s commitMessage fa).toList ∧
    (uploadStep s commitMessage p fa).errorCount =
      p.errorCount + (attemptError s commitMessage fa).toList.length ∧
    (uploadStep s commitMessage p fa).successCount + (uploadStep s commitMessage p fa).errorCount =
      p.successCount + p.errorCount + 1 := by
  unfold uploadStep attemptCalls attemptError
  rcases h : uploadOne s commitMessage fa.1 fa.2 with ⟨calls, _ | cause⟩
  · simp
    omega
  · simp
    omega

theorem foldl_uploadStep (s : State) (commitMessage : String)
    (files : List (SelectedFile × Answers)) (p : Progress) :
    (files.foldl (uploadStep s commitMessage) p).calls =
      p.calls ++ files.flatMap (attemptCalls s commitMessage) ∧
    (files.foldl (uploadStep s commitMessage) p).errors =
      p.errors ++ files.filterMap (attemptError s commitMessage) ∧
    (files.foldl (uploadStep s commitMessage) p).errorCount =
      p.errorCount + (files.filterMap (attemptError s commitMessage)).length ∧
    (files.foldl (uploadStep s commitMessage) p).successCount +
        (files.foldl (uploadStep s commitMessage) p).errorCount =
      p.successCount + p.errorCount + files.length := by
  induction files generalizing p with
  | nil => simp
  | cons fa rest ih =>
      obtain ⟨h1, h2, h3, h4⟩ := uploadStep_fields s commitMessage p fa
      obtain ⟨i1, i2, i3, i4⟩ := ih (uploadStep s commitMessage p fa)
      simp only [List.foldl_cons, List.flatMap_cons, List.length_cons]
      refine ⟨?_, ?_, ?_, ?_⟩
      · rw [i1, h1, List.append_assoc]
      · rw [i2, h2, List.append_assoc]
        congr 1
        cases h : attemptError s commitMessage fa <;> simp [List.filterMap_cons, h]
      · rw [i3, h3]
        cases h : attemptError s commitMessage fa <;> simp [List.filterMap_cons, h]
        omega
      · rw [i4, h4]
        omega

theorem uploadLoop_fields (s : State) (commitMessage : String)
    (files : List (SelectedFile × Answers)) :
    (uploadLoop s commitMessage files).calls = files.flatMap (attemptCalls s commitMessage) ∧
    (uploadLoop s commitMessage files).errors =
      files.filterMap (attemptError s commitMessage) ∧
    (uploadLoop s commitMessage files).errorCount =
      (files.filterMap (attemptError s commitMessage)).length ∧
    (uploadLoop s commitMessage files).successCount +
        (uploadLoop s commitMessage files).errorCount = files.length := by
  have h := foldl_uploadStep s commitMessage files
    { calls := [], successCount := 0, errorCount := 0, errors := [] }
  simpa [uploadLoop] using h

theorem uploadFiles_progress (commitMessage : String) (files : List (SelectedFile × Answers))
    (s : State) (hsize : selectionSize files ≤ 104857600) :
    (uploadFiles commitMessage files s).progress = uploadLoop s commitMessage files := by
  have hlimit : sizeLimit = 104857600 := rfl
  have hsmall : ¬ totalSize (files.map Prod.fst) > sizeLimit := by
    rw [totalSize_eq, hlimit]; omega
  by_cases h0 : files.length = 0
  · rw [List.length_eq_zero] at h0
    subst h0
    rfl
  · simp only [uploadFiles, h0, hsmall, if_false]
    split
    · rfl
    · split <;> rfl

theorem attemptError_isSome (s : State) (commitMessage : String)
    (fa : SelectedFile × Answers) :
    (attemptError s commitMessage fa).isSome = attemptFails s commitMessage fa := by
  unfold attemptError attemptFails
  cases (uploadOne s commitMessage fa.1 fa.2).2 <;> rfl

theorem attemptError_name (s : State) (commitMessage : String)
    (fa : SelectedFile × Answers) (e : String × Failure)
    (h : attemptError s commitMessage fa = some e) : e.1 = fa.1.name := by
  unfold attemptError at h
  cases hc : (uploadOne s commitMessage fa.1 fa.2).2 with
  | none => rw [hc] at h; cases h
  | some c => rw [hc] at h; simp at h; rw [← h]

theorem filterMap_single {α β : Type} (g : α → Option β) :
    ∀ (l : List α) (k : Nat) (hk : k < l.length),
      (∀ i (hi : i < l.length), (g l[i]).isSome = true ↔ i = k) →
      ∃ c, g l[k] = some c ∧ l.filterMap g = [c] := by
  intro l
  induction l with
  | nil => intro k hk; simp at hk
  | cons a rest ih =>
      intro k hk h
      have htail : ∀ j (hj : j < rest.length), (g rest[j]).isSome = true ↔ j + 1 = k := by
        intro j hj
        have := h (j + 1) (by simp; omega)
        simpa using this
      cases k with
      | zero =>
          have h0 := (h 0 (by simp)).2 rfl
          obtain ⟨c, hc⟩ := Option.isSome_iff_exists.1 h0
          simp only [List.getElem_cons_zero] at hc
          refine ⟨c, by simpa using hc, ?_⟩
          have hnil : rest.filterMap g = [] := by
            rw [List.filterMap_eq_nil_iff]
            intro x hx
            obtain ⟨j, hj, rfl⟩ := List.getElem_of_mem hx
            have := (htail j hj).not.2 (by omega)
            simpa using this
          simp [List.filterMap_cons, hc, hnil]
      | succ k =>
          have hk' : k < rest.length := by simpa using hk
          have h0 : g a = none := by
            have := (h 0 (by simp)).not.2 (by omega)
            simpa using this
          obtain ⟨c, hc, hf⟩ := ih k hk' (fun j hj => by
            rw [htail j hj]; omega)
          exact ⟨c, by simpa using hc, by simp [List.filterMap_cons, h0, hf]⟩

/-- C13: for every sequence of selected files whose sizes add up to at most 104857600
bytes, the requests `uploadFiles` issues are those of the turn of each file, in the
order of the files, whether or not earlier turns failed; at the end `successCount +
errorCount` is the number of files and `errors` holds one entry for every file that
failed, in the order of the files, each with the name of its file; so when the file at
position `k` is the only one that fails, `successCount` is the number of files minus
one, `errorCount` is one and `errors` is the one entry with the name of that file. -/
theorem upload_counts (commitMessage : String) (files : List (SelectedFile × Answers))
    (s : State) (hsize : selectionSize files ≤ 104857600) :
    (uploadFiles commitMessage files s).progress.calls =
      files.flatMap (attemptCalls s commitMessage) ∧
    (uploadFiles commitMessage files s).progress.successCount +
      (uploadFiles commitMessage files s).progress.errorCount = files.length ∧
    (uploadFiles commitMessage files s).progress.errorCount =
      (uploadFiles commitMessage files s).progress.errors.length ∧
    (uploadFiles commitMessage files s).progress.errors.map Prod.fst =
      ((files.filter (attemptFails s commitMessage)).map (fun fa => fa.1.name)) ∧
    (∀ k (hk : k < files.length),
      (∀ i (hi : i < files.length), attemptFails s commitMessage files[i] = true ↔ i = k) →
      (uploadFiles commitMessage files s).progress.successCount = files.length - 1 ∧
      (uploadFiles commitMessage files s).progress.errorCount = 1 ∧
      ∃ cause, (uploadFiles commitMessage files s).progress.errors =
        [(files[k].1.name, cause)]) := by
  rw [uploadFiles_progress commitMessage files s hsize]
  obtain ⟨h1, h2, h3, h4⟩ := uploadLoop_fields s commitMessage files
  refine ⟨h1, h4, by rw [h3, h2], ?_, ?_⟩
  · rw [h2]
    clear h1 h2 h3 h4 hsize
    induction files with
    | nil => rfl
    | cons fa rest ih =>
        rw [List.filterMap_cons, List.filter_cons, ← attemptError_isSome]
        cases h : attemptError s commitMessage fa with
        | none => simpa using ih
        | some e => simp [ih, attemptError_name s commitMessage fa e h]
  · intro k hk hfail
    obtain ⟨c, hc, hf⟩ := filterMap_single (attemptError s commitMessage) files k hk
      (fun i hi => by rw [attemptError_isSome]; exact hfail i hi)
    rw [hf] at h2 h3
    have hname := attemptError_name s commitMessage files[k] c hc
    simp only [List.length_singleton] at h3
    refine ⟨by omega, h3, c.2, ?_⟩
    rw [h2, ← hname]

set_option maxRecDepth 100000 in
/-- Of three files the second is refused: the other two are uploaded, all six requests
are issued, and the one entry of `errors` is for `b.txt`. -/
theorem upload_counts_witness :
    (uploadFiles "Upload files" sampleBatch selectedState).progress.calls.length = 6 ∧
    (uploadFiles "Upload files" sampleBatch selectedState).progress.successCount = 2 ∧
    (uploadFiles "Upload files" sampleBatch selectedState).progress.errorCount = 1 ∧
    (uploadFiles "Upload files" sampleBatch selectedState).progress.errors =
      [("b.txt", .remote (.str "Validation Failed"))] ∧
    ∃ cause, (uploadFiles "Upload files" sampleBatch selectedState).progress.errors =
      [("b.txt", cause)] :=
  ⟨by decide, by decide, by decide, by decide,
   ((upload_counts "Upload files" sampleBatch selectedState (by decide)).2.2.2.2 1
      (by decide) (by decide)).2.2⟩

theorem confirmRename_of_valid (it : Item) (name commitMessage : String)
    (r1 r2 r3 : FetchResult) (s : State) (source : Request)
    (hname : AcceptableName name) (hs : apiRequest s it.path = .ok source) :
    confirmRename (some it) name commitMessage r1 r2 r3 s =
      match r1 with
      | .rejected => .caught [{ method := .get, request := source, body := [] }]
          (.thrown .typeError)
      | .responded status body =>
          if !statusOk status then
            .caught [{ method := .get, request := source, body := [] }]
              (errorFrom "Failed to fetch item" body)
          else
            match body with
            | none => .caught [{ method := .get, request := source, body := [] }]
                (.thrown .syntaxError)
            | some data =>
                if data == .null then
                  .caught ((renameCalls source it (pathIn (parentOf it.path) (jsTrim name))
                    commitMessage data).take 1) (.thrown .typeError)
                else
                  match failureOf "Failed to create new file" r2 with
                  | some cause =>
                      .caught ((renameCalls source it (pathIn (parentOf it.path) (jsTrim name))
                        commitMessage data).take 2) cause
                  | none =>
                      match failureOf "Failed to delete old file" r3 with
                      | some cause =>
                          .caught (renameCalls source it (pathIn (parentOf it.path) (jsTrim name))
                            commitMessage data) cause
                      | none =>
                          .done (renameCalls source it (pathIn (parentOf it.path) (jsTrim name))
                            commitMessage data) "Renamed successfully" := by
  obtain ⟨h1, h2⟩ := (validated_iff name).2 hname
  simp only [confirmRename, h1, h2, hs, Bool.false_eq_true, if_false, Bool.not_true]

theorem lookup_properties_message (m : JValue) (rest : List (String × Option JValue)) :
    (properties (("message", some m) :: rest)).lookup "sha" = (properties rest).lookup "sha" := by
  simp [properties, List.filterMap_cons, List.lookup]

/-- C15: for an accepted name and a usable `currentRepo`, the requests of `confirmRename`
are, in order, a read of the source, a `PUT` at the new path whose body has no `sha`,
and a `DELETE` of the source whose body has the sha stored for the item; when the read
fails (the request is rejected, the response is not `ok`, or its body cannot be read) only
the read is issued, when the `PUT` fails only the read and the `PUT` are
issued, and when the `PUT` succeeds and the `DELETE` fails the three requests are all
that is issued: the error is shown, no request undoes the `PUT`, and the listing is
not loaded again. -/
theorem rename_steps (it : Item) (name commitMessage : String) (r1 r2 r3 : FetchResult)
    (s : State) (source : Request) (status : Nat) (data : JValue)
    (hname : AcceptableName name) (hs : apiRequest s it.path = .ok source) :
    (∃ read create delete : ApiCall,
      renameCalls source it (pathIn (parentOf it.path) (jsTrim name)) commitMessage data =
        [read, create, delete] ∧
      (read.method = .get ∧ read.request.path = it.path) ∧
      (create.method = .put ∧ create.request.path = pathIn (parentOf it.path) (jsTrim name) ∧
        create.body.lookup "sha" = none ∧ create.body.lookup "content" = data.field "content") ∧
      (delete.method = .delete ∧ delete.request.path = it.path ∧
        delete.body.lookup "sha" = it.sha.map JValue.str) ∧
      (∀ cause, failureOf "Failed to fetch item" r1 = some cause →
        confirmRename (some it) name commitMessage r1 r2 r3 s = .caught [read] cause) ∧
      (r1 = .responded status none → statusOk status = true →
        confirmRename (some it) name commitMessage r1 r2 r3 s =
          .caught [read] (.thrown .syntaxError)) ∧
      (r1 = .responded status (some .null) → statusOk status = true →
        confirmRename (some it) name commitMessage r1 r2 r3 s =
          .caught [read] (.thrown .typeError)) ∧
      (r1 = .responded status (some data) → statusOk status = true → data ≠ .null →
        (∀ cause, failureOf "Failed to create new file" r2 = some cause →
          confirmRename (some it) name commitMessage r1 r2 r3 s =
            .caught [read, create] cause) ∧
        (failureOf "Failed to create new file" r2 = none →
          (∀ cause, failureOf "Failed to delete old file" r3 = some cause →
            confirmRename (some it) name commitMessage r1 r2 r3 s =
              .caught [read, create, delete] cause) ∧
          (failureOf "Failed to delete old file" r3 = none →
            confirmRename (some it) name commitMessage r1 r2 r3 s =
              .done [read, create, delete] "Renamed successfully")))) := by
  have hpath : source.path = it.path := by
    unfold apiRequest at hs
    split at hs
    · cases hs
    · split at hs
      · cases hs
      · injection hs with hs
        rw [← hs]
  rw [confirmRename_of_valid it name commitMessage r1 r2 r3 s source hname hs]
  refine ⟨_, _, _, rfl, ⟨rfl, hpath⟩, ⟨rfl, rfl, ?_, ?_⟩, ⟨rfl, hpath, ?_⟩, ?_, ?_, ?_, ?_⟩
  · cases hc : data.field "content" <;> simp [properties, List.lookup]
  · cases hc : data.field "content" <;> simp [properties, List.lookup]
  · cases hc : it.sha <;> simp [properties, List.lookup]
  · intro cause hcause
    cases r1 with
    | rejected =>
        simp only [failureOf, Option.some.injEq] at hcause
        rw [← hcause]
    | responded st body =>
        simp only [failureOf] at hcause
        by_cases hok : statusOk st = true
        · simp [hok] at hcause
        · simp only [hok, if_false, Option.some.injEq, Bool.false_eq_true] at hcause
          simp [hok, hcause]
  · intro hr1 hok
    subst hr1
    simp [hok]
  · intro hr1 hok
    subst hr1
    simp [hok]
    rfl
  · intro hr1 hok hdata
    subst hr1
    have hnull : (data == JValue.null) = false := by simpa using hdata
    simp only [hok, hnull, Bool.not_true, Bool.false_eq_true, if_false]
    refine ⟨fun cause h2 => ?_, fun h2 => ⟨fun cause h3 => ?_, fun h3 => ?_⟩⟩
    · rw [h2]; rfl
    · rw [h2, h3]; rfl
    · rw [h2, h3]; rfl

set_option maxRecDepth 100000 in
/-- The file `docs/a.txt` is renamed to `b.txt`; the copy is created and the `DELETE` is
refused: the three requests are issued, the error of the server is shown and the
listing is not loaded again. -/
theorem rename_steps_witness :
    confirmRename (some sampleItem) " b.txt" "Rename a.txt" fileRead created conflict
        selectedState =
      .caught
        [{ method := .get, request := requestAt "docs/a.txt", body := [] },
         { method := .put, request := requestAt "docs/b.txt",
           body := [("message", .str "Rename a.txt"), ("content", .str "aGk=")] },
         { method := .delete, request := requestAt "docs/a.txt",
           body := [("message", .str "Delete a.txt"), ("sha", .str "3b18e5")] }]
        (.remote (.str "docs/a.txt does not match 3b18e5")) := by
  obtain ⟨read, create, delete, hcalls, -, -, -, -, -, -, h⟩ :=
    rename_steps sampleItem " b.txt" "Rename a.txt" fileRead created conflict selectedState
      (requestAt "docs/a.txt") 200
      (.obj [("name", .str "a.txt"), ("path", .str "docs/a.txt"), ("sha", .str "3b18e5"),
        ("content", .str "aGk=")])
      ((validated_iff " b.txt").1 ⟨by decide, by decide⟩) (by decide)
  have h3 := ((h rfl (by decide) (by decide)).2 (by decide)).1
    (.remote (.str "docs/a.txt does not match 3b18e5")) (by decide)
  rw [h3]
  have hc : [read, create, delete] = _ := hcalls.symm
  rw [hc]
  decide

/-! ## The payload of a file -/

theorem hexValue_hexDigit (n : Nat) (h : n < 16) : hexValue (hexDigit n) = some n := by
  interval_cases n <;> rfl

theorem hexDigit_ne_u (n : Nat) (h : n < 16) : hexDigit n ≠ 117 := by
  interval_cases n <;> decide

theorem hexByte_hexDigit (b : Nat) (h : b < 256) :
    hexByte (hexDigit (b / 16)) (hexDigit (b % 16)) = some b := by
  unfold hexByte
  rw [hexValue_hexDigit _ (by omega), hexValue_hexDigit _ (by omega)]
  simp only [Option.some.injEq]
  omega

theorem unescapeAux_skip (pre rest : List Nat) :
    unescapeAux pre.length (pre ++ rest) = unescapeAux 0 rest := by
  induction pre with
  | nil => rfl
  | cons a pre ih => simpa [unescapeAux] using ih

theorem escapeAt_hex (b : Nat) (h : b < 256) (rest : List Nat) :
    escapeAt (hexDigit (b / 16) :: hexDigit (b % 16) :: rest) = some (b, 2) := by
  have hu := hexDigit_ne_u (b / 16) (by omega)
  have hb := hexByte_hexDigit b h
  unfold escapeAt
  split
  · rename_i x a b1 c d t heq
    injection heq with e1 e2
    injection e2 with e2 e3
    subst e1 e2
    simp [hu, hb]
  · rename_i x a t hno heq
    injection heq with e1 e2
    injection e2 with e2 e3
    subst e1 e2
    simp [hb]
  · rename_i h1 h2
    exact absurd rfl (h2 _ _ _)

theorem unescape_percentEncode (b : Nat) (h : b < 256) (rest : List Nat) :
    unescapeAux 0 (percentEncode b ++ rest) = b :: unescapeAux 0 rest := by
  have hskip := unescapeAux_skip [hexDigit (b / 16), hexDigit (b % 16)] rest
  show unescapeAux 0 (37 :: hexDigit (b / 16) :: hexDigit (b % 16) :: rest) = _
  rw [unescapeAux]
  simp only [if_true, escapeAt_hex b h rest]
  exact congrArg _ hskip

theorem unescape_flatMap (bs : List Nat) (h : ∀ b ∈ bs, b < 256) (rest : List Nat) :
    unescapeAux 0 (bs.flatMap percentEncode ++ rest) = bs ++ unescapeAux 0 rest := by
  induction bs with
  | nil => rfl
  | cons b bs ih =>
      rw [List.flatMap_cons, List.append_assoc,
        unescape_percentEncode b (h b (by simp)), ih (fun x hx => h x (by simp [hx]))]
      rfl

theorem utf8Octets_lt (cp : Nat) (h : cp < 0x110000) : ∀ b ∈ utf8Octets cp, b < 256 := by
  intro b hb
  unfold utf8Octets at hb
  split_ifs at hb <;> simp at hb <;> omega

theorem unescape_cons_plain (u : Nat) (e : List Nat) (h : u ≠ 37) :
    unescape (u :: e) = u :: unescape e := by
  unfold unescape
  rw [unescapeAux]
  simp [h]

theorem unescape_encodeCodePoint (cp : Nat) (h : cp < 0x110000) (e : List Nat) :
    unescape (encodeCodePoint cp ++ e) = utf8Octets cp ++ unescape e :=
  unescape_flatMap (utf8Octets cp) (utf8Octets_lt cp h) e

theorem unreserved_facts (u : Nat) (h : isUriUnreserved u = true) :
    u < 128 ∧ u ≠ 37 ∧ isTrailSurrogate u = false ∧ isLeadSurrogate u = false := by
  simp only [isUriUnreserved, isAlnum, Bool.or_eq_true, Bool.and_eq_true, decide_eq_true_eq,
    beq_iff_eq] at h
  simp only [isTrailSurrogate, isLeadSurrogate, Bool.and_eq_false_imp, decide_eq_true_eq,
    decide_eq_false_iff_not]
  omega

theorem utf8_cons (cp : Nat) (cps : List Nat) : utf8 (cp :: cps) = utf8Octets cp ++ utf8 cps := by
  simp [utf8, List.flatMap_cons]

theorem pairCodePoint_lt (u v : Nat) (hu : isLeadSurrogate u = true)
    (hv : isTrailSurrogate v = true) :
    0x10000 ≤ pairCodePoint u v ∧ pairCodePoint u v < 0x110000 := by
  simp only [isLeadSurrogate, isTrailSurrogate, Bool.and_eq_true, decide_eq_true_eq] at hu hv
  unfold pairCodePoint
  omega

theorem map_encode_step (a b : Option (List Nat)) (pre : List Nat) (cp : Nat)
    (hab : a.map unescape = b.map utf8)
    (h : ∀ e, unescape (pre ++ e) = utf8Octets cp ++ unescape e) :
    (a.map (fun e => pre ++ e)).map unescape = (b.map (fun c => cp :: c)).map utf8 := by
  cases a <;> cases b <;> simp at hab ⊢
  rw [h, utf8_cons, hab]

theorem encode_step (u : Nat) (rest : List Nat) (hu : u < 65536)
    (ht : isTrailSurrogate u = false) (hl : isLeadSurrogate u = false)
    (ih : (encodeURIComponent rest).map unescape = (codePoints rest).map utf8) :
    (encodeURIComponent (u :: rest)).map unescape = (codePoints (u :: rest)).map utf8 := by
  have hcp : codePoints (u :: rest) = (codePoints rest).map (fun c => u :: c) := by
    cases rest <;> simp [codePoints, ht, hl]
  rw [hcp]
  by_cases hun : isUriUnreserved u = true
  · obtain ⟨h128, h37, -, -⟩ := unreserved_facts u hun
    have henc : encodeURIComponent (u :: rest) =
        (encodeURIComponent rest).map (fun e => [u] ++ e) := by
      cases rest <;> simp [encodeURIComponent, hun]
    rw [henc]
    refine map_encode_step _ _ [u] u ih (fun e => ?_)
    have hoct : utf8Octets u = [u] := by simp [utf8Octets, show u < 0x80 by omega]
    rw [hoct]
    exact unescape_cons_plain u e h37
  · have henc : encodeURIComponent (u :: rest) =
        (encodeURIComponent rest).map (fun e => encodeCodePoint u ++ e) := by
      cases rest <;> simp [encodeURIComponent, hun, ht, hl]
    rw [henc]
    exact map_encode_step _ _ _ u ih (fun e => unescape_encodeCodePoint u (by omega) e)

theorem unescape_encodeURIComponent :
    ∀ (n : Nat) (content : List Nat), content.length ≤ n → (∀ u ∈ content, u < 65536) →
      (encodeURIComponent content).map unescape = (codePoints content).map utf8 := by
  intro n
  induction n with
  | zero =>
      intro content hlen _
      have : content = [] := List.length_eq_zero.1 (by omega)
      subst this
      rfl
  | succ n ih =>
      intro content hlen hunits
      cases content with
      | nil => rfl
      | cons u rest =>
          have hrest : ∀ x ∈ rest, x < 65536 := fun x hx => hunits x (by simp [hx])
          have hu : u < 65536 := hunits u (by simp)
          have ihrest := ih rest (by simpa using hlen) hrest
          cases ht : isTrailSurrogate u
          · cases hl : isLeadSurrogate u
            · exact encode_step u rest hu ht hl ihrest
            · have hun : isUriUnreserved u = false := by
                cases hun : isUriUnreserved u
                · rfl
                · have := (unreserved_facts u hun).2.2.2
                  rw [hl] at this
                  cases this
              cases rest with
              | nil => simp [encodeURIComponent, codePoints, hun, ht, hl]
              | cons v rest' =>
                  cases hv : isTrailSurrogate v
                  · simp [encodeURIComponent, codePoints, hun, ht, hl, hv]
                  · have ih2 := ih rest' (by simp at hlen; omega)
                      (fun x hx => hunits x (by simp [hx]))
                    have hp := pairCodePoint_lt u v hl hv
                    have henc : encodeURIComponent (u :: v :: rest') =
                        (encodeURIComponent rest').map
                          (fun e => encodeCodePoint (pairCodePoint u v) ++ e) := by
                      simp [encodeURIComponent, hun, ht, hl, hv]
                    have hcp : codePoints (u :: v :: rest') =
                        (codePoints rest').map (fun c => pairCodePoint u v :: c) := by
                      simp [codePoints, ht, hl, hv]
                    rw [henc, hcp]
                    exact map_encode_step _ _ _ _ ih2
                      (fun e => unescape_encodeCodePoint _ hp.2 e)
          · have hun : isUriUnreserved u = false := by
              cases hun : isUriUnreserved u
              · rfl
              · have := (unreserved_facts u hun).2.2.1
                rw [ht] at this
                cases this
            cases rest <;> simp [encodeURIComponent, codePoints, hun, ht]

theorem b64Value_b64Char (n : Nat) (h : n < 64) : b64Value (b64Char n) = some n := by
  interval_cases n <;> rfl

theorem b64Char_ne_pad (n : Nat) (h : n < 64) : b64Char n ≠ 61 := by
  interval_cases n <;> decide

theorem b64Char_not_whitespace (n : Nat) (h : n < 64) :
    isAsciiWhitespace (b64Char n) = false := by
  interval_cases n <;> rfl

theorem stripPadding_append (body pad : List Nat) (hlen : (body ++ pad).length % 4 = 0)
    (hbody : ∀ c ∈ body, c ≠ 61) (hpad : pad = [] ∨ pad = [61] ∨ pad = [61, 61]) :
    stripPadding (body ++ pad) = body := by
  unfold stripPadding
  rw [if_pos hlen]
  rcases List.eq_nil_or_concat body with rfl | ⟨L, c, rfl⟩
  · rcases hpad with rfl | rfl | rfl <;> rfl
  · rw [List.concat_eq_append] at hbody ⊢
    have hc : c ≠ 61 := hbody c (by simp)
    rcases hpad with rfl | rfl | rfl
    · simp only [List.append_nil, List.reverse_append, List.reverse_cons, List.reverse_nil,
        List.nil_append, List.singleton_append]
      split
      · rename_i heq; injection heq with e1 e2; exact absurd e1 hc
      · rename_i heq; injection heq with e1 e2; exact absurd e1 hc
      · rfl
    · simp only [List.reverse_append, List.reverse_cons, List.reverse_nil,
        List.nil_append, List.singleton_append, List.cons_append]
      split
      · rename_i heq
        injection heq with e1 e2
        injection e2 with e2 e3
        exact absurd e2 hc
      · rename_i heq
        injection heq with e1 e2
        rw [← e2]
        simp
      · rename_i h1 h2
        exact absurd rfl (h2 _)
    · simp

theorem b64Values_append (a b va vb : List Nat) (ha : b64Values a = some va)
    (hb : b64Values b = some vb) : b64Values (a ++ b) = some (va ++ vb) := by
  induction a generalizing va with
  | nil =>
      simp only [b64Values, Option.some.injEq] at ha
      subst ha
      simpa using hb
  | cons c a ih =>
      rw [List.cons_append, b64Values]
      rw [b64Values] at ha
      cases hc : b64Value c with
      | none => simp [hc] at ha
      | some v =>
          cases hr : b64Values a with
          | none => simp [hc, hr] at ha
          | some vs =>
              simp only [hc, hr, Option.some.injEq] at ha
              subst ha
              simp [ih vs hr]

theorem b64Values_chars (l : List Nat) (h : ∀ n ∈ l, n < 64) :
    b64Values (l.map b64Char) = some l := by
  induction l with
  | nil => rfl
  | cons n l ih =>
      rw [List.map_cons, b64Values, b64Value_b64Char n (h n (by simp)),
        ih (fun x hx => h x (by simp [hx]))]

theorem base64Encode_shape :
    ∀ (n : Nat) (bs : List Nat), bs.length ≤ n → (∀ b ∈ bs, b < 256) →
      ∃ sx pad : List Nat,
        base64Encode bs = sx.map b64Char ++ pad ∧
        (pad = [] ∨ pad = [61] ∨ pad = [61, 61]) ∧
        (sx.length + pad.length) % 4 = 0 ∧ sx.length % 4 ≠ 1 ∧
        (∀ v ∈ sx, v < 64) ∧ sextetsToOctets sx = bs := by
  intro n
  induction n using Nat.strong_induction_on with
  | _ n ih =>
      intro bs hlen hbs
      match bs, hlen, hbs with
      | [], _, _ => exact ⟨[], [], rfl, Or.inl rfl, rfl, by simp, by simp, rfl⟩
      | [x], _, hbs =>
          have hx : x < 256 := hbs x (by simp)
          refine ⟨[x / 4, x % 4 * 16], [61, 61], rfl, Or.inr (Or.inr rfl), by simp, by simp, ?_, ?_⟩
          · intro v hv
            simp at hv
            omega
          · simp only [sextetsToOctets, List.cons.injEq, and_true]
            omega
      | [x, y], _, hbs =>
          have hx : x < 256 := hbs x (by simp)
          have hy : y < 256 := hbs y (by simp)
          refine ⟨[x / 4, x % 4 * 16 + y / 16, y % 16 * 4], [61], rfl, Or.inr (Or.inl rfl),
            by simp, by simp, ?_, ?_⟩
          · intro v hv
            simp at hv
            omega
          · simp only [sextetsToOctets, List.cons.injEq, and_true]
            omega
      | x :: y :: z :: rest, hlen, hbs =>
          have hx : x < 256 := hbs x (by simp)
          have hy : y < 256 := hbs y (by simp)
          have hz : z < 256 := hbs z (by simp)
          obtain ⟨sx, pad, h1, h2, h3, h4, h5, h6⟩ :=
            ih rest.length (by simp at hlen; omega) rest (le_refl _)
              (fun b hb => hbs b (by simp [hb]))
          refine ⟨x / 4 :: (x % 4 * 16 + y / 16) :: (y % 16 * 4 + z / 64) :: z % 64 :: sx, pad,
            ?_, h2, ?_, ?_, ?_, ?_⟩
          · rw [base64Encode, h1]
            rfl
          · simp only [List.length_cons]
            omega
          · simp only [List.length_cons]
            omega
          · intro v hv
            simp only [List.mem_cons] at hv
            rcases hv with rfl | rfl | rfl | rfl | hv
            · omega
            · omega
            · omega
            · omega
            · exact h5 v hv
          · rw [sextetsToOctets, h6]
            simp only [List.cons.injEq, and_true]
            omega

theorem atob_base64Encode (bs : List Nat) (h : ∀ b ∈ bs, b < 256) :
    atob (base64Encode bs) = some bs := by
  obtain ⟨sx, pad, h1, h2, h3, h4, h5, h6⟩ := base64Encode_shape bs.length bs (le_refl _) h
  have hbody : ∀ c ∈ sx.map b64Char, c ≠ 61 ∧ isAsciiWhitespace c = false := by
    intro c hc
    obtain ⟨v, hv, rfl⟩ := List.mem_map.1 hc
    exact ⟨b64Char_ne_pad v (h5 v hv), b64Char_not_whitespace v (h5 v hv)⟩
  have hpad : ∀ c ∈ pad, isAsciiWhitespace c = false := by
    intro c hc
    rcases h2 with rfl | rfl | rfl
    · simp at hc
    · simp at hc; subst hc; rfl
    · simp at hc; subst hc; rfl
  have hfilter : (sx.map b64Char ++ pad).filter (fun u => !isAsciiWhitespace u) =
      sx.map b64Char ++ pad := by
    rw [List.filter_eq_self]
    intro c hc
    rcases List.mem_append.1 hc with hc | hc
    · simp [(hbody c hc).2]
    · simp [hpad c hc]
  have hstrip := stripPadding_append (sx.map b64Char) pad
    (by simpa using h3) (fun c hc => (hbody c hc).1) h2
  unfold atob
  simp only [h1, hfilter, hstrip, List.length_map, h4, if_false, b64Values_chars sx h5,
    Option.map_some', h6]

theorem decodeAux_skip (pre rest : List Nat) :
    decodeAux pre.length (pre ++ rest) = decodeAux 0 rest := by
  induction pre with
  | nil => rfl
  | cons a pre ih => simpa [decodeAux] using ih

theorem escape_append (a b : List Nat) : escape (a ++ b) = escape a ++ escape b := by
  simp [escape, List.flatMap_append]

theorem escape_cons (b : Nat) (bs : List Nat) : escape (b :: bs) = escapeUnit b ++ escape bs := by
  simp [escape, List.flatMap_cons]

theorem escapeUnit_high (b : Nat) (h1 : 0x80 ≤ b) (h2 : b < 256) :
    escapeUnit b = percentEncode b := by
  have hs : isEscapeSafe b = false := by
    simp only [isEscapeSafe, isAlnum, Bool.or_eq_false_iff, Bool.and_eq_false_imp,
      decide_eq_true_eq, decide_eq_false_iff_not, beq_eq_false_iff_ne]
    omega
  simp [escapeUnit, hs, h2]

theorem escape_high (bs : List Nat) (h : ∀ b ∈ bs, 0x80 ≤ b ∧ b < 256) :
    escape bs = bs.flatMap percentEncode := by
  induction bs with
  | nil => rfl
  | cons b bs ih =>
      rw [escape_cons, escapeUnit_high b (h b (by simp)).1 (h b (by simp)).2,
        ih (fun x hx => h x (by simp [hx])), List.flatMap_cons]

theorem readEscapes_flatMap (bs : List Nat) (h : ∀ b ∈ bs, b < 256) (rest : List Nat) :
    readEscapes bs.length (bs.flatMap percentEncode ++ rest) = some bs := by
  induction bs with
  | nil => rfl
  | cons b bs ih =>
      show readEscapes (bs.length + 1)
        (37 :: hexDigit (b / 16) :: hexDigit (b % 16) :: (bs.flatMap percentEncode ++ rest)) = _
      rw [readEscapes]
      simp [hexByte_hexDigit b (h b (by simp)), ih (fun x hx => h x (by simp [hx]))]

theorem length_flatMap_percentEncode (bs : List Nat) :
    (bs.flatMap percentEncode).length = 3 * bs.length := by
  induction bs with
  | nil => rfl
  | cons b bs ih =>
      rw [List.flatMap_cons, List.length_append, ih]
      simp [percentEncode]
      omega

theorem decode_multibyte (cp b1 : Nat) (others rest : List Nat)
    (hb1 : 0x80 ≤ b1 ∧ b1 < 256) (hothers : ∀ b ∈ others, 0x80 ≤ b ∧ b < 256)
    (hseq : sequenceLength b1 = some (others.length + 1))
    (hcp : utf8CodePoint (b1 :: others) = some cp) :
    decodeAux 0 (escape (b1 :: others) ++ rest) =
      (decodeAux 0 rest).map (fun r => utf16Units cp ++ r) := by
  have hall : ∀ b ∈ b1 :: others, 0x80 ≤ b ∧ b < 256 := by
    intro b hb
    rcases List.mem_cons.1 hb with rfl | hb
    · exact hb1
    · exact hothers b hb
  rw [escape_high _ hall, List.flatMap_cons, List.append_assoc]
  show decodeAux 0 (37 :: hexDigit (b1 / 16) :: hexDigit (b1 % 16) ::
    (others.flatMap percentEncode ++ rest)) = _
  rw [decodeAux]
  have hat : decodeAt (hexDigit (b1 / 16) :: hexDigit (b1 % 16) ::
      (others.flatMap percentEncode ++ rest)) =
      some (utf16Units cp, 2 + 3 * others.length) := by
    unfold decodeAt
    simp only [hexByte_hexDigit b1 hb1.2, show ¬ b1 < 0x80 by omega, if_false, hseq,
      Nat.add_sub_cancel, readEscapes_flatMap others (fun b hb => (hothers b hb).2) rest,
      hcp, Option.map_some']
  simp only [if_true, hat]
  have hskip := decodeAux_skip
    (hexDigit (b1 / 16) :: hexDigit (b1 % 16) :: others.flatMap percentEncode) rest
  simp only [List.length_cons, length_flatMap_percentEncode, List.cons_append] at hskip
  rw [show 2 + 3 * others.length = 3 * others.length + 1 + 1 by omega, hskip]

theorem decode_ascii (cp : Nat) (h : cp < 0x80) (rest : List Nat) :
    decodeAux 0 (escapeUnit cp ++ rest) = (decodeAux 0 rest).map (fun r => cp :: r) := by
  unfold escapeUnit
  by_cases hs : isEscapeSafe cp = true
  · have h37 : cp ≠ 37 := by
      simp only [isEscapeSafe, isAlnum, Bool.or_eq_true, Bool.and_eq_true, decide_eq_true_eq,
        beq_iff_eq] at hs
      omega
    simp only [hs, if_true, List.singleton_append]
    rw [decodeAux]
    simp [h37]
  · simp only [hs, if_false, show cp < 256 by omega, if_true, Bool.false_eq_true]
    show decodeAux 0 (37 :: hexDigit (cp / 16) :: hexDigit (cp % 16) :: rest) = _
    rw [decodeAux]
    have hat : decodeAt (hexDigit (cp / 16) :: hexDigit (cp % 16) :: rest) = some ([cp], 2) := by
      unfold decodeAt
      simp [hexByte_hexDigit cp (by omega), h]
    simp only [if_true, hat]
    have hskip := decodeAux_skip [hexDigit (cp / 16), hexDigit (cp % 16)] rest
    simp only [List.length_cons, List.length_nil, List.cons_append, List.nil_append] at hskip
    rw [hskip]
    rfl

theorem decode_codePoint (cp : Nat) (h : cp < 0x110000) (hs : ¬ (0xD800 ≤ cp ∧ cp ≤ 0xDFFF))
    (rest : List Nat) :
    decodeAux 0 (escape (utf8Octets cp) ++ rest) =
      (decodeAux 0 rest).map (fun r => utf16Units cp ++ r) := by
  by_cases h1 : cp < 0x80
  · have hu : utf16Units cp = [cp] := by simp [utf16Units, show cp < 0x10000 by omega]
    have ho : utf8Octets cp = [cp] := by simp [utf8Octets, h1]
    rw [ho, hu, escape_cons]
    simpa [escape] using decode_ascii cp h1 rest
  · by_cases h2 : cp < 0x800
    · have ho : utf8Octets cp = [0xC0 + cp / 0x40, 0x80 + cp % 0x40] := by
        simp [utf8Octets, h1, h2]
      rw [ho]
      refine decode_multibyte cp _ _ rest (by omega) ?_ ?_ ?_
      · intro b hb
        simp at hb
        omega
      · simp [sequenceLength]
        omega
      · simp only [utf8CodePoint, isContinuation, Bool.and_eq_true, decide_eq_true_eq]
        rw [if_pos (by omega)]
        simp only [Option.some.injEq]
        omega
    · by_cases h3 : cp < 0x10000
      · have ho : utf8Octets cp =
            [0xE0 + cp / 0x1000, 0x80 + cp / 0x40 % 0x40, 0x80 + cp % 0x40] := by
          simp [utf8Octets, h1, h2, h3]
        rw [ho]
        refine decode_multibyte cp _ _ rest (by omega) ?_ ?_ ?_
        · intro b hb
          simp at hb
          omega
        · simp [sequenceLength]
          omega
        · simp only [utf8CodePoint, isContinuation, Bool.and_eq_true, decide_eq_true_eq,
            Bool.not_eq_true', Bool.and_eq_false_imp, decide_eq_false_iff_not]
          rw [if_pos (by omega)]
          simp only [Option.some.injEq]
          omega
      · have ho : utf8Octets cp =
            [0xF0 + cp / 0x40000, 0x80 + cp / 0x1000 % 0x40, 0x80 + cp / 0x40 % 0x40,
             0x80 + cp % 0x40] := by
          simp [utf8Octets, h1, h2, h3]
        rw [ho]
        refine decode_multibyte cp _ _ rest (by omega) ?_ ?_ ?_
        · intro b hb
          simp at hb
          omega
        · unfold sequenceLength
          rw [if_neg (by omega), if_neg (by omega), if_neg (by omega), if_pos (by omega)]
          rfl
        · simp only [utf8CodePoint, isContinuation, Bool.and_eq_true, decide_eq_true_eq]
          rw [if_pos (by omega)]
          simp only [Option.some.injEq]
          omega

theorem decode_utf8 (cps : List Nat)
    (h : ∀ cp ∈ cps, cp < 0x110000 ∧ ¬ (0xD800 ≤ cp ∧ cp ≤ 0xDFFF)) :
    decodeURIComponent (escape (utf8 cps)) = some (cps.flatMap utf16Units) := by
  unfold decodeURIComponent
  induction cps with
  | nil => rfl
  | cons cp cps ih =>
      rw [utf8_cons, escape_append,
        decode_codePoint cp (h cp (by simp)).1 (h cp (by simp)).2,
        ih (fun x hx => h x (by simp [hx]))]
      simp [List.flatMap_cons]

theorem codePoints_sound :
    ∀ (n : Nat) (content cps : List Nat), content.length ≤ n → (∀ u ∈ content, u < 65536) →
      codePoints content = some cps →
      (∀ cp ∈ cps, cp < 0x110000 ∧ ¬ (0xD800 ≤ cp ∧ cp ≤ 0xDFFF)) ∧
        cps.flatMap utf16Units = content := by
  intro n
  induction n with
  | zero =>
      intro content cps hlen _ h
      have : content = [] := List.length_eq_zero.1 (by omega)
      subst this
      simp only [codePoints, Option.some.injEq] at h
      subst h
      simp
  | succ n ih =>
      intro content cps hlen hunits h
      cases content with
      | nil =>
          simp only [codePoints, Option.some.injEq] at h
          subst h
          simp
      | cons u rest =>
          have hu : u < 65536 := hunits u (by simp)
          cases ht : isTrailSurrogate u
          · cases hl : isLeadSurrogate u
            · have hcp : codePoints (u :: rest) = (codePoints rest).map (fun c => u :: c) := by
                cases rest <;> simp [codePoints, ht, hl]
              rw [hcp] at h
              cases hr : codePoints rest with
              | none => simp [hr] at h
              | some c =>
                  simp only [hr, Option.map_some', Option.some.injEq] at h
                  subst h
                  obtain ⟨i1, i2⟩ := ih rest c (by simpa using hlen)
                    (fun x hx => hunits x (by simp [hx])) hr
                  simp only [isTrailSurrogate, isLeadSurrogate, Bool.and_eq_false_imp,
                    decide_eq_true_eq, decide_eq_false_iff_not] at ht hl
                  refine ⟨?_, ?_⟩
                  · intro cp hcp
                    rcases List.mem_cons.1 hcp with rfl | hcp
                    · omega
                    · exact i1 cp hcp
                  · rw [List.flatMap_cons, i2]
                    simp [utf16Units, hu]
            · cases rest with
              | nil => simp [codePoints, ht, hl] at h
              | cons v rest' =>
                  cases hv : isTrailSurrogate v
                  · simp [codePoints, ht, hl, hv] at h
                  · have hcp : codePoints (u :: v :: rest') =
                        (codePoints rest').map (fun c => pairCodePoint u v :: c) := by
                      simp [codePoints, ht, hl, hv]
                    rw [hcp] at h
                    cases hr : codePoints rest' with
                    | none => simp [hr] at h
                    | some c =>
                        simp only [hr, Option.map_some', Option.some.injEq] at h
                        subst h
                        obtain ⟨i1, i2⟩ := ih rest' c (by simp at hlen; omega)
                          (fun x hx => hunits x (by simp [hx])) hr
                        have hp := pairCodePoint_lt u v hl hv
                        refine ⟨?_, ?_⟩
                        · intro cp hcp
                          rcases List.mem_cons.1 hcp with hcp | hcp
                          · rw [hcp]
                            omega
                          · exact i1 cp hcp
                        · rw [List.flatMap_cons, i2]
                          simp only [isTrailSurrogate, isLeadSurrogate, Bool.and_eq_true,
                            decide_eq_true_eq] at hl hv
                          have h16 : utf16Units (pairCodePoint u v) = [u, v] := by
                            unfold utf16Units
                            rw [if_neg (by omega)]
                            unfold pairCodePoint
                            simp only [List.cons.injEq, and_true]
                            omega
                          rw [h16]
                          rfl
          · cases rest <;> simp [codePoints, ht] at h

theorem btoa_bytes (bs : List Nat) (h : ∀ b ∈ bs, b < 256) :
    btoa bs = some (base64Encode bs) := by
  unfold btoa
  rw [if_pos]
  simp only [List.all_eq_true, decide_eq_true_eq]
  intro b hb
  have := h b hb
  omega

theorem utf8_lt (cps : List Nat) (h : ∀ cp ∈ cps, cp < 0x110000) :
    ∀ b ∈ utf8 cps, b < 256 := by
  intro b hb
  simp only [utf8, List.mem_flatMap] at hb
  obtain ⟨cp, hcp, hb⟩ := hb
  exact utf8Octets_lt cp (h cp hcp) b hb

theorem payload_of_codePoints (content cps : List Nat) (hunits : ∀ u ∈ content, u < 65536)
    (hcps : codePoints content = some cps) :
    encodePayload content = some (base64Encode (utf8 cps)) ∧
      decodePayload (base64Encode (utf8 cps)) = some content := by
  obtain ⟨hscalar, hback⟩ := codePoints_sound content.length content cps (le_refl _) hunits hcps
  have hbytes := utf8_lt cps (fun cp hcp => (hscalar cp hcp).1)
  have henc := unescape_encodeURIComponent content.length content (le_refl _) hunits
  rw [hcps] at henc
  constructor
  · unfold encodePayload
    cases he : encodeURIComponent content with
    | none => simp [he] at henc
    | some e =>
        simp only [he, Option.map_some', Option.some.injEq] at henc
        simp only [Option.some_bind, henc]
        exact btoa_bytes _ hbytes
  · unfold decodePayload
    rw [atob_base64Encode _ hbytes]
    simp only [Option.some_bind]
    rw [decode_utf8 cps hscalar, hback]

theorem payload_of_unpaired (content : List Nat) (hunits : ∀ u ∈ content, u < 65536)
    (hcps : codePoints content = none) : encodePayload content = none := by
  have henc := unescape_encodeURIComponent content.length content (le_refl _) hunits
  rw [hcps] at henc
  unfold encodePayload
  cases he : encodeURIComponent content with
  | none => rfl
  | some e => simp [he] at henc

theorem calls_putAndFinish (call : ApiCall) (r : FetchResult) (fallback message : String) :
    (putAndFinish call r fallback message).calls = [call] := by
  unfold putAndFinish
  split <;> rfl

theorem createFile_content (name : String) (content payload : List Nat)
    (commitMessage : String) (r : FetchResult) (s : State)
    (h : encodePayload content = some payload) :
    ∀ c ∈ (createFile name content commitMessage r s).calls,
      c.body.lookup "content" = some (.str (asciiString payload)) := by
  intro c hc
  unfold createFile at hc
  simp only [h] at hc
  split_ifs at hc
  · simp [Outcome.rejected] at hc
  · simp [Outcome.rejected] at hc
  · split at hc
    · simp [Outcome.caught] at hc
    · rw [calls_putAndFinish] at hc
      simp only [List.mem_singleton] at hc
      subst hc
      simp [List.lookup]

theorem saveFile_content (item : Option Item) (fileSha : Option JValue)
    (content payload : List Nat) (commitMessage : String) (r : FetchResult) (s : State)
    (h : encodePayload content = some payload) :
    ∀ c ∈ (saveFile item fileSha content commitMessage r s).calls,
      c.body.lookup "content" = some (.str (asciiString payload)) := by
  intro c hc
  unfold saveFile at hc
  simp only [h] at hc
  split at hc
  · simp [Outcome.caught] at hc
  · split at hc
    · simp [Outcome.caught] at hc
    · rw [calls_putAndFinish] at hc
      simp only [List.mem_singleton] at hc
      subst hc
      simp [properties, List.lookup]

/-- C17: for every content without an unpaired surrogate, `cps` being its code points, the
expression of `createFile` and `saveFile` yields the base64 encoding of the UTF-8
octets of `cps`, every request the two functions issue has it as `content`, and the
expression of `editFile` and `downloadFile` turns it back into the content. -/
theorem payload_roundtrip (content cps : List Nat) (hunits : ∀ u ∈ content, u < 65536)
    (hcps : codePoints content = some cps) :
    encodePayload content = some (base64Encode (utf8 cps)) ∧
    decodePayload (base64Encode (utf8 cps)) = some content ∧
    (∀ name commitMessage r s, ∀ c ∈ (createFile name content commitMessage r s).calls,
      c.body.lookup "content" = some (.str (asciiString (base64Encode (utf8 cps))))) ∧
    (∀ item fileSha commitMessage r s,
      ∀ c ∈ (saveFile item fileSha content commitMessage r s).calls,
        c.body.lookup "content" = some (.str (asciiString (base64Encode (utf8 cps))))) := by
  obtain ⟨h1, h2⟩ := payload_of_codePoints content cps hunits hcps
  exact ⟨h1, h2, fun name commitMessage r s => createFile_content name content _ commitMessage r s h1,
    fun item fileSha commitMessage r s =>
      saveFile_content item fileSha content _ commitMessage r s h1⟩

set_option maxRecDepth 100000 in
/-- The text `héllo 😀` is written as `aMOpbGxvIPCfmIA=`, the base64 encoding of its ten
UTF-8 octets, and is read back unchanged. -/
theorem payload_roundtrip_witness :
    utf8 sampleCodePoints = [104, 0xC3, 0xA9, 108, 108, 111, 32, 0xF0, 0x9F, 0x98, 0x80] ∧
    encodePayload sampleContent = some (base64Encode (utf8 sampleCodePoints)) ∧
    decodePayload (base64Encode (utf8 sampleCodePoints)) = some sampleContent :=
  ⟨by decide,
   (payload_roundtrip sampleContent sampleCodePoints (by decide) (by decide)).1,
   (payload_roundtrip sampleContent sampleCodePoints (by decide) (by decide)).2.1⟩

set_option maxRecDepth 100000 in
/-- A content that ends in the first half of a surrogate pair has no UTF-8 octets:
`encodeURIComponent` throws, and `createFile` and `saveFile` show the error without
issuing a request. -/
theorem unpaired_surrogate_not_written :
    (∀ u ∈ unpairedContent, u < 65536) ∧
    codePoints unpairedContent = none ∧
    encodePayload unpairedContent = none ∧
    createFile "a.txt" unpairedContent "Create new file" created selectedState =
      .caught [] .uriError ∧
    saveFile (some sampleItem) (some (.str "3b18e5")) unpairedContent "Update a.txt" created
        selectedState = .caught [] .uriError := by
  refine ⟨by decide, by decide, by decide, by decide, by decide⟩

end RepoManager
